import Mathlib

/-!
A verification development for the tcpstat connection-tracking engine
(src/connection.c, src/filter.c, src/group.c, src/stat.c).

The C code is embedded shallowly: machine integers become `Nat`/`Int`
(with explicit masks where the C masks), socket addresses become an
inductive value type, the intrusive pointer structures (hash buckets,
connection queues, group lists) become Lean lists, and the mutable
heap of connections and groups becomes association lists indexed by
numeric identifiers standing for addresses.  Stateful C functions
become pure functions from state to state.
-/

namespace Tcpstat

/-! ## Address families and socket addresses

`struct sockaddr_storage` always carries either a `sockaddr_in` or a
`sockaddr_in6` in this program, so it is embedded as an inductive
value.  Addresses and ports are kept in network byte order, exactly as
the C code stores them; byte-order conversions are applied only where
the source applies `ntohs`/`ntohl` (the hash functions).  IPv6
addresses are the 16 bytes of `s6_addr`. -/

def AF_INET : Nat := 2

def AF_INET6 : Nat := 10

inductive Sockaddr where
  | v4 (addr : Nat) (port : Nat)
  | v6 (addr : List Nat) (port : Nat)
  deriving DecidableEq, Repr

/-- `ss_family` of the stored address. -/
def Sockaddr.family : Sockaddr → Nat
  | .v4 _ _ => AF_INET
  | .v6 _ _ => AF_INET6

/-- `ss_get_port` (connection.c): reads the port field of whichever
sockaddr variant is stored, without byte-order conversion. -/
def ss_get_port : Sockaddr → Nat
  | .v4 _ p => p
  | .v6 _ p => p

/-- `enum ss_match_verdict`. -/
inductive SSMatchVerdict where
  | MATCH_NONE
  | MATCH_PORT
  | MATCH_ADDRESS
  | MATCH_BOTH
  deriving DecidableEq, Repr

open SSMatchVerdict

/-- Address-bytes comparison used by `ss_match` (memcmp of `in_addr`
resp. `in6_addr`); only invoked once the families agree. -/
def addrBytesEq : Sockaddr → Sockaddr → Bool
  | .v4 a _, .v4 b _ => a == b
  | .v6 a _, .v6 b _ => a == b
  | _, _ => false

/-- `ss_match` (connection.c): verdict on how two socket addresses
relate.  In this embedding the family is always `AF_INET` or
`AF_INET6`, so the invalid-family early return cannot fire. -/
def ss_match (s1 s2 : Sockaddr) : SSMatchVerdict :=
  if s1.family ≠ s2.family then MATCH_NONE
  else
    let ret := if ss_get_port s1 = ss_get_port s2 then MATCH_PORT else MATCH_NONE
    if addrBytesEq s1 s2 then
      if ret = MATCH_PORT then MATCH_BOTH else MATCH_ADDRESS
    else ret

/-! ## TCP states, directions, metadata -/

inductive TcpState where
  | TCP_DEAD
  | TCP_ESTABLISHED
  | TCP_SYN_SENT
  | TCP_SYN_RECV
  | TCP_FIN_WAIT1
  | TCP_FIN_WAIT2
  | TCP_TIME_WAIT
  | TCP_CLOSE
  | TCP_CLOSE_WAIT
  | TCP_LAST_ACK
  | TCP_LISTEN
  | TCP_CLOSING
  deriving DecidableEq, Repr

inductive ConnectionDir where
  | DIR_UNKNOWN
  | DIR_OUTBOUND
  | DIR_INBOUND
  deriving DecidableEq, Repr

def METADATA_STATE_CHANGED : Nat := 0x01

def METADATA_NEW : Nat := 0x02

def METADATA_UPDATED : Nat := 0x04

def METADATA_RESOLVED : Nat := 0x10

/-- Modelled from the spec: the header revision defining the
`METADATA_IGNORED` flag is not in src (stat.c uses it, connection.h in
the snapshot stops at `METADATA_RESOLVED`); the spec's flag set and
the round-close clearing behaviour place it among the high-nibble
flags that survive `metadata_clear_flags`. -/
def METADATA_IGNORED : Nat := 0x20

/-- Modelled from the spec: the header revision defining the
`METADATA_WARN` flag is not in src; as for `METADATA_IGNORED` it is a
high-nibble flag. -/
def METADATA_WARN : Nat := 0x40

def METADATA_TOUCHED_MASK : Nat := 0x07

/-- `struct conn_metadata` restricted to the fields the engine reads:
the cached display strings, inode and route are display-only and do
not influence any branch in the embedded functions. -/
structure ConnMetadata where
  added : Int
  dir : ConnectionDir
  flags : Nat
  ifname : Option String
  linger_secs : Int
  deriving DecidableEq, Repr

def metadata_set_flag (m : ConnMetadata) (f : Nat) : ConnMetadata :=
  { m with flags := m.flags ||| f }

def metadata_is_new (m : ConnMetadata) : Bool :=
  m.flags &&& METADATA_NEW ≠ 0

def metadata_is_state_changed (m : ConnMetadata) : Bool :=
  m.flags &&& METADATA_STATE_CHANGED ≠ 0

def metadata_is_touched (m : ConnMetadata) : Bool :=
  m.flags &&& METADATA_TOUCHED_MASK ≠ 0

/-- Modelled from the spec: the macro is used by stat.c but its
definition is in the header revision missing from src; the spec lists
IGNORED among the metadata flags tested on a record. -/
def metadata_is_ignored (m : ConnMetadata) : Bool :=
  m.flags &&& METADATA_IGNORED ≠ 0

/-- `metadata_clear_flags`: `m.flags = m.flags & 0xF0`. -/
def metadata_clear_flags (m : ConnMetadata) : ConnMetadata :=
  { m with flags := m.flags &&& 0xF0 }

/-! ## Connections

`struct tcp_connection`.  The intrusive `next`/`prev` pointers are
represented by list positions in whichever container holds the
record; the `group` back-pointer becomes an optional group
identifier. -/

structure TcpConn where
  family : Nat
  laddr : Sockaddr
  raddr : Sockaddr
  state : TcpState
  metadata : ConnMetadata
  group : Option Nat
  deriving DecidableEq, Repr

/-! ## Filters (filter.h / filter.c) -/

def POLICY_LOCAL : Nat := 0x01

def POLICY_REMOTE : Nat := 0x02

def POLICY_ADDR : Nat := 0x04

def POLICY_PORT : Nat := 0x08

def POLICY_STATE : Nat := 0x10

def POLICY_PID : Nat := 0x20

def POLICY_AF : Nat := 0x40

def POLICY_CLOUD : Nat := 0x80

def POLICY_IF : Nat := 0x100

inductive FilterAction where
  | FILTERACT_NONE
  | FILTERACT_GROUP
  | FILTERACT_WARN
  | FILTERACT_LOG
  | FILTERACT_IGNORE
  deriving DecidableEq, Repr

/-- `struct filter` restricted to the fields read by the matcher and
the claims.  The `evals`/`matches` counters never influence a branch;
the number of evaluations a list traversal performs is modelled
separately (`filtlist_match_count`).  The group back-pointer of
user-supplied filters is carried next to the filter in the tracker
state. -/
structure Filter where
  action : FilterAction
  af : Nat
  policy : Nat
  laddr : Sockaddr
  raddr : Sockaddr
  state : TcpState
  ifname : Option String
  cloud_stamp : Int
  deriving DecidableEq, Repr

/-- `filter_init` (sans group handling): all selector fields zeroed by
`memset`.  A zeroed `sockaddr_storage` is represented by the zero v4
address; no embedded code path reads a selector field whose policy
flag is unset. -/
def filter_init (policy : Nat) (act : FilterAction) : Filter :=
  { action := act, af := 0, policy := policy, laddr := .v4 0 0, raddr := .v4 0 0,
    state := .TCP_DEAD, ifname := none, cloud_stamp := 0 }

/-- `filter_from_connection`: snapshot the selected fields of a record
into a fresh filter.  `now` stands for the `time(NULL)` call that
stamps cloud filters. -/
def filter_from_connection (c : TcpConn) (selector_flags : Nat)
    (act : FilterAction) (now : Int) : Filter :=
  let filt := filter_init selector_flags act
  let filt := if selector_flags &&& POLICY_LOCAL ≠ 0 then { filt with laddr := c.laddr } else filt
  let filt := if selector_flags &&& POLICY_REMOTE ≠ 0 ∨ selector_flags &&& POLICY_CLOUD ≠ 0 then
    { filt with raddr := c.raddr } else filt
  let filt := if selector_flags &&& POLICY_STATE ≠ 0 then { filt with state := c.state } else filt
  let filt := if selector_flags &&& POLICY_AF ≠ 0 then { filt with af := c.family } else filt
  let filt := if selector_flags &&& POLICY_CLOUD ≠ 0 then { filt with cloud_stamp := now } else filt
  let filt := if selector_flags &&& POLICY_IF ≠ 0 then { filt with ifname := c.metadata.ifname } else filt
  filt

/-- `match_saddr` (filter.c): compare two socket addresses under the
ADDR/PORT sub-flags of a policy.  The ADDR|PORT case is the source's
`memcmp` of the whole `sockaddr_storage`, i.e. structural equality;
the PORT-only case reads each side's port per that side's own family
and performs no family check, exactly as the source does. -/
def match_saddr (filt_addr conn_addr : Sockaddr) (pol : Nat) : Bool :=
  if pol &&& (POLICY_ADDR ||| POLICY_PORT) = 0 then true
  else if pol &&& POLICY_ADDR ≠ 0 ∧ pol &&& POLICY_PORT ≠ 0 then
    if filt_addr.family ≠ conn_addr.family then false
    else filt_addr == conn_addr
  else if pol &&& POLICY_ADDR ≠ 0 then
    if filt_addr.family ≠ conn_addr.family then false
    else addrBytesEq filt_addr conn_addr
  else
    ss_get_port filt_addr == ss_get_port conn_addr

def CLOUD_TIME_LIMIT : Int := 2

/-- `filter_match` (filter.c): the `rv` accumulator of the source is
threaded explicitly.  Stages appear in source order: AF (mismatch
returns 0, match leaves rv untouched), IF (either name unset counts
as a match, per the source), CLOUD (signed `added - cloud_stamp <
CLOUD_TIME_LIMIT`), LOCAL, REMOTE (each returns 0 on failure and sets
rv on success) and STATE (sets rv on equality; on inequality the
source falls through and returns the rv accumulated so far). -/
def filter_match (filt : Filter) (c : TcpConn) : Bool :=
  if filt.policy &&& POLICY_AF ≠ 0 ∧
      (c.laddr.family ≠ filt.af ∨ c.raddr.family ≠ filt.af) then false
  else if filt.policy &&& POLICY_IF ≠ 0 ∧ c.metadata.ifname.isSome ∧
      filt.ifname.isSome ∧ c.metadata.ifname ≠ filt.ifname then
    -- the `return rv` of the strcmp-mismatch branch: rv is still 0 here
    false
  else
    let rv := filt.policy &&& POLICY_IF ≠ 0
    if filt.policy &&& POLICY_CLOUD ≠ 0 ∧
        ¬ (c.metadata.added - filt.cloud_stamp < CLOUD_TIME_LIMIT) then false
    else
      let rv := rv ∨ filt.policy &&& POLICY_CLOUD ≠ 0
      if filt.policy &&& POLICY_LOCAL ≠ 0 ∧
          ¬ match_saddr filt.laddr c.laddr filt.policy then false
      else
        let rv := rv ∨ filt.policy &&& POLICY_LOCAL ≠ 0
        if filt.policy &&& POLICY_REMOTE ≠ 0 ∧
            ¬ match_saddr filt.raddr c.raddr filt.policy then false
        else
          let rv := rv ∨ filt.policy &&& POLICY_REMOTE ≠ 0
          if filt.policy &&& POLICY_STATE ≠ 0 ∧ filt.state = c.state then true
          else decide rv

/-- `filter_has_policy`. -/
def filter_has_policy (filt : Filter) (flags : Nat) : Bool :=
  filt.policy &&& flags == flags

/-! ## Filter lists (filter.c) -/

inductive FiltlistPolicy where
  | LAST_MATCH
  | FIRST_MATCH
  deriving DecidableEq, Repr

inductive FiltlistAddPolicy where
  | ADD_FIRST
  | ADD_LAST
  deriving DecidableEq, Repr

/-- `struct filter_list`: the intrusive `next` chain becomes a list in
traversal order. -/
structure FilterList where
  policy : FiltlistPolicy
  filters : List Filter
  deriving DecidableEq, Repr

def filtlist_init (policy : FiltlistPolicy) : FilterList :=
  { policy := policy, filters := [] }

/-- `filtlist_add`. -/
def filtlist_add (list : FilterList) (filt : Filter) (pol : FiltlistAddPolicy) : FilterList :=
  match pol with
  | .ADD_FIRST => { list with filters := filt :: list.filters }
  | .ADD_LAST => { list with filters := list.filters ++ [filt] }

/-- The traversal of `filtlist_match`, additionally reporting how many
times `filter_match` was invoked (the source's side effect on each
filter's `evals` counter).  Under FIRST_MATCH a match breaks the loop;
under LAST_MATCH the loop continues and a later match overwrites
`rv`. -/
def filtlist_match_count (pol : FiltlistPolicy) (c : TcpConn) :
    List Filter → Option Filter × Nat
  | [] => (none, 0)
  | filt :: rest =>
    if filter_match filt c then
      if pol = .FIRST_MATCH then (some filt, 1)
      else
        let (r, n) := filtlist_match_count pol c rest
        ((r <|> some filt), n + 1)
    else
      let (r, n) := filtlist_match_count pol c rest
      (r, n + 1)

/-- `filtlist_match`. -/
def filtlist_match (list : FilterList) (c : TcpConn) : Option Filter :=
  (filtlist_match_count list.policy c list.filters).1

/-- `filtlist_action_for`. -/
def filtlist_action_for (list : FilterList) (c : TcpConn) : FilterAction :=
  match filtlist_match list c with
  | some filt => filt.action
  | none => .FILTERACT_NONE

/-! ## The connection hash table (connection.c)

`struct chashtable` has a fixed array of `CONNECTION_HASHTABLE_SIZE`
buckets, each a singly linked list of nodes pointing at connections.
A bucket becomes a `List TcpConn` (node order = list order, inserts at
the head), the array becomes a list of buckets. -/

def CONNECTION_HASHTABLE_SIZE : Nat := 256

structure Chashtable where
  size : Int
  nrof_buckets : Nat
  buckets : List (List TcpConn)
  deriving DecidableEq, Repr

/-- `chash_init`. -/
def chash_init : Chashtable :=
  { size := 0, nrof_buckets := CONNECTION_HASHTABLE_SIZE,
    buckets := List.replicate CONNECTION_HASHTABLE_SIZE [] }

/-- `ntohs` on a little-endian host: swap the two bytes of a 16-bit
value. -/
def ntohs (n : Nat) : Nat :=
  (n % 256) * 256 + (n / 256) % 256

/-- `ntohl` on a little-endian host: reverse the four bytes of a
32-bit value. -/
def ntohl (n : Nat) : Nat :=
  (n % 256) * 16777216 + ((n / 256) % 256) * 65536 +
    ((n / 65536) % 256) * 256 + (n / 16777216) % 256

/-- `htonl` is the same byte swap. -/
def htonl (n : Nat) : Nat := ntohl n

/-- v4 address bytes as the C code reads them through a
`sockaddr_in` view; only ever applied to a v4-tagged address (the C
code reinterprets raw memory, the default branch is unreachable under
the well-formedness hypotheses of the theorems). -/
def sin_addr : Sockaddr → Nat
  | .v4 a _ => a
  | .v6 _ _ => 0

/-- Byte `i` of `s6_addr`, as read through a `sockaddr_in6` view. -/
def sin6_addr_byte (s : Sockaddr) (i : Nat) : Nat :=
  match s with
  | .v6 a _ => a.getD i 0
  | .v4 _ _ => 0

/-- `chash_fn4`: `ntohl(raddr.sin_addr) + ntohs(laddr.sin_port) +
ntohs(raddr.sin_port)` masked to the bucket count.  The C `int`
overflow cannot change the low bits kept by the mask, so plain `Nat`
addition is faithful. -/
def chash_fn4 (tab : Chashtable) (laddr raddr : Sockaddr) : Nat :=
  (ntohl (sin_addr raddr) + ntohs (ss_get_port laddr) + ntohs (ss_get_port raddr))
    &&& (tab.nrof_buckets - 1)

/-- `chash_fn6`: `ntohl(raddr.s6_addr[0]) ^ htonl(raddr.s6_addr[3])`
plus both ports, masked.  Note the source indexes single bytes of
`s6_addr`, not 32-bit words. -/
def chash_fn6 (tab : Chashtable) (laddr raddr : Sockaddr) : Nat :=
  ((ntohl (sin6_addr_byte raddr 0) ^^^ htonl (sin6_addr_byte raddr 3)) +
      ntohs (ss_get_port raddr) + ntohs (ss_get_port laddr))
    &&& (tab.nrof_buckets - 1)

/-- `resolve_bucket`: bucket index for a connection, selected on the
connection's own `family` field. -/
def resolve_bucket (tab : Chashtable) (c : TcpConn) : Nat :=
  if c.family = AF_INET then chash_fn4 tab c.laddr c.raddr
  else chash_fn6 tab c.laddr c.raddr

/-- `resolve_bucket_sa`: bucket index for a pair of addresses,
selected on the local address's `ss_family`. -/
def resolve_bucket_sa (tab : Chashtable) (laddr raddr : Sockaddr) : Nat :=
  if laddr.family = AF_INET then chash_fn4 tab laddr raddr
  else chash_fn6 tab laddr raddr

/-- `chash_put`: prepend a node to the resolved bucket, grow `size`.
No duplicate check, exactly as the source. -/
def chash_put (tab : Chashtable) (c : TcpConn) : Chashtable :=
  let idx := resolve_bucket tab c
  { tab with buckets := tab.buckets.set idx (c :: tab.buckets.getD idx []),
             size := tab.size + 1 }

/-- `key_cmp`: both stored addresses must relate to the query
addresses with verdict `MATCH_BOTH`. -/
def key_cmp (laddr raddr : Sockaddr) (c : TcpConn) : Bool :=
  ¬ (ss_match laddr c.laddr ≠ MATCH_BOTH ∨ ss_match raddr c.raddr ≠ MATCH_BOTH)

/-- `chash_get`: scan the resolved bucket for the first key match. -/
def chash_get (tab : Chashtable) (laddr raddr : Sockaddr) : Option TcpConn :=
  (tab.buckets.getD (resolve_bucket_sa tab laddr raddr) []).find? (key_cmp laddr raddr)

/-- The bucket traversal of `chash_remove`: unlink the first matching
node, keep the rest of the chain intact. -/
def bucket_remove (laddr raddr : Sockaddr) : List TcpConn → Option TcpConn × List TcpConn
  | [] => (none, [])
  | c :: rest =>
    if key_cmp laddr raddr c then (some c, rest)
    else
      let (r, rest') := bucket_remove laddr raddr rest
      (r, c :: rest')

/-- `chash_remove`: returns the removed connection (or `none`) and the
table after the removal; `size` shrinks only when a node was
unlinked. -/
def chash_remove (tab : Chashtable) (laddr raddr : Sockaddr) :
    Option TcpConn × Chashtable :=
  let idx := resolve_bucket_sa tab laddr raddr
  let (r, bucket') := bucket_remove laddr raddr (tab.buckets.getD idx [])
  match r with
  | some c =>
    (some c, { tab with buckets := tab.buckets.set idx bucket', size := tab.size - 1 })
  | none => (none, { tab with buckets := tab.buckets.set idx bucket' })

/-- `chash_remove_connection`. -/
def chash_remove_connection (tab : Chashtable) (c : TcpConn) :
    Option TcpConn × Chashtable :=
  chash_remove tab c.laddr c.raddr

/-! ## Association-list heap

The tracker mutates a heap of `struct tcp_connection` and
`struct group` objects through pointers.  The heap is embedded as an
association list from numeric identifiers to values; identifiers are
handed out by a counter, so they are stable names for the C
pointers. -/

/-- Look up a key in an association list. -/
def alook {α : Type} (k : Nat) : List (Nat × α) → Option α
  | [] => none
  | p :: rest => if p.1 = k then some p.2 else alook k rest

/-- Update the value stored at a key (no-op when absent). -/
def aupd {α : Type} (k : Nat) (f : α → α) (l : List (Nat × α)) : List (Nat × α) :=
  l.map fun p => if p.1 = k then (p.1, f p.2) else p

/-- Remove a key. -/
def aerase {α : Type} (k : Nat) (l : List (Nat × α)) : List (Nat × α) :=
  l.filter fun p => p.1 ≠ k

/-! ## Groups and the tracker state (group.c, stat.h, stat.c)

A `struct group` owns a filter (`grp_filter`), a membership queue
(`group_q`, head first; `cqueue_push` prepends) and an optional parent
connection.  The `glist` group lists become lists of group
identifiers (`glist_add` prepends).  `struct stat_context` becomes
`StatContext`; the connection hashtable's role in the tracker is the
set of live records, so it appears as the `conns` heap itself (every
tracked record is in the table; bucket organisation is exercised by
the standalone `Chashtable` model above). -/

structure ConnGroup where
  grp_filter : Option Filter
  members : List Nat
  parent : Option Nat
  deriving DecidableEq, Repr

/-- `struct stat_context` restricted to the engine fields.  `filters`
pairs each user filter with the identifier of its associated group
(`filter_init(policy, act, 1)` always creates one at tcpstat.c's call
sites); the list policy of `ctx->filters` is FIRST_MATCH, as set by
`filtlist_init(FIRST_MATCH)` in main.  `linger` is the OP_LINGER
operation flag; follow-pid mode is disabled throughout this model, so
the ENABLE_FOLLOW_PID paths that bypass the engine are absent. -/
structure StatContext where
  conns : List (Nat × TcpConn)
  groups : List (Nat × ConnGroup)
  newq : List Nat
  listen_groups : List Nat
  out_groups : List Nat
  filters : List (Filter × Nat)
  common_policy : Nat
  linger : Bool
  nextConn : Nat
  nextGroup : Nat
  new_count : Int
  total_count : Int
  deriving DecidableEq, Repr

/-- Update one connection record in place. -/
def updConn (cid : Nat) (f : TcpConn → TcpConn) (ctx : StatContext) : StatContext :=
  { ctx with conns := aupd cid f ctx.conns }

/-- Update one group in place. -/
def updGroup (gid : Nat) (f : ConnGroup → ConnGroup) (ctx : StatContext) : StatContext :=
  { ctx with groups := aupd gid f ctx.groups }

/-- `group_add_connection`: push the record on the group queue and set
its back-pointer. -/
def group_add_connection (gid : Nat) (cid : Nat) (ctx : StatContext) : StatContext :=
  updConn cid (fun c => { c with group := some gid })
    (updGroup gid (fun g => { g with members := cid :: g.members }) ctx)

/-- `group_remove_connection`: unlink from the queue and clear the
back-pointer (the source clears it even if the record was not on this
group's queue). -/
def group_remove_connection (gid : Nat) (cid : Nat) (ctx : StatContext) : StatContext :=
  updConn cid (fun c => { c with group := none })
    (updGroup gid (fun g => { g with members := g.members.erase cid }) ctx)

/-- `group_match`: a group with no filter matches everything,
otherwise delegate to `filter_match`.  A dangling group id never
arises under the tracker invariant. -/
def group_match (ctx : StatContext) (gid : Nat) (c : TcpConn) : Bool :=
  match alook gid ctx.groups with
  | none => false
  | some g =>
    match g.grp_filter with
    | none => true
    | some filt => filter_match filt c

/-- `group_get_policy`: the policy of the group's filter, 0 when the
group has no filter. -/
def group_get_policy (ctx : StatContext) (gid : Nat) : Nat :=
  match alook gid ctx.groups with
  | some g =>
    match g.grp_filter with
    | some filt => filt.policy
    | none => 0
  | none => 0

/-- `group_get_size`. -/
def group_get_size (ctx : StatContext) (gid : Nat) : Nat :=
  match alook gid ctx.groups with
  | some g => g.members.length
  | none => 0

/-- `group_get_parent`. -/
def group_get_parent (ctx : StatContext) (gid : Nat) : Option Nat :=
  match alook gid ctx.groups with
  | some g => g.parent
  | none => none

/-- The FIRST_MATCH traversal of `filtlist_match` over the tracker's
user-filter list (whose elements carry their group ids). -/
def filtlist_match_first (filters : List (Filter × Nat)) (c : TcpConn) :
    Option (Filter × Nat) :=
  filters.find? fun p => filter_match p.1 c

/-- `chash_get` as used by `insert_connection`: find the record whose
stored addresses both match the observed pair (bucket organisation
does not affect which record a full scan finds, since tracked records
are unique per key). -/
def ctx_find_conn (ctx : StatContext) (laddr raddr : Sockaddr) :
    Option (Nat × TcpConn) :=
  ctx.conns.find? fun p => key_cmp laddr raddr p.2

/-- The LISTEN branch of `insert_new_connection`: synthesize a group
with the new record as parent and an auto-filter
`LOCAL|PORT|ADDRESS-FAMILY` built from its own endpoint, and prepend
it to the listening group list. -/
def insert_listen_group (cid : Nat) (c2 : TcpConn) (now : Int) (ctx : StatContext) :
    StatContext :=
  let gid := ctx.nextGroup
  let lfilt := filter_from_connection c2 (POLICY_LOCAL ||| POLICY_PORT ||| POLICY_AF)
    .FILTERACT_GROUP now
  let grp : ConnGroup := { grp_filter := some lfilt, members := [], parent := some cid }
  { ctx with groups := (gid, grp) :: ctx.groups,
             listen_groups := gid :: ctx.listen_groups, nextGroup := gid + 1 }

/-- `insert_connection` (stat.c).  `now` stands for `time(NULL)`,
`ifn` for the `ifname_for_addr` result.  The observed record is either
an update of a tracked record (state change possibly re-queueing it
when its group is keyed by state) or a brand-new record that is
evaluated against the user-filter chain, stored, and then routed to
an ignore group, a fresh listening group, or the new-connection
queue. -/
def insert_connection (laddr raddr : Sockaddr) (state : TcpState)
    (ifn : Option String) (now : Int) (ctx : StatContext) : StatContext :=
  match ctx_find_conn ctx laddr raddr with
  | some (cid, c) =>
    let ctx := if metadata_is_touched c.metadata then
      { ctx with total_count := ctx.total_count - 1 } else ctx
    let ctx :=
      if c.state ≠ state then
        let grp := c.group
        let ctx := updConn cid (fun c => { c with
          state := state,
          metadata := metadata_set_flag c.metadata METADATA_STATE_CHANGED }) ctx
        match grp with
        | some gid =>
          if group_get_policy ctx gid &&& POLICY_STATE ≠ 0 then
            let ctx := group_remove_connection gid cid ctx
            { ctx with newq := cid :: ctx.newq }
          else ctx
        | none => ctx
      else ctx
    let ctx := { ctx with total_count := ctx.total_count + 1 }
    updConn cid (fun c => { c with metadata := metadata_set_flag c.metadata METADATA_UPDATED }) ctx
  | none =>
    -- brand-new record: evaluate the user-filter chain on the zeroed
    -- record (the source's `if (filt != NULL)` block becomes the match),
    -- stamp the metadata (insert_new_connection), store the record, and
    -- route it to the ignore group / a fresh listening group / the
    -- pending queue
    let cid := ctx.nextConn
    let ctx := { ctx with new_count := ctx.new_count + 1 }
    let c0 : TcpConn :=
      { family := laddr.family, laddr := laddr, raddr := raddr, state := state,
        metadata := { added := 0, dir := .DIR_UNKNOWN, flags := 0, ifname := none,
                      linger_secs := 0 },
        group := none }
    match filtlist_match_first ctx.filters c0 with
    | some (f, gid) =>
      let c1 :=
        if f.action = FilterAction.FILTERACT_IGNORE then
          { c0 with metadata := metadata_set_flag c0.metadata METADATA_IGNORED }
        else if f.action = FilterAction.FILTERACT_WARN then
          { c0 with metadata := metadata_set_flag c0.metadata METADATA_WARN }
        else c0
      let c2 := { c1 with metadata :=
        { metadata_set_flag c1.metadata METADATA_NEW with added := now, ifname := ifn } }
      let ctx := { ctx with conns := (cid, c2) :: ctx.conns, nextConn := cid + 1 }
      let ctx :=
        if metadata_is_ignored c2.metadata then
          group_add_connection gid cid ctx
        else if state = .TCP_LISTEN then
          insert_listen_group cid c2 now ctx
        else
          { ctx with newq := cid :: ctx.newq }
      let ctx := { ctx with total_count := ctx.total_count + 1 }
      updConn cid (fun c => { c with metadata := metadata_set_flag c.metadata METADATA_UPDATED }) ctx
    | none =>
      let c2 := { c0 with metadata :=
        { metadata_set_flag c0.metadata METADATA_NEW with added := now, ifname := ifn } }
      let ctx := { ctx with conns := (cid, c2) :: ctx.conns, nextConn := cid + 1 }
      let ctx :=
        if state = .TCP_LISTEN then
          insert_listen_group cid c2 now ctx
        else
          { ctx with newq := cid :: ctx.newq }
      let ctx := { ctx with total_count := ctx.total_count + 1 }
      updConn cid (fun c => { c with metadata := metadata_set_flag c.metadata METADATA_UPDATED }) ctx

/-- `iterate_glist_with_connection` without the add: the first group
on the list whose selector matches. -/
def glist_find_match (ctx : StatContext) (gids : List Nat) (c : TcpConn) :
    Option Nat :=
  gids.find? fun gid => group_match ctx gid c

/-- The body of the `rotate_new_queue` loop for one popped record:
try the listening groups (a match is an inbound connection), then the
outbound groups, otherwise synthesize a new group from the record's
fields under the tracker's grouping policy and prepend it to the
outbound group list. -/
def rotate_one (now : Int) (ctx : StatContext) (cid : Nat) : StatContext :=
  match alook cid ctx.conns with
  | none => ctx
  | some c =>
    match glist_find_match ctx ctx.listen_groups c with
    | some gid =>
      updConn cid (fun c => { c with metadata := { c.metadata with dir := .DIR_INBOUND } })
        (group_add_connection gid cid ctx)
    | none =>
      let ctx := updConn cid
        (fun c => { c with metadata := { c.metadata with dir := .DIR_OUTBOUND } }) ctx
      let c := { c with metadata := { c.metadata with dir := .DIR_OUTBOUND } }
      match glist_find_match ctx ctx.out_groups c with
      | some gid => group_add_connection gid cid ctx
      | none =>
        let gid := ctx.nextGroup
        let filt := filter_from_connection c ctx.common_policy .FILTERACT_GROUP now
        let grp : ConnGroup := { grp_filter := some filt, members := [], parent := none }
        let ctx := { ctx with groups := (gid, grp) :: ctx.groups, nextGroup := gid + 1 }
        let ctx := group_add_connection gid cid ctx
        { ctx with out_groups := gid :: ctx.out_groups }

/-- The pop-until-empty loop of `rotate_new_queue`; the loop body
never touches the queue, so the pops traverse the queue list in
order. -/
def rotate_list (now : Int) : List Nat → StatContext → StatContext
  | [], ctx => ctx
  | cid :: rest, ctx => rotate_list now rest (rotate_one now ctx cid)

/-- `rotate_new_queue`. -/
def rotate_new_queue (now : Int) (ctx : StatContext) : StatContext :=
  rotate_list now ctx.newq { ctx with newq := [] }

def LINGER_MAX_TIME : Int := 5

/-- `do_lingering`: move a freshly dead record into `TCP_DEAD` with a
deadline of `now + LINGER_MAX_TIME`; report an already-dead record as
removable once the deadline has passed. -/
def do_lingering (now : Int) (c : TcpConn) : Bool × TcpConn :=
  if c.state ≠ .TCP_DEAD then
    (false, { c with
      state := .TCP_DEAD,
      metadata := { c.metadata with linger_secs := now + LINGER_MAX_TIME } })
  else
    (c.metadata.linger_secs < now, c)

/-- The member traversal of `purge_closed_from_group`: untouched
records either linger or are unlinked from the group and removed from
the table; the returned count tallies every untouched record found
(including ones left lingering). -/
def purge_members (gid : Nat) (do_linger : Bool) (now : Int) :
    List Nat → StatContext → StatContext × Nat
  | [], ctx => (ctx, 0)
  | cid :: rest, ctx =>
    match alook cid ctx.conns with
    | none => purge_members gid do_linger now rest ctx
    | some c =>
      if ¬ metadata_is_touched c.metadata then
        if do_linger ∧ ¬ (do_lingering now c).1 then
          let ctx := updConn cid (fun _ => (do_lingering now c).2) ctx
          let (ctx', n) := purge_members gid do_linger now rest ctx
          (ctx', n + 1)
        else
          let ctx := group_remove_connection gid cid ctx
          let ctx := { ctx with conns := aerase cid ctx.conns }
          let (ctx', n) := purge_members gid do_linger now rest ctx
          (ctx', n + 1)
      else
        purge_members gid do_linger now rest ctx

/-- `purge_closed_from_group`. -/
def purge_closed_from_group (gid : Nat) (do_linger : Bool) (now : Int)
    (ctx : StatContext) : StatContext × Nat :=
  purge_members gid do_linger now
    (match alook gid ctx.groups with | some g => g.members | none => []) ctx

/-- `glist_delete_grp_if_empty` on the outbound list: drop a group
with no members and no parent from the list and the heap. -/
def delete_out_if_empty (gid : Nat) (ctx : StatContext) : StatContext :=
  if group_get_size ctx gid = 0 ∧ group_get_parent ctx gid = none then
    { ctx with out_groups := ctx.out_groups.erase gid, groups := aerase gid ctx.groups }
  else ctx

/-- `glist_delete_grp_if_empty` on the listening list. -/
def delete_listen_if_empty (gid : Nat) (ctx : StatContext) : StatContext :=
  if group_get_size ctx gid = 0 ∧ group_get_parent ctx gid = none then
    { ctx with listen_groups := ctx.listen_groups.erase gid, groups := aerase gid ctx.groups }
  else ctx

/-- The outbound-list loop of `purge_closed_connections`: the `while`
condition re-checks the remaining count before each group. -/
def purge_out_list (do_linger : Bool) (now : Int) :
    List Nat → StatContext → Int → StatContext × Int
  | [], ctx, cnt => (ctx, cnt)
  | gid :: rest, ctx, cnt =>
    if cnt ≤ 0 then (ctx, cnt)
    else
      let (ctx, k) := purge_closed_from_group gid do_linger now ctx
      let ctx := delete_out_if_empty gid ctx
      purge_out_list do_linger now rest ctx (cnt - k)

/-- The listening-list loop of `purge_closed_connections`: an
untouched listening parent is removed immediately (no lingering),
then the group members are purged. -/
def purge_listen_list (do_linger : Bool) (now : Int) :
    List Nat → StatContext → Int → StatContext × Int
  | [], ctx, cnt => (ctx, cnt)
  | gid :: rest, ctx, cnt =>
    if cnt ≤ 0 then (ctx, cnt)
    else
      let (ctx, cnt) :=
        match group_get_parent ctx gid with
        | some pcid =>
          match alook pcid ctx.conns with
          | some pc =>
            if ¬ metadata_is_touched pc.metadata then
              (updGroup gid (fun g => { g with parent := none })
                 { ctx with conns := aerase pcid ctx.conns }, cnt - 1)
            else (ctx, cnt)
          | none => (ctx, cnt)
        | none => (ctx, cnt)
      let (ctx, k) := purge_closed_from_group gid do_linger now ctx
      let ctx := delete_listen_if_empty gid ctx
      purge_listen_list do_linger now rest ctx (cnt - k)

/-- `purge_closed_connections`: user-filter groups are purged
unconditionally, then the outbound and listening group lists while
the remaining count stays positive. -/
def purge_closed_connections (ctx : StatContext) (closed_cnt : Int) (now : Int) :
    StatContext × Int :=
  let (ctx, closed_cnt) := ctx.filters.foldl
    (fun acc p =>
      let (ctx', k) := purge_closed_from_group p.2 acc.1.linger now acc.1
      (ctx', acc.2 - k))
    (ctx, closed_cnt)
  let (ctx, closed_cnt) := purge_out_list ctx.linger now ctx.out_groups ctx closed_cnt
  let (ctx, closed_cnt) := purge_listen_list ctx.linger now ctx.listen_groups ctx closed_cnt
  (ctx, closed_cnt)

/-- The queue-draining inner loop of `switch_grouping` for one
outbound group: pop every member, clear its back-pointer, push it on
the new-connection queue. -/
def empty_group_to_newq (gid : Nat) (ctx : StatContext) : StatContext :=
  match alook gid ctx.groups with
  | none => ctx
  | some g =>
    let ctx := g.members.foldl
      (fun cx cid =>
        let cx := updConn cid (fun c => { c with group := none }) cx
        { cx with newq := cid :: cx.newq })
      ctx
    updGroup gid (fun g => { g with members := [] }) ctx

/-- `switch_grouping`: no-op when the policy is unchanged; otherwise
drain every outbound group onto the new-connection queue, discard the
(now empty) outbound groups, install the new policy and re-run the
rotation. -/
def switch_grouping (ctx : StatContext) (new_grouping : Nat) (now : Int) : StatContext :=
  if ctx.common_policy = new_grouping then ctx
  else
    let ctx := ctx.out_groups.foldl (fun cx gid => empty_group_to_newq gid cx) ctx
    let ctx := { ctx with
      groups := ctx.groups.filter (fun p => p.1 ∉ ctx.out_groups),
      out_groups := [],
      common_policy := new_grouping }
    rotate_new_queue now ctx

/-- The drain phase of `switch_grouping` in isolation (stat.c lines
up to the `rotate_new_queue` call): every outbound group is emptied
onto the new-connection queue, the emptied groups are dropped from
the heap, the outbound list is cleared and the new policy installed.
`switch_grouping` on a changed policy is `rotate_new_queue` after
this. -/
def switch_drain (ctx : StatContext) (new_grouping : Nat) : StatContext :=
  let ctx := ctx.out_groups.foldl (fun cx gid => empty_group_to_newq gid cx) ctx
  { ctx with
    groups := ctx.groups.filter (fun p => p.1 ∉ ctx.out_groups),
    out_groups := [],
    common_policy := new_grouping }

/-- `group_clear_metadata_flags`: clear the round flags of the parent
and of every member of a group. -/
def group_clear_metadata_flags (ctx : StatContext) (gid : Nat) : StatContext :=
  match alook gid ctx.groups with
  | none => ctx
  | some g =>
    let ctx := match g.parent with
      | some pcid => updConn pcid (fun c => { c with metadata := metadata_clear_flags c.metadata }) ctx
      | none => ctx
    g.members.foldl
      (fun cx cid => updConn cid (fun c => { c with metadata := metadata_clear_flags c.metadata }) cx)
      ctx

/-- `clear_metadata_flags` over a group list. -/
def clear_metadata_flags (ctx : StatContext) (gids : List Nat) : StatContext :=
  gids.foldl group_clear_metadata_flags ctx

/-! ## Rounds

The command language of the main loop, restricted to the engine
operations the claims quantify over. -/

inductive Cmd where
  | ins (laddr raddr : Sockaddr) (state : TcpState) (ifn : Option String) (now : Int)
  | rot (now : Int)
  | prg (closed_cnt : Int) (now : Int)
  deriving Repr

def runCmd (ctx : StatContext) : Cmd → StatContext
  | .ins laddr raddr state ifn now => insert_connection laddr raddr state ifn now ctx
  | .rot now => rotate_new_queue now ctx
  | .prg closed_cnt now => (purge_closed_connections ctx closed_cnt now).1

def run (ctx : StatContext) : List Cmd → StatContext
  | [] => ctx
  | cmd :: rest => run (runCmd ctx cmd) rest

/-- The context main() starts the loop with (empty tables, the filter
chain populated by argument parsing). -/
def initCtx (filters : List (Filter × Nat)) (policy : Nat) (linger : Bool)
    (nextGroup : Nat) : StatContext :=
  { conns := [], groups := (filters.map (fun p => (p.2, ⟨none, [], none⟩))),
    newq := [], listen_groups := [], out_groups := [],
    filters := filters, common_policy := policy, linger := linger,
    nextConn := 0, nextGroup := nextGroup, new_count := 0, total_count := 0 }

/-! ## The tracker invariant

Well-formedness of a tracker state: the ownership discipline the
intrusive structures impose in C (one record is physically on at most
one queue) plus bookkeeping facts (identifier freshness, duplicate
freedom, group lists referring to live groups).  All components are
decidable so that concrete states can discharge the hypotheses by
`decide`. -/

/-- A member of group `gid` is a live record whose back-pointer names
exactly `gid`. -/
def memberOk (conns : List (Nat × TcpConn)) (gid : Nat) (cid : Nat) : Bool :=
  (alook cid conns).any fun c => c.group == some gid

/-- A record's back-pointer, when set, names a live group holding the
record on its membership queue. -/
def connOwnerOk (groups : List (Nat × ConnGroup)) (cid : Nat) (c : TcpConn) : Bool :=
  match c.group with
  | none => true
  | some gid => (alook gid groups).any fun g => g.members.contains cid

/-- A record on the pending queue is live and owned by no group. -/
def newqOk (conns : List (Nat × TcpConn)) (cid : Nat) : Bool :=
  (alook cid conns).any fun c => c.group == none

/-- A group's parent, when set, is a live record owned by no group,
absent from the pending queue, and parent of no other group. -/
def parentOk (conns : List (Nat × TcpConn)) (groups : List (Nat × ConnGroup))
    (newq : List Nat) (gid : Nat) (g : ConnGroup) : Bool :=
  match g.parent with
  | none => true
  | some pcid =>
    (alook pcid conns).any fun pc =>
      pc.group == none && !(newq.contains pcid) &&
        groups.all fun q => q.1 == gid || !(q.2.parent == some pcid)

/-- Every place a group identifier is referenced from: the listening
list, the outbound list, and the user filters' attached groups. -/
def groupRefs (ctx : StatContext) : List Nat :=
  ctx.listen_groups ++ ctx.out_groups ++ ctx.filters.map Prod.snd

/-- The tracker invariant. -/
def WF (ctx : StatContext) : Prop :=
  (ctx.conns.map Prod.fst).Nodup ∧
  (ctx.groups.map Prod.fst).Nodup ∧
  (∀ p ∈ ctx.conns, p.1 < ctx.nextConn) ∧
  (∀ p ∈ ctx.groups, p.1 < ctx.nextGroup) ∧
  (∀ p ∈ ctx.groups, p.2.members.Nodup) ∧
  ctx.newq.Nodup ∧
  (∀ p ∈ ctx.groups, ∀ cid ∈ p.2.members, memberOk ctx.conns p.1 cid = true) ∧
  (∀ p ∈ ctx.conns, connOwnerOk ctx.groups p.1 p.2 = true) ∧
  (∀ cid ∈ ctx.newq, newqOk ctx.conns cid = true) ∧
  (∀ p ∈ ctx.groups, parentOk ctx.conns ctx.groups ctx.newq p.1 p.2 = true) ∧
  (groupRefs ctx).Nodup ∧
  (∀ gid ∈ groupRefs ctx, (alook gid ctx.groups).isSome = true) ∧
  (∀ gid ∈ ctx.out_groups, group_get_parent ctx gid = none)

/-! ## Concrete instances used by counterexamples and witnesses -/

/-- A filter selecting on local port and state: local port 80,
state ESTABLISHED. -/
def exFiltLocal80Est : Filter :=
  { action := .FILTERACT_GROUP, af := 0,
    policy := POLICY_LOCAL ||| POLICY_PORT ||| POLICY_STATE,
    laddr := .v4 0 80, raddr := .v4 0 0, state := .TCP_ESTABLISHED,
    ifname := none, cloud_stamp := 0 }

/-- A v4 record with local port 80 in state TIME_WAIT. -/
def exConnTimeWait80 : TcpConn :=
  { family := AF_INET, laddr := .v4 7 80, raddr := .v4 9 99, state := .TCP_TIME_WAIT,
    metadata := { added := 0, dir := .DIR_UNKNOWN, flags := 0, ifname := none,
                  linger_secs := 0 },
    group := none }

/-- A cloud filter stamped at time 100. -/
def exFiltCloud100 : Filter :=
  { action := .FILTERACT_GROUP, af := 0, policy := POLICY_CLOUD,
    laddr := .v4 0 0, raddr := .v4 0 0, state := .TCP_DEAD,
    ifname := none, cloud_stamp := 100 }

/-- A v6 record (for the mixed-table witnesses). -/
def exConnV6 : TcpConn :=
  { family := AF_INET6,
    laddr := .v6 [0, 0, 0, 0, 0, 0, 0, 0, 0, 0, 0, 0, 0, 0, 0, 1] 22,
    raddr := .v6 [0x20, 1, 0, 0, 0, 0, 0, 0, 0, 0, 0, 0, 0, 0, 0, 9] 443,
    state := .TCP_ESTABLISHED,
    metadata := { added := 0, dir := .DIR_UNKNOWN, flags := 0, ifname := none,
                  linger_secs := 0 },
    group := none }

/-- A small mixed-family table (4 buckets) holding the v6 record and a
v4 record that collides with `exConnTimeWait80`'s bucket. -/
def exMixedTable : Chashtable :=
  chash_put (chash_put { size := 0, nrof_buckets := 4, buckets := [[], [], [], []] }
    exConnV6)
    { exConnTimeWait80 with laddr := .v4 5 80, raddr := .v4 6 99 }

/-- A tracker grown under the port policy: one established outbound
record with local port 22 (grouped into outbound group 0 by the first
rotation) and one listening record on local port 22 (listening group
1 with the auto LOCAL|PORT|AF filter). -/
def exC7ctx0 : StatContext :=
  run (initCtx [] POLICY_PORT false 0)
    [Cmd.ins (Sockaddr.v4 10 22) (Sockaddr.v4 20 33) TcpState.TCP_ESTABLISHED none 1,
     Cmd.rot 2,
     Cmd.ins (Sockaddr.v4 99 22) (Sockaddr.v4 0 0) TcpState.TCP_LISTEN none 3]

/-- The same tracker after switching the grouping policy to STATE. -/
def exC7ctx1 : StatContext := switch_grouping exC7ctx0 POLICY_STATE 4

/-- A tracker with lingering enabled holding one listening record on
local port 22 (record 0, parent of listening group 0). -/
def exC8ctx0 : StatContext :=
  run (initCtx [] POLICY_PORT true 0)
    [Cmd.ins (Sockaddr.v4 9 22) (Sockaddr.v4 0 0) TcpState.TCP_LISTEN none 1]

/-- The same tracker after a round close cleared the round flags, so
the listening parent counts as untouched. -/
def exC8ctx1 : StatContext := clear_metadata_flags exC8ctx0 exC8ctx0.listen_groups

/-- An untouched established record owned by group 0. -/
def exC8conn : TcpConn :=
  { family := AF_INET, laddr := .v4 1 10, raddr := .v4 2 20,
    state := .TCP_ESTABLISHED,
    metadata := { added := 0, dir := .DIR_OUTBOUND, flags := 0, ifname := none,
                  linger_secs := 0 },
    group := some 0 }

/-- A minimal well-formed tracker holding `exC8conn` as the only
member of outbound group 0, lingering enabled. -/
def exC8mctx : StatContext :=
  { conns := [(0, exC8conn)],
    groups := [(0, { grp_filter := none, members := [0], parent := none })],
    newq := [], listen_groups := [], out_groups := [0], filters := [],
    common_policy := 0, linger := true, nextConn := 1, nextGroup := 1,
    new_count := 0, total_count := 0 }

/-! # Theorems -/

/-! ## Association-list lemmas -/

section AListLemmas

variable {α : Type}

theorem alook_cons_self (k : Nat) (v : α) (l : List (Nat × α)) :
    alook k ((k, v) :: l) = some v := by
  simp [alook]

theorem alook_cons_ne (k k' : Nat) (v : α) (l : List (Nat × α)) (h : k ≠ k') :
    alook k' ((k, v) :: l) = alook k' l := by
  simp [alook, h]

theorem aupd_cons (k : Nat) (f : α → α) (p : Nat × α) (l : List (Nat × α)) :
    aupd k f (p :: l) = (if p.1 = k then (p.1, f p.2) else p) :: aupd k f l := by
  simp [aupd]

theorem aerase_cons (k : Nat) (p : Nat × α) (l : List (Nat × α)) :
    aerase k (p :: l) = if p.1 = k then aerase k l else p :: aerase k l := by
  simp only [aerase, List.filter]
  split <;> rename_i h
  · simp at h
    simp [h]
  · simp at h
    simp [h]

theorem alook_aupd_self (k : Nat) (f : α → α) (l : List (Nat × α)) :
    alook k (aupd k f l) = (alook k l).map f := by
  induction l with
  | nil => rfl
  | cons p rest ih =>
    rw [aupd_cons]
    by_cases hp : p.1 = k <;> simp [alook, hp, ih]

theorem alook_aupd_ne (k k' : Nat) (f : α → α) (l : List (Nat × α)) (h : k' ≠ k) :
    alook k' (aupd k f l) = alook k' l := by
  induction l with
  | nil => rfl
  | cons p rest ih =>
    rw [aupd_cons]
    by_cases hp : p.1 = k
    · simp [alook, hp, Ne.symm h, ih]
    · simp [alook, hp, ih]

theorem alook_aerase_self (k : Nat) (l : List (Nat × α)) :
    alook k (aerase k l) = none := by
  induction l with
  | nil => rfl
  | cons p rest ih =>
    rw [aerase_cons]
    by_cases hp : p.1 = k <;> simp [alook, hp, ih]

theorem alook_aerase_ne (k k' : Nat) (l : List (Nat × α)) (h : k' ≠ k) :
    alook k' (aerase k l) = alook k' l := by
  induction l with
  | nil => rfl
  | cons p rest ih =>
    rw [aerase_cons]
    by_cases hp : p.1 = k
    · simp [alook, hp, Ne.symm h, ih]
    · simp [alook, hp, ih]

theorem aupd_map_fst (k : Nat) (f : α → α) (l : List (Nat × α)) :
    (aupd k f l).map Prod.fst = l.map Prod.fst := by
  induction l with
  | nil => rfl
  | cons p rest ih =>
    rw [aupd_cons]
    by_cases h : p.1 = k <;> simp [h, ih]

theorem aerase_map_fst_sublist (k : Nat) (l : List (Nat × α)) :
    ((aerase k l).map Prod.fst).Sublist (l.map Prod.fst) :=
  (List.filter_sublist l).map Prod.fst

theorem mem_aupd (k : Nat) (f : α → α) (l : List (Nat × α)) (p : Nat × α)
    (hp : p ∈ aupd k f l) :
    ∃ q ∈ l, p.1 = q.1 ∧ ((q.1 ≠ k ∧ p.2 = q.2) ∨ (q.1 = k ∧ p.2 = f q.2)) := by
  simp only [aupd, List.mem_map] at hp
  obtain ⟨q, hq, hpq⟩ := hp
  by_cases h : q.1 = k
  · refine ⟨q, hq, ?_⟩
    simp [h] at hpq
    subst hpq
    simp [h]
  · refine ⟨q, hq, ?_⟩
    simp [h] at hpq
    subst hpq
    simp [h]

theorem mem_aerase (k : Nat) (l : List (Nat × α)) (p : Nat × α)
    (hp : p ∈ aerase k l) : p ∈ l ∧ p.1 ≠ k := by
  simp only [aerase, List.mem_filter, decide_eq_true_eq] at hp
  exact hp

theorem alook_eq_some_mem (k : Nat) (v : α) (l : List (Nat × α))
    (h : alook k l = some v) : (k, v) ∈ l := by
  induction l with
  | nil => simp [alook] at h
  | cons p rest ih =>
    by_cases hp : p.1 = k
    · simp [alook, hp] at h
      have hpv : (k, v) = p := by rw [← hp, ← h]
      rw [hpv]
      exact List.mem_cons_self ..
    · simp [alook, hp] at h
      exact List.mem_cons_of_mem _ (ih h)

theorem mem_alook (k : Nat) (v : α) (l : List (Nat × α))
    (hnd : (l.map Prod.fst).Nodup) (h : (k, v) ∈ l) : alook k l = some v := by
  induction l with
  | nil => simp at h
  | cons p rest ih =>
    simp only [List.map_cons, List.nodup_cons] at hnd
    rcases List.mem_cons.mp h with h | h
    · subst h
      exact alook_cons_self ..
    · have : p.1 ≠ k := by
        intro hk
        exact hnd.1 (hk ▸ (List.mem_map_of_mem Prod.fst h))
      rw [show p = (p.1, p.2) from rfl, alook_cons_ne _ _ _ _ this]
      exact ih hnd.2 h

theorem alook_isSome_mem_keys (k : Nat) (l : List (Nat × α))
    (h : (alook k l).isSome = true) : k ∈ l.map Prod.fst := by
  rcases hv : alook k l with _ | v
  · rw [hv] at h; simp at h
  · have := alook_eq_some_mem k v l hv
    simpa using List.mem_map_of_mem Prod.fst this

theorem mem_keys_alook_isSome (k : Nat) (l : List (Nat × α))
    (h : k ∈ l.map Prod.fst) : (alook k l).isSome = true := by
  induction l with
  | nil => simp at h
  | cons p rest ih =>
    by_cases hp : p.1 = k
    · simp [alook, hp]
    · simp only [List.map_cons, List.mem_cons] at h
      rcases h with h | h
      · exact absurd h.symm hp
      · simp [alook, hp, ih h]

theorem filter_keys_cons (s : List Nat) (p : Nat × α) (l : List (Nat × α)) :
    (p :: l).filter (fun q => q.1 ∉ s) =
      if p.1 ∈ s then l.filter (fun q => q.1 ∉ s)
      else p :: l.filter (fun q => q.1 ∉ s) := by
  simp only [List.filter]
  split <;> rename_i h
  · simp at h
    simp [h]
  · simp at h
    simp [h]

theorem alook_filter_keys (k : Nat) (s : List Nat) (l : List (Nat × α)) :
    alook k (l.filter fun p => p.1 ∉ s) = if k ∈ s then none else alook k l := by
  induction l with
  | nil => simp [alook]
  | cons p rest ih =>
    rw [filter_keys_cons]
    by_cases hm : p.1 ∈ s
    · rw [if_pos hm, ih]
      by_cases hk : k ∈ s
      · simp [hk]
      · have : p.1 ≠ k := fun h => hk (h ▸ hm)
        simp [hk, alook, this]
    · rw [if_neg hm]
      by_cases hpk : p.1 = k
      · subst hpk
        have hk : p.1 ∉ s := hm
        simp [alook, hk]
      · have e : ∀ (t : List (Nat × α)), alook k (p :: t) = alook k t := fun t => by
          rw [alook, if_neg hpk]
        rw [e, e, ih]

end AListLemmas

/-! ## Unpacking and re-packing the invariant components -/

theorem memberOk_spec (conns : List (Nat × TcpConn)) (gid : Nat) (cid : Nat)
    (h : memberOk conns gid cid = true) :
    ∃ c, alook cid conns = some c ∧ c.group = some gid := by
  unfold memberOk at h
  rcases hv : alook cid conns with _ | c
  · rw [hv] at h; simp [Option.any] at h
  · rw [hv] at h
    simp [Option.any] at h
    exact ⟨c, rfl, h⟩

theorem memberOk_intro (conns : List (Nat × TcpConn)) (gid : Nat) (cid : Nat)
    (c : TcpConn) (h : alook cid conns = some c) (hg : c.group = some gid) :
    memberOk conns gid cid = true := by
  unfold memberOk
  rw [h]
  simp [Option.any, hg]

theorem newqOk_spec (conns : List (Nat × TcpConn)) (cid : Nat)
    (h : newqOk conns cid = true) :
    ∃ c, alook cid conns = some c ∧ c.group = none := by
  unfold newqOk at h
  rcases hv : alook cid conns with _ | c
  · rw [hv] at h; simp [Option.any] at h
  · rw [hv] at h
    simp [Option.any] at h
    exact ⟨c, rfl, h⟩

theorem newqOk_intro (conns : List (Nat × TcpConn)) (cid : Nat)
    (c : TcpConn) (h : alook cid conns = some c) (hg : c.group = none) :
    newqOk conns cid = true := by
  unfold newqOk
  rw [h]
  simp [Option.any, hg]

theorem connOwnerOk_none (groups : List (Nat × ConnGroup)) (cid : Nat)
    (c : TcpConn) (h : c.group = none) : connOwnerOk groups cid c = true := by
  unfold connOwnerOk
  rw [h]

theorem connOwnerOk_spec (groups : List (Nat × ConnGroup)) (cid : Nat)
    (c : TcpConn) (gid : Nat) (h : connOwnerOk groups cid c = true)
    (hg : c.group = some gid) :
    ∃ g, alook gid groups = some g ∧ cid ∈ g.members := by
  unfold connOwnerOk at h
  rw [hg] at h
  replace h : ((alook gid groups).any fun g => g.members.contains cid) = true := h
  rcases hv : alook gid groups with _ | g
  · rw [hv] at h; simp [Option.any] at h
  · rw [hv] at h
    simp [Option.any] at h
    exact ⟨g, rfl, h⟩

theorem connOwnerOk_intro (groups : List (Nat × ConnGroup)) (cid : Nat)
    (c : TcpConn) (gid : Nat) (g : ConnGroup) (hg : c.group = some gid)
    (h : alook gid groups = some g) (hm : cid ∈ g.members) :
    connOwnerOk groups cid c = true := by
  unfold connOwnerOk
  rw [hg]
  show ((alook gid groups).any fun g => g.members.contains cid) = true
  rw [h]
  simp [Option.any, hm]

theorem parentOk_spec (conns : List (Nat × TcpConn))
    (groups : List (Nat × ConnGroup)) (newq : List Nat)
    (gid : Nat) (g : ConnGroup) (pcid : Nat)
    (h : parentOk conns groups newq gid g = true) (hp : g.parent = some pcid) :
    ∃ pc, alook pcid conns = some pc ∧ pc.group = none ∧ pcid ∉ newq ∧
      ∀ q ∈ groups, q.1 = gid ∨ q.2.parent ≠ some pcid := by
  unfold parentOk at h
  rw [hp] at h
  replace h : ((alook pcid conns).any fun pc =>
      pc.group == none && !(newq.contains pcid) &&
        groups.all fun q => q.1 == gid || !(q.2.parent == some pcid)) = true := h
  rcases hv : alook pcid conns with _ | pc
  · rw [hv] at h; simp [Option.any] at h
  · rw [hv] at h
    simp only [Option.any, Bool.and_eq_true, beq_iff_eq, Bool.not_eq_true',
      List.all_eq_true] at h
    obtain ⟨⟨hg, hq⟩, hu⟩ := h
    refine ⟨pc, rfl, hg, ?_, ?_⟩
    · simpa using hq
    · intro q hqm
      have := hu q hqm
      simp only [Bool.or_eq_true, beq_iff_eq, Bool.not_eq_true'] at this
      rcases this with h | h
      · exact Or.inl h
      · exact Or.inr (by simpa using h)

theorem parentOk_none (conns : List (Nat × TcpConn))
    (groups : List (Nat × ConnGroup)) (newq : List Nat)
    (gid : Nat) (g : ConnGroup) (hp : g.parent = none) :
    parentOk conns groups newq gid g = true := by
  unfold parentOk
  rw [hp]

theorem parentOk_intro (conns : List (Nat × TcpConn))
    (groups : List (Nat × ConnGroup)) (newq : List Nat)
    (gid : Nat) (g : ConnGroup) (pcid : Nat) (pc : TcpConn)
    (hp : g.parent = some pcid) (hv : alook pcid conns = some pc)
    (hg : pc.group = none) (hq : pcid ∉ newq)
    (hu : ∀ q ∈ groups, q.1 = gid ∨ q.2.parent ≠ some pcid) :
    parentOk conns groups newq gid g = true := by
  unfold parentOk
  rw [hp]
  show ((alook pcid conns).any fun pc =>
      pc.group == none && !(newq.contains pcid) &&
        groups.all fun q => q.1 == gid || !(q.2.parent == some pcid)) = true
  rw [hv]
  simp only [Option.any, Bool.and_eq_true, beq_iff_eq, Bool.not_eq_true',
    List.all_eq_true]
  refine ⟨⟨hg, by simpa using hq⟩, ?_⟩
  intro q hqm
  rcases hu q hqm with h | h
  · simp [h]
  · simp only [Bool.or_eq_true, beq_iff_eq, Bool.not_eq_true']
    exact Or.inr (by simpa using h)

theorem group_get_parent_congr (a b : StatContext) (gid : Nat)
    (h : a.groups = b.groups) : group_get_parent a gid = group_get_parent b gid := by
  simp [group_get_parent, h]

theorem alook_aupd {α : Type} (cid k : Nat) (f : α → α) (l : List (Nat × α)) :
    alook k (aupd cid f l) = if k = cid then (alook k l).map f else alook k l := by
  by_cases h : k = cid
  · subst h
    rw [alook_aupd_self, if_pos rfl]
  · rw [alook_aupd_ne _ _ _ _ h, if_neg h]

theorem memberOk_aupd_group_preserving (cid : Nat) (f : TcpConn → TcpConn)
    (hf : ∀ c, (f c).group = c.group)
    (conns : List (Nat × TcpConn)) (gid : Nat) (x : Nat) :
    memberOk (aupd cid f conns) gid x = memberOk conns gid x := by
  unfold memberOk
  rw [alook_aupd]
  split
  · rcases alook x conns with _ | c <;> simp [Option.any, hf]
  · rfl

theorem newqOk_aupd_group_preserving (cid : Nat) (f : TcpConn → TcpConn)
    (hf : ∀ c, (f c).group = c.group)
    (conns : List (Nat × TcpConn)) (x : Nat) :
    newqOk (aupd cid f conns) x = newqOk conns x := by
  unfold newqOk
  rw [alook_aupd]
  split
  · rcases alook x conns with _ | c <;> simp [Option.any, hf]
  · rfl

theorem parentOk_aupd_group_preserving (cid : Nat) (f : TcpConn → TcpConn)
    (hf : ∀ c, (f c).group = c.group)
    (conns : List (Nat × TcpConn)) (groups : List (Nat × ConnGroup))
    (newq : List Nat) (gid : Nat) (g : ConnGroup) :
    parentOk (aupd cid f conns) groups newq gid g = parentOk conns groups newq gid g := by
  unfold parentOk
  rcases hp : g.parent with _ | pcid
  · rfl
  · show ((alook pcid (aupd cid f conns)).any _) = ((alook pcid conns).any _)
    rw [alook_aupd]
    split
    · rcases alook pcid conns with _ | pc <;> simp [Option.any, hf]
    · rfl

theorem connOwnerOk_group_congr (groups : List (Nat × ConnGroup)) (cid : Nat)
    (c c' : TcpConn) (h : c'.group = c.group) :
    connOwnerOk groups cid c' = connOwnerOk groups cid c := by
  unfold connOwnerOk
  rw [h]

/-- Updating one record without touching its group back-pointer
preserves the invariant. -/
theorem wf_updConn (cid : Nat) (f : TcpConn → TcpConn)
    (hf : ∀ c, (f c).group = c.group) (ctx : StatContext) (hwf : WF ctx) :
    WF (updConn cid f ctx) := by
  obtain ⟨h1, h2, h3, h4, h5, h6, h7, h8, h9, h10, h11, h12, h13⟩ := hwf
  refine ⟨?_, ?_, ?_, ?_, ?_, ?_, ?_, ?_, ?_, ?_, ?_, ?_, ?_⟩
  · show ((aupd cid f ctx.conns).map Prod.fst).Nodup
    rw [aupd_map_fst]
    exact h1
  · exact h2
  · intro p hp
    obtain ⟨q, hq, hfst, _⟩ := mem_aupd _ _ _ _ hp
    exact hfst ▸ h3 q hq
  · exact h4
  · exact h5
  · exact h6
  · intro p hp x hx
    show memberOk (aupd cid f ctx.conns) p.1 x = true
    rw [memberOk_aupd_group_preserving cid f hf]
    exact h7 p hp x hx
  · intro p hp
    obtain ⟨q, hq, hfst, hsnd⟩ := mem_aupd _ _ _ _ hp
    rcases hsnd with ⟨_, h⟩ | ⟨_, h⟩
    · rw [hfst, h]
      exact h8 q hq
    · rw [hfst]
      show connOwnerOk ctx.groups q.1 p.2 = true
      rw [h, connOwnerOk_group_congr ctx.groups q.1 q.2 (f q.2) (hf q.2)]
      exact h8 q hq
  · intro x hx
    show newqOk (aupd cid f ctx.conns) x = true
    rw [newqOk_aupd_group_preserving cid f hf]
    exact h9 x hx
  · intro p hp
    show parentOk (aupd cid f ctx.conns) ctx.groups ctx.newq p.1 p.2 = true
    rw [parentOk_aupd_group_preserving cid f hf]
    exact h10 p hp
  · exact h11
  · exact h12
  · intro gid hgid
    rw [group_get_parent_congr (updConn cid f ctx) ctx gid rfl]
    exact h13 gid hgid

/-- The invariant depends only on the structural fields, and is
monotone in the freshness counters. -/
theorem wf_of_fields (a b : StatContext)
    (hc : a.conns = b.conns) (hg : a.groups = b.groups) (hq : a.newq = b.newq)
    (hl : a.listen_groups = b.listen_groups) (ho : a.out_groups = b.out_groups)
    (hf : a.filters = b.filters)
    (hnc : a.nextConn ≤ b.nextConn) (hng : a.nextGroup ≤ b.nextGroup)
    (hwf : WF a) : WF b := by
  obtain ⟨h1, h2, h3, h4, h5, h6, h7, h8, h9, h10, h11, h12, h13⟩ := hwf
  have hrefs : groupRefs b = groupRefs a := by
    simp [groupRefs, hl, ho, hf]
  refine ⟨?_, ?_, ?_, ?_, ?_, ?_, ?_, ?_, ?_, ?_, ?_, ?_, ?_⟩
  · rw [← hc]; exact h1
  · rw [← hg]; exact h2
  · rw [← hc]; exact fun p hp => lt_of_lt_of_le (h3 p hp) hnc
  · rw [← hg]; exact fun p hp => lt_of_lt_of_le (h4 p hp) hng
  · rw [← hg]; exact h5
  · rw [← hq]; exact h6
  · rw [← hg, ← hc]; exact h7
  · rw [← hc, ← hg]; exact h8
  · rw [← hq, ← hc]; exact h9
  · rw [← hg, ← hc, ← hq]; exact h10
  · rw [hrefs]; exact h11
  · rw [hrefs, ← hg]; exact h12
  · rw [← ho]
    intro gid hgid
    rw [group_get_parent_congr b a gid hg.symm]
    exact h13 gid hgid

theorem entry_alook {α : Type} (l : List (Nat × α)) (hnd : (l.map Prod.fst).Nodup)
    (q : Nat × α) (hq : q ∈ l) : alook q.1 l = some q.2 :=
  mem_alook q.1 q.2 l hnd hq

/-- A record owned by no group sits on no group's membership queue. -/
theorem wf_not_member_of_group_none (ctx : StatContext) (hwf : WF ctx)
    (cid : Nat) (c : TcpConn) (hc : alook cid ctx.conns = some c)
    (hgn : c.group = none) : ∀ p ∈ ctx.groups, cid ∉ p.2.members := by
  obtain ⟨_, _, _, _, _, _, h7, _⟩ := hwf
  intro p hp hmem
  obtain ⟨c', hc', hg'⟩ := memberOk_spec _ _ _ (h7 p hp cid hmem)
  rw [hc] at hc'
  cases hc'
  rw [hgn] at hg'
  exact Option.noConfusion hg'

/-- `group_add_connection` preserves the invariant when the record is
live, unowned, off the pending queue, not a listening parent, and the
target group is live. -/
theorem wf_group_add (ctx : StatContext) (hwf : WF ctx) (gid : Nat) (cid : Nat)
    (c : TcpConn) (g : ConnGroup)
    (hc : alook cid ctx.conns = some c) (hgn : c.group = none)
    (hq : cid ∉ ctx.newq) (hnp : ∀ p ∈ ctx.groups, p.2.parent ≠ some cid)
    (hgs : alook gid ctx.groups = some g) :
    WF (group_add_connection gid cid ctx) := by
  have hnm := wf_not_member_of_group_none ctx hwf cid c hc hgn
  obtain ⟨h1, h2, h3, h4, h5, h6, h7, h8, h9, h10, h11, h12, h13⟩ := hwf
  have hgmem : (gid, g) ∈ ctx.groups := alook_eq_some_mem _ _ _ hgs
  -- the two heap updates
  have hconns : (group_add_connection gid cid ctx).conns =
      aupd cid (fun c => { c with group := some gid }) ctx.conns := rfl
  have hgroups : (group_add_connection gid cid ctx).groups =
      aupd gid (fun g => { g with members := cid :: g.members }) ctx.groups := rfl
  refine ⟨?_, ?_, ?_, ?_, ?_, ?_, ?_, ?_, ?_, ?_, ?_, ?_, ?_⟩
  · rw [hconns, aupd_map_fst]
    exact h1
  · rw [hgroups, aupd_map_fst]
    exact h2
  · rw [hconns]
    intro p hp
    obtain ⟨q, hqm, hfst, _⟩ := mem_aupd _ _ _ _ hp
    exact hfst ▸ h3 q hqm
  · rw [hgroups]
    intro p hp
    obtain ⟨q, hqm, hfst, _⟩ := mem_aupd _ _ _ _ hp
    exact hfst ▸ h4 q hqm
  · rw [hgroups]
    intro p hp
    obtain ⟨q, hqm, _, hsnd⟩ := mem_aupd _ _ _ _ hp
    rcases hsnd with ⟨_, h⟩ | ⟨hkey, h⟩
    · rw [h]
      exact h5 q hqm
    · rw [h]
      refine List.Nodup.cons ?_ (h5 q hqm)
      exact hnm q hqm
  · exact h6
  · rw [hgroups, hconns]
    intro p hp x hx
    obtain ⟨q, hqm, hfst, hsnd⟩ := mem_aupd _ _ _ _ hp
    have hqlook := entry_alook ctx.groups h2 q hqm
    rcases hsnd with ⟨hne, h⟩ | ⟨hkey, h⟩
    · -- untouched group: its members are unchanged and distinct from cid
      rw [h] at hx
      obtain ⟨c', hc', hg'⟩ := memberOk_spec _ _ _ (h7 q hqm x hx)
      have hxne : x ≠ cid := by
        intro hxe
        subst hxe
        exact hnm q hqm hx
      refine memberOk_intro _ _ _ c' ?_ (hfst ▸ hg')
      rw [alook_aupd, if_neg hxne]
      exact hc'
    · -- the extended group
      have hqg : q.2 = g := by
        rw [hkey, hgs] at hqlook
        exact (Option.some.inj hqlook).symm
      rw [h] at hx
      simp only at hx
      rcases List.mem_cons.mp hx with hxc | hxm
      · subst hxc
        refine memberOk_intro _ _ _ { c with group := some gid } ?_ ?_
        · rw [alook_aupd, if_pos rfl, hc]
          rfl
        · simp [hfst, hkey]
      · obtain ⟨c', hc', hg'⟩ := memberOk_spec _ _ _ (h7 q hqm x hxm)
        have hxne : x ≠ cid := by
          intro hxe
          subst hxe
          exact hnm q hqm hxm
        refine memberOk_intro _ _ _ c' ?_ (hfst ▸ hg')
        rw [alook_aupd, if_neg hxne]
        exact hc'
  · rw [hconns, hgroups]
    intro p hp
    obtain ⟨q, hqm, hfst, hsnd⟩ := mem_aupd _ _ _ _ hp
    have hqc := entry_alook ctx.conns h1 q hqm
    rcases hsnd with ⟨hne, h⟩ | ⟨hkey, h⟩
    · -- untouched record
      rw [hfst, h]
      rcases hg' : q.2.group with _ | gid'
      · exact connOwnerOk_none _ _ _ hg'
      · obtain ⟨g', hg'l, hg'm⟩ := connOwnerOk_spec _ _ _ _ (h8 q hqm) hg'
        by_cases hgg : gid' = gid
        · subst hgg
          rw [hg'l] at hgs
          cases Option.some.inj hgs
          refine connOwnerOk_intro _ _ _ gid' { g with members := cid :: g.members }
            hg' ?_ ?_
          · rw [alook_aupd, if_pos rfl, hg'l]
            rfl
          · exact List.mem_cons_of_mem _ hg'm
        · refine connOwnerOk_intro _ _ _ gid' g' hg' ?_ hg'm
          rw [alook_aupd, if_neg hgg]
          exact hg'l
    · -- the record being added
      rw [hfst, hkey, h]
      refine connOwnerOk_intro _ _ _ gid { g with members := cid :: g.members }
        rfl ?_ ?_
      · rw [alook_aupd, if_pos rfl, hgs]
        rfl
      · exact List.mem_cons_self ..
  · rw [hconns]
    intro x hx
    have hxne : x ≠ cid := fun hxe => hq (hxe ▸ hx)
    obtain ⟨c', hc', hg'⟩ := newqOk_spec _ _ (h9 x hx)
    refine newqOk_intro _ _ c' ?_ hg'
    rw [alook_aupd, if_neg hxne]
    exact hc'
  · rw [hconns, hgroups]
    intro p hp
    obtain ⟨q, hqm, hfst, hsnd⟩ := mem_aupd _ _ _ _ hp
    have hparent : p.2.parent = q.2.parent := by
      rcases hsnd with ⟨_, h⟩ | ⟨_, h⟩ <;> rw [h]
    rcases hpp : p.2.parent with _ | pcid
    · exact parentOk_none _ _ _ _ _ hpp
    · have hqp : q.2.parent = some pcid := hparent ▸ hpp
      obtain ⟨pc, hpc, hpcg, hpcq, hpu⟩ := parentOk_spec _ _ _ _ _ _ (h10 q hqm) hqp
      have hpne : pcid ≠ cid := by
        intro he
        exact hnp q hqm (he ▸ hqp)
      refine parentOk_intro _ _ _ _ _ pcid pc hpp ?_ hpcg hpcq ?_
      · rw [alook_aupd, if_neg hpne]
        exact hpc
      · intro r hr
        obtain ⟨r0, hr0, hrfst, hrsnd⟩ := mem_aupd _ _ _ _ hr
        have hrparent : r.2.parent = r0.2.parent := by
          rcases hrsnd with ⟨_, h⟩ | ⟨_, h⟩ <;> rw [h]
        rcases hpu r0 hr0 with hcase | hcase
        · exact Or.inl (hrfst ▸ hfst ▸ hcase)
        · exact Or.inr (hrparent ▸ hcase)
  · exact h11
  · intro gid' hgid'
    rw [hgroups, alook_aupd]
    by_cases he : gid' = gid
    · rw [if_pos he, he, hgs]
      rfl
    · rw [if_neg he]
      exact h12 gid' hgid'
  · intro gid' hgid'
    have hold := h13 gid' hgid'
    unfold group_get_parent at hold ⊢
    rw [hgroups, alook_aupd]
    by_cases he : gid' = gid
    · rw [if_pos he, he, hgs]
      rw [he, hgs] at hold
      exact hold
    · rw [if_neg he]
      exact hold

/-- A record owned by `gid` sits on no other group's queue. -/
theorem wf_member_only_of_group (ctx : StatContext) (hwf : WF ctx)
    (cid : Nat) (c : TcpConn) (gid : Nat)
    (hc : alook cid ctx.conns = some c) (hcg : c.group = some gid) :
    ∀ q ∈ ctx.groups, q.1 ≠ gid → cid ∉ q.2.members := by
  obtain ⟨_, _, _, _, _, _, h7, _⟩ := hwf
  intro q hq hne hmem
  obtain ⟨c', hc', hg'⟩ := memberOk_spec _ _ _ (h7 q hq cid hmem)
  rw [hc] at hc'
  cases hc'
  rw [hcg] at hg'
  exact hne (Option.some.inj hg').symm

/-- A record owned by a group is not on the pending queue. -/
theorem wf_owned_not_newq (ctx : StatContext) (hwf : WF ctx)
    (cid : Nat) (c : TcpConn) (gid : Nat)
    (hc : alook cid ctx.conns = some c) (hcg : c.group = some gid) :
    cid ∉ ctx.newq := by
  obtain ⟨_, _, _, _, _, _, _, _, h9, _⟩ := hwf
  intro hmem
  obtain ⟨c', hc', hg'⟩ := newqOk_spec _ _ (h9 cid hmem)
  rw [hc] at hc'
  cases hc'
  rw [hcg] at hg'
  exact Option.noConfusion hg'

/-- A record owned by a group is no listening parent. -/
theorem wf_owned_not_parent (ctx : StatContext) (hwf : WF ctx)
    (cid : Nat) (c : TcpConn) (gid : Nat)
    (hc : alook cid ctx.conns = some c) (hcg : c.group = some gid) :
    ∀ q ∈ ctx.groups, q.2.parent ≠ some cid := by
  obtain ⟨_, _, _, _, _, _, _, _, _, h10, _⟩ := hwf
  intro q hq hpq
  obtain ⟨pc, hpc, hpcg, _, _⟩ := parentOk_spec _ _ _ _ _ _ (h10 q hq) hpq
  rw [hc] at hpc
  cases hpc
  rw [hcg] at hpcg
  exact Option.noConfusion hpcg

/-- `group_remove_connection` preserves the invariant when the record
is owned by the group it is removed from. -/
theorem wf_group_remove (ctx : StatContext) (hwf : WF ctx) (gid : Nat) (cid : Nat)
    (c : TcpConn) (hc : alook cid ctx.conns = some c) (hcg : c.group = some gid) :
    WF (group_remove_connection gid cid ctx) := by
  have honly := wf_member_only_of_group ctx hwf cid c gid hc hcg
  have hnq := wf_owned_not_newq ctx hwf cid c gid hc hcg
  have hnp := wf_owned_not_parent ctx hwf cid c gid hc hcg
  obtain ⟨h1, h2, h3, h4, h5, h6, h7, h8, h9, h10, h11, h12, h13⟩ := hwf
  have hconns : (group_remove_connection gid cid ctx).conns =
      aupd cid (fun c => { c with group := none }) ctx.conns := rfl
  have hgroups : (group_remove_connection gid cid ctx).groups =
      aupd gid (fun g => { g with members := g.members.erase cid }) ctx.groups := rfl
  refine ⟨?_, ?_, ?_, ?_, ?_, ?_, ?_, ?_, ?_, ?_, ?_, ?_, ?_⟩
  · rw [hconns, aupd_map_fst]
    exact h1
  · rw [hgroups, aupd_map_fst]
    exact h2
  · rw [hconns]
    intro p hp
    obtain ⟨q, hqm, hfst, _⟩ := mem_aupd _ _ _ _ hp
    exact hfst ▸ h3 q hqm
  · rw [hgroups]
    intro p hp
    obtain ⟨q, hqm, hfst, _⟩ := mem_aupd _ _ _ _ hp
    exact hfst ▸ h4 q hqm
  · rw [hgroups]
    intro p hp
    obtain ⟨q, hqm, _, hsnd⟩ := mem_aupd _ _ _ _ hp
    rcases hsnd with ⟨_, h⟩ | ⟨_, h⟩
    · rw [h]
      exact h5 q hqm
    · rw [h]
      exact (h5 q hqm).erase cid
  · exact h6
  · rw [hgroups, hconns]
    intro p hp x hx
    obtain ⟨q, hqm, hfst, hsnd⟩ := mem_aupd _ _ _ _ hp
    rcases hsnd with ⟨hkey, h⟩ | ⟨hkey, h⟩
    · -- untouched group (key differs from gid): x cannot be the removed record
      rw [h] at hx
      have hxne : x ≠ cid := fun hxe => honly q hqm hkey (hxe ▸ hx)
      obtain ⟨c', hc', hg'⟩ := memberOk_spec _ _ _ (h7 q hqm x hx)
      refine memberOk_intro _ _ _ c' ?_ (hfst ▸ hg')
      rw [alook_aupd, if_neg hxne]
      exact hc'
    · -- the erased group
      rw [h] at hx
      simp only at hx
      have hx' : x ≠ cid ∧ x ∈ q.2.members := ((h5 q hqm).mem_erase_iff).mp hx
      obtain ⟨c', hc', hg'⟩ := memberOk_spec _ _ _ (h7 q hqm x hx'.2)
      refine memberOk_intro _ _ _ c' ?_ (hfst ▸ hg')
      rw [alook_aupd, if_neg hx'.1]
      exact hc'
  · rw [hconns, hgroups]
    intro p hp
    obtain ⟨q, hqm, hfst, hsnd⟩ := mem_aupd _ _ _ _ hp
    rcases hsnd with ⟨hqne, h⟩ | ⟨hkey, h⟩
    · -- untouched record (key differs from cid)
      rw [hfst, h]
      rcases hg' : q.2.group with _ | gid'
      · exact connOwnerOk_none _ _ _ hg'
      · obtain ⟨g', hg'l, hg'm⟩ := connOwnerOk_spec _ _ _ _ (h8 q hqm) hg'
        by_cases hgg : gid' = gid
        · subst hgg
          refine connOwnerOk_intro _ _ _ gid'
            { g' with members := g'.members.erase cid } hg' ?_ ?_
          · rw [alook_aupd, if_pos rfl, hg'l]
            rfl
          · have hg'nd : g'.members.Nodup := h5 (gid', g') (alook_eq_some_mem _ _ _ hg'l)
            exact (hg'nd.mem_erase_iff).mpr ⟨hqne, hg'm⟩
        · refine connOwnerOk_intro _ _ _ gid' g' hg' ?_ hg'm
          rw [alook_aupd, if_neg hgg]
          exact hg'l
    · -- the removed record
      rw [hfst, hkey, h]
      exact connOwnerOk_none _ _ _ rfl
  · rw [hconns]
    intro x hx
    have hxne : x ≠ cid := fun he => hnq (he ▸ hx)
    obtain ⟨c', hc', hg'⟩ := newqOk_spec _ _ (h9 x hx)
    refine newqOk_intro _ _ c' ?_ hg'
    rw [alook_aupd, if_neg hxne]
    exact hc'
  · rw [hconns, hgroups]
    intro p hp
    obtain ⟨q, hqm, hfst, hsnd⟩ := mem_aupd _ _ _ _ hp
    have hparent : p.2.parent = q.2.parent := by
      rcases hsnd with ⟨_, h⟩ | ⟨_, h⟩ <;> rw [h]
    rcases hpp : p.2.parent with _ | pcid
    · exact parentOk_none _ _ _ _ _ hpp
    · have hqp : q.2.parent = some pcid := hparent ▸ hpp
      obtain ⟨pc, hpc, hpcg, hpcq, hpu⟩ := parentOk_spec _ _ _ _ _ _ (h10 q hqm) hqp
      have hpne : pcid ≠ cid := by
        intro he
        exact hnp q hqm (he ▸ hqp)
      refine parentOk_intro _ _ _ _ _ pcid pc hpp ?_ hpcg hpcq ?_
      · rw [alook_aupd, if_neg hpne]
        exact hpc
      · intro r hr
        obtain ⟨r0, hr0, hrfst, hrsnd⟩ := mem_aupd _ _ _ _ hr
        have hrparent : r.2.parent = r0.2.parent := by
          rcases hrsnd with ⟨_, h⟩ | ⟨_, h⟩ <;> rw [h]
        rcases hpu r0 hr0 with hcase | hcase
        · exact Or.inl (hrfst ▸ hfst ▸ hcase)
        · exact Or.inr (hrparent ▸ hcase)
  · exact h11
  · intro gid' hgid'
    rw [hgroups, alook_aupd]
    by_cases he : gid' = gid
    · rw [if_pos he]
      rcases hv : alook gid' ctx.groups with _ | g0
      · rw [he] at hv
        obtain ⟨g0, hg0, _⟩ := connOwnerOk_spec _ _ _ _ (h8 (cid, c) (alook_eq_some_mem _ _ _ hc)) hcg
        rw [hv] at hg0
        exact Option.noConfusion hg0
      · rfl
    · rw [if_neg he]
      exact h12 gid' hgid'
  · intro gid' hgid'
    have hold := h13 gid' hgid'
    unfold group_get_parent at hold ⊢
    rw [hgroups, alook_aupd]
    by_cases he : gid' = gid
    · rw [if_pos he]
      rcases hv : alook gid' ctx.groups with _ | g0
      · rfl
      · rw [hv] at hold
        exact hold
    · rw [if_neg he]
      exact hold

/-- Pushing an unowned, unqueued, non-parent record on the pending
queue preserves the invariant. -/
theorem wf_push_newq (ctx : StatContext) (hwf : WF ctx) (cid : Nat) (c : TcpConn)
    (hc : alook cid ctx.conns = some c) (hgn : c.group = none)
    (hq : cid ∉ ctx.newq) (hnp : ∀ p ∈ ctx.groups, p.2.parent ≠ some cid) :
    WF { ctx with newq := cid :: ctx.newq } := by
  obtain ⟨h1, h2, h3, h4, h5, h6, h7, h8, h9, h10, h11, h12, h13⟩ := hwf
  refine ⟨h1, h2, h3, h4, h5, ?_, h7, h8, ?_, ?_, h11, h12, ?_⟩
  · exact List.Nodup.cons hq h6
  · intro x hx
    rcases List.mem_cons.mp hx with hxe | hxm
    · subst hxe
      exact newqOk_intro _ _ c hc hgn
    · exact h9 x hxm
  · intro p hp
    rcases hpp : p.2.parent with _ | pcid
    · exact parentOk_none _ _ _ _ _ hpp
    · obtain ⟨pc, hpc, hpcg, hpcq, hpu⟩ := parentOk_spec _ _ _ _ _ _ (h10 p hp) hpp
      refine parentOk_intro _ _ _ _ _ pcid pc hpp hpc hpcg ?_ hpu
      intro hmem
      rcases List.mem_cons.mp hmem with he | hm
      · exact hnp p hp (he ▸ hpp)
      · exact hpcq hm
  · intro gid hgid
    rw [group_get_parent_congr { ctx with newq := cid :: ctx.newq } ctx gid rfl]
    exact h13 gid hgid

/-- Deallocating (erasing) an unowned, unqueued, non-parent record
preserves the invariant. -/
theorem wf_erase_conn (ctx : StatContext) (hwf : WF ctx) (cid : Nat) (c : TcpConn)
    (hc : alook cid ctx.conns = some c) (hgn : c.group = none)
    (hq : cid ∉ ctx.newq) (hnp : ∀ p ∈ ctx.groups, p.2.parent ≠ some cid) :
    WF { ctx with conns := aerase cid ctx.conns } := by
  have hnm := wf_not_member_of_group_none ctx hwf cid c hc hgn
  obtain ⟨h1, h2, h3, h4, h5, h6, h7, h8, h9, h10, h11, h12, h13⟩ := hwf
  refine ⟨?_, h2, ?_, h4, h5, h6, ?_, ?_, ?_, ?_, h11, h12, ?_⟩
  · exact h1.sublist (aerase_map_fst_sublist cid ctx.conns)
  · intro p hp
    exact h3 p (mem_aerase _ _ _ hp).1
  · intro p hp x hx
    have hxne : x ≠ cid := fun hxe => hnm p hp (hxe ▸ hx)
    obtain ⟨c', hc', hg'⟩ := memberOk_spec _ _ _ (h7 p hp x hx)
    refine memberOk_intro _ _ _ c' ?_ hg'
    show alook x (aerase cid ctx.conns) = some c'
    rw [alook_aerase_ne _ _ _ hxne]
    exact hc'
  · intro p hp
    exact h8 p (mem_aerase _ _ _ hp).1
  · intro x hx
    have hxne : x ≠ cid := fun he => hq (he ▸ hx)
    obtain ⟨c', hc', hg'⟩ := newqOk_spec _ _ (h9 x hx)
    refine newqOk_intro _ _ c' ?_ hg'
    show alook x (aerase cid ctx.conns) = some c'
    rw [alook_aerase_ne _ _ _ hxne]
    exact hc'
  · intro p hp
    rcases hpp : p.2.parent with _ | pcid
    · exact parentOk_none _ _ _ _ _ hpp
    · obtain ⟨pc, hpc, hpcg, hpcq, hpu⟩ := parentOk_spec _ _ _ _ _ _ (h10 p hp) hpp
      have hpne : pcid ≠ cid := by
        intro he
        exact hnp p hp (he ▸ hpp)
      refine parentOk_intro _ _ _ _ _ pcid pc hpp ?_ hpcg hpcq hpu
      show alook pcid (aerase cid ctx.conns) = some pc
      rw [alook_aerase_ne _ _ _ hpne]
      exact hpc
  · intro gid hgid
    rw [group_get_parent_congr { ctx with conns := aerase cid ctx.conns } ctx gid rfl]
    exact h13 gid hgid

/-- A fresh record (under the allocation counter) with no owner can
be added to the heap. -/
theorem wf_new_conn (ctx : StatContext) (hwf : WF ctx) (c : TcpConn)
    (hgn : c.group = none) :
    WF { ctx with conns := (ctx.nextConn, c) :: ctx.conns,
                  nextConn := ctx.nextConn + 1 } := by
  obtain ⟨h1, h2, h3, h4, h5, h6, h7, h8, h9, h10, h11, h12, h13⟩ := hwf
  have hfreshkeys : ∀ x, x ∈ ctx.conns.map Prod.fst → x ≠ ctx.nextConn := by
    intro x hx he
    obtain ⟨p, hp, hpx⟩ := List.mem_map.mp hx
    have := h3 p hp
    omega
  have halookold : ∀ x (c' : TcpConn), alook x ctx.conns = some c' →
      alook x ((ctx.nextConn, c) :: ctx.conns) = some c' := by
    intro x c' hx
    have hxk : x ∈ ctx.conns.map Prod.fst :=
      alook_isSome_mem_keys x ctx.conns (by rw [hx]; rfl)
    rw [alook_cons_ne _ _ _ _ (fun he => hfreshkeys x hxk he.symm)]
    exact hx
  refine ⟨?_, h2, ?_, h4, h5, h6, ?_, ?_, ?_, ?_, h11, h12, ?_⟩
  · refine List.Nodup.cons ?_ h1
    intro hmem
    exact hfreshkeys ctx.nextConn hmem rfl
  · intro p hp
    show p.1 < ctx.nextConn + 1
    rcases List.mem_cons.mp hp with he | hm
    · rw [he]
      exact Nat.lt_succ_self _
    · have := h3 p hm
      omega
  · intro p hp x hx
    obtain ⟨c', hc', hg'⟩ := memberOk_spec _ _ _ (h7 p hp x hx)
    exact memberOk_intro _ _ _ c' (halookold x c' hc') hg'
  · intro p hp
    rcases List.mem_cons.mp hp with he | hm
    · rw [he]
      exact connOwnerOk_none _ _ _ hgn
    · exact h8 p hm
  · intro x hx
    obtain ⟨c', hc', hg'⟩ := newqOk_spec _ _ (h9 x hx)
    exact newqOk_intro _ _ c' (halookold x c' hc') hg'
  · intro p hp
    rcases hpp : p.2.parent with _ | pcid
    · exact parentOk_none _ _ _ _ _ hpp
    · obtain ⟨pc, hpc, hpcg, hpcq, hpu⟩ := parentOk_spec _ _ _ _ _ _ (h10 p hp) hpp
      exact parentOk_intro _ _ _ _ _ pcid pc hpp (halookold pcid pc hpc) hpcg hpcq hpu
  · intro gid hgid
    exact h13 gid hgid

/-- A fresh, empty, unreferenced group can be added to the heap; its
parent, if any, must be a live unowned record that is on no queue and
parent of no existing group. -/
theorem wf_new_group_store (ctx : StatContext) (hwf : WF ctx) (filt : Option Filter)
    (popt : Option Nat)
    (hpar : ∀ cid, popt = some cid → ∃ c, alook cid ctx.conns = some c ∧
      c.group = none ∧ cid ∉ ctx.newq ∧ ∀ p ∈ ctx.groups, p.2.parent ≠ some cid) :
    WF { ctx with
          groups := (ctx.nextGroup, ⟨filt, [], popt⟩) :: ctx.groups,
          nextGroup := ctx.nextGroup + 1 } := by
  obtain ⟨h1, h2, h3, h4, h5, h6, h7, h8, h9, h10, h11, h12, h13⟩ := hwf
  have hfreshkeys : ∀ x, x ∈ ctx.groups.map Prod.fst → x ≠ ctx.nextGroup := by
    intro x hx he
    obtain ⟨p, hp, hpx⟩ := List.mem_map.mp hx
    have := h4 p hp
    omega
  have halookold : ∀ x (g : ConnGroup), alook x ctx.groups = some g →
      alook x ((ctx.nextGroup, (⟨filt, [], popt⟩ : ConnGroup)) :: ctx.groups) = some g := by
    intro x g hx
    have hxk : x ∈ ctx.groups.map Prod.fst :=
      alook_isSome_mem_keys x ctx.groups (by rw [hx]; rfl)
    rw [alook_cons_ne _ _ _ _ (fun he => hfreshkeys x hxk he.symm)]
    exact hx
  refine ⟨h1, ?_, h3, ?_, ?_, h6, ?_, ?_, h9, ?_, h11, ?_, ?_⟩
  · refine List.Nodup.cons ?_ h2
    intro hmem
    exact hfreshkeys ctx.nextGroup hmem rfl
  · intro p hp
    show p.1 < ctx.nextGroup + 1
    rcases List.mem_cons.mp hp with he | hm
    · rw [he]
      exact Nat.lt_succ_self _
    · have := h4 p hm
      omega
  · intro p hp
    rcases List.mem_cons.mp hp with he | hm
    · rw [he]
      exact List.nodup_nil
    · exact h5 p hm
  · intro p hp x hx
    rcases List.mem_cons.mp hp with he | hm
    · rw [he] at hx
      simp at hx
    · exact h7 p hm x hx
  · intro p hp
    rcases hg' : p.2.group with _ | gid'
    · exact connOwnerOk_none _ _ _ hg'
    · obtain ⟨g', hg'l, hg'm⟩ := connOwnerOk_spec _ _ _ _ (h8 p hp) hg'
      exact connOwnerOk_intro _ _ _ gid' g' hg' (halookold gid' g' hg'l) hg'm
  · intro p hp
    rcases List.mem_cons.mp hp with he | hm
    · -- the new group
      rcases hpo : popt with _ | pcid
      · rw [he, hpo]
        exact parentOk_none _ _ _ _ _ rfl
      · obtain ⟨pc, hpc, hpcg, hpcq, hpnp⟩ := hpar pcid hpo
        rw [he, hpo]
        refine parentOk_intro _ _ _ _ _ pcid pc rfl hpc hpcg hpcq ?_
        intro r hr
        rcases List.mem_cons.mp hr with hre | hrm
        · rw [hre]
          exact Or.inl rfl
        · exact Or.inr (hpnp r hrm)
    · rcases hpp : p.2.parent with _ | pcid
      · exact parentOk_none _ _ _ _ _ hpp
      · obtain ⟨pc, hpc, hpcg, hpcq, hpu⟩ := parentOk_spec _ _ _ _ _ _ (h10 p hm) hpp
        refine parentOk_intro _ _ _ _ _ pcid pc hpp hpc hpcg hpcq ?_
        intro r hr
        rcases List.mem_cons.mp hr with hre | hrm
        · rw [hre]
          refine Or.inr ?_
          show popt ≠ some pcid
          rcases hpo : popt with _ | pcid'
          · simp
          · obtain ⟨pc', hpc', hpcg', _, hpnp'⟩ := hpar pcid' hpo
            intro he
            have hee : pcid' = pcid := Option.some.inj he
            subst hee
            exact hpnp' p hm hpp
        · exact hpu r hrm
  · intro gid hgid
    rcases hv : alook gid ctx.groups with _ | g0
    · have := h12 gid hgid
      rw [hv] at this
      simp at this
    · rw [halookold gid g0 hv]
      rfl
  · intro gid hgid
    have hold := h13 gid hgid
    have hgk : (alook gid ctx.groups).isSome = true := by
      refine h12 gid ?_
      simp only [groupRefs, List.mem_append]
      exact Or.inl (Or.inr hgid)
    rcases hv : alook gid ctx.groups with _ | g0
    · rw [hv] at hgk
      simp at hgk
    · unfold group_get_parent at hold ⊢
      rw [hv] at hold
      rw [halookold gid g0 hv]
      exact hold

/-- Prepending an unreferenced live group to the listening list
(`glist_add` on `ctx->listen_groups`) preserves the invariant. -/
theorem wf_listen_prepend (ctx : StatContext) (hwf : WF ctx) (gid : Nat)
    (hsome : (alook gid ctx.groups).isSome = true)
    (hnotref : gid ∉ groupRefs ctx) :
    WF { ctx with listen_groups := gid :: ctx.listen_groups } := by
  obtain ⟨h1, h2, h3, h4, h5, h6, h7, h8, h9, h10, h11, h12, h13⟩ := hwf
  refine ⟨h1, h2, h3, h4, h5, h6, h7, h8, h9, h10, ?_, ?_, ?_⟩
  · show ((gid :: ctx.listen_groups) ++ ctx.out_groups ++ ctx.filters.map Prod.snd).Nodup
    exact List.Nodup.cons hnotref h11
  · intro gid' hgid'
    have : gid' ∈ gid :: groupRefs ctx := hgid'
    rcases List.mem_cons.mp this with he | hm
    · rw [he]
      exact hsome
    · exact h12 gid' hm
  · exact h13

/-- Prepending an unreferenced live parentless group to the outbound
list (`glist_add` on `ctx->out_groups`) preserves the invariant. -/
theorem wf_out_prepend (ctx : StatContext) (hwf : WF ctx) (gid : Nat)
    (hsome : (alook gid ctx.groups).isSome = true)
    (hnotref : gid ∉ groupRefs ctx)
    (hparent : group_get_parent ctx gid = none) :
    WF { ctx with out_groups := gid :: ctx.out_groups } := by
  obtain ⟨h1, h2, h3, h4, h5, h6, h7, h8, h9, h10, h11, h12, h13⟩ := hwf
  have hperm : (ctx.listen_groups ++ (gid :: ctx.out_groups) ++ ctx.filters.map Prod.snd).Perm
      (gid :: groupRefs ctx) := by
    have h0 : (ctx.listen_groups ++ gid :: ctx.out_groups).Perm
        (gid :: (ctx.listen_groups ++ ctx.out_groups)) := List.perm_middle
    have := h0.append_right (ctx.filters.map Prod.snd)
    exact this
  refine ⟨h1, h2, h3, h4, h5, h6, h7, h8, h9, h10, ?_, ?_, ?_⟩
  · show (ctx.listen_groups ++ (gid :: ctx.out_groups) ++ ctx.filters.map Prod.snd).Nodup
    exact hperm.nodup_iff.mpr (List.Nodup.cons hnotref h11)
  · intro gid' hgid'
    have hm : gid' ∈ gid :: groupRefs ctx := hperm.mem_iff.mp hgid'
    rcases List.mem_cons.mp hm with he | hm'
    · rw [he]
      exact hsome
    · exact h12 gid' hm'
  · intro gid' hgid'
    have hm : gid' ∈ gid :: ctx.out_groups := hgid'
    rcases List.mem_cons.mp hm with he | hm'
    · rw [he]
      exact hparent
    · exact h13 gid' hm'

theorem wf_conns_nodup (ctx : StatContext) (hwf : WF ctx) :
    (ctx.conns.map Prod.fst).Nodup := hwf.1

theorem wf_groups_nodup (ctx : StatContext) (hwf : WF ctx) :
    (ctx.groups.map Prod.fst).Nodup := hwf.2.1

/-- The record found by the key scan of `insert_connection` is the one
its identifier resolves to. -/
theorem ctx_find_conn_alook (ctx : StatContext) (hwf : WF ctx)
    (laddr raddr : Sockaddr) (cid : Nat) (c : TcpConn)
    (hf : ctx_find_conn ctx laddr raddr = some (cid, c)) :
    alook cid ctx.conns = some c := by
  have hmem : (cid, c) ∈ ctx.conns := List.mem_of_find?_eq_some hf
  exact mem_alook cid c ctx.conns (wf_conns_nodup ctx hwf) hmem

theorem refs_lt_nextGroup (ctx : StatContext) (hwf : WF ctx) :
    ∀ gid ∈ groupRefs ctx, gid < ctx.nextGroup := by
  obtain ⟨_, _, _, h4, _, _, _, _, _, _, _, h12, _⟩ := hwf
  intro gid hgid
  have hk := alook_isSome_mem_keys gid ctx.groups (h12 gid hgid)
  obtain ⟨p, hp, hpx⟩ := List.mem_map.mp hk
  exact hpx ▸ h4 p hp

theorem newq_lt_nextConn (ctx : StatContext) (hwf : WF ctx) :
    ∀ x ∈ ctx.newq, x < ctx.nextConn := by
  obtain ⟨_, _, h3, _, _, _, _, _, h9, _⟩ := hwf
  intro x hx
  obtain ⟨c', hc', _⟩ := newqOk_spec _ _ (h9 x hx)
  have hk := alook_isSome_mem_keys x ctx.conns (by rw [hc']; rfl)
  obtain ⟨p, hp, hpx⟩ := List.mem_map.mp hk
  exact hpx ▸ h3 p hp

theorem parents_lt_nextConn (ctx : StatContext) (hwf : WF ctx) :
    ∀ p ∈ ctx.groups, ∀ pcid, p.2.parent = some pcid → pcid < ctx.nextConn := by
  have h3 := hwf.2.2.1
  have h10 := hwf.2.2.2.2.2.2.2.2.2.1
  intro p hp pcid hpp
  obtain ⟨pc, hpc, _, _, _⟩ := parentOk_spec _ _ _ _ _ _ (h10 p hp) hpp
  have hk := alook_isSome_mem_keys pcid ctx.conns (by rw [hpc]; rfl)
  obtain ⟨q, hq, hqx⟩ := List.mem_map.mp hk
  exact hqx ▸ h3 q hq

theorem members_lt_nextConn (ctx : StatContext) (hwf : WF ctx) :
    ∀ p ∈ ctx.groups, ∀ x ∈ p.2.members, x < ctx.nextConn := by
  have h3 := hwf.2.2.1
  have h7 := hwf.2.2.2.2.2.2.1
  intro p hp x hx
  obtain ⟨c', hc', _⟩ := memberOk_spec _ _ _ (h7 p hp x hx)
  have hk := alook_isSome_mem_keys x ctx.conns (by rw [hc']; rfl)
  obtain ⟨q, hq, hqx⟩ := List.mem_map.mp hk
  exact hqx ▸ h3 q hq

/-- `insert_listen_group` preserves the invariant when the new parent
is a live unowned record off the pending queue and parent of nothing
else. -/
theorem wf_insert_listen_group (ctx : StatContext) (hwf : WF ctx) (cid : Nat)
    (c c2 : TcpConn) (now : Int)
    (hc : alook cid ctx.conns = some c) (hgn : c.group = none)
    (hq : cid ∉ ctx.newq) (hnp : ∀ p ∈ ctx.groups, p.2.parent ≠ some cid) :
    WF (insert_listen_group cid c2 now ctx) := by
  have hstore := wf_new_group_store ctx hwf
    (some (filter_from_connection c2 (POLICY_LOCAL ||| POLICY_PORT ||| POLICY_AF)
      .FILTERACT_GROUP now))
    (some cid)
    (fun cid' hcid' => by
      cases Option.some.inj hcid'
      exact ⟨c, hc, hgn, hq, hnp⟩)
  have hsome : (alook ctx.nextGroup
      ((ctx.nextGroup, (⟨some (filter_from_connection c2
          (POLICY_LOCAL ||| POLICY_PORT ||| POLICY_AF) .FILTERACT_GROUP now),
        [], some cid⟩ : ConnGroup)) :: ctx.groups)).isSome = true := by
    rw [alook_cons_self]
    rfl
  have hnotref : ctx.nextGroup ∉ groupRefs ctx := by
    intro hmem
    exact absurd (refs_lt_nextGroup ctx hwf _ hmem) (lt_irrefl _)
  exact wf_listen_prepend _ hstore ctx.nextGroup hsome hnotref

/-- `insert_connection` preserves the invariant. -/
theorem wf_insert (laddr raddr : Sockaddr) (st : TcpState) (ifn : Option String)
    (now : Int) (ctx : StatContext) (hwf : WF ctx) :
    WF (insert_connection laddr raddr st ifn now ctx) := by
  have hfreshq : ctx.nextConn ∉ ctx.newq := by
    intro hmem
    exact absurd (newq_lt_nextConn ctx hwf _ hmem) (lt_irrefl _)
  have hfreshp : ∀ p ∈ ctx.groups, p.2.parent ≠ some ctx.nextConn := by
    intro p hp hpp
    exact absurd (parents_lt_nextConn ctx hwf p hp _ hpp) (lt_irrefl _)
  have h12 := hwf.2.2.2.2.2.2.2.2.2.2.2.1
  unfold insert_connection
  split
  · -- the record is already tracked
    rename_i cid c heq
    have hcc : alook cid ctx.conns = some c :=
      ctx_find_conn_alook ctx hwf laddr raddr cid c heq
    dsimp only []
    rw [show (if metadata_is_touched c.metadata then
          { ctx with total_count := ctx.total_count - 1 } else ctx)
        = { ctx with total_count := if metadata_is_touched c.metadata then
          ctx.total_count - 1 else ctx.total_count } from by
      by_cases ht : metadata_is_touched c.metadata = true <;> simp [ht]]
    generalize (if metadata_is_touched c.metadata then
      ctx.total_count - 1 else ctx.total_count) = tc
    by_cases hst : c.state = st
    · -- state unchanged: only the counters and the UPDATED flag move
      rw [if_neg (not_not_intro hst)]
      exact wf_updConn cid
        (fun c => { c with metadata := metadata_set_flag c.metadata METADATA_UPDATED })
        (fun c => rfl) ctx hwf
    · rw [if_pos hst]
      rcases hg : c.group with _ | gid
      · -- unowned: in-place state update
        exact wf_updConn cid
          (fun c => { c with metadata := metadata_set_flag c.metadata METADATA_UPDATED })
          (fun c => rfl) _
          (wf_updConn cid
            (fun c => { c with state := st, metadata := metadata_set_flag c.metadata METADATA_STATE_CHANGED })
            (fun c => rfl) ctx hwf)
      · dsimp only []
        split
        · -- the owner is keyed on state: unlink and requeue
          have hwfU : WF (updConn cid
              (fun c => { c with state := st, metadata := metadata_set_flag c.metadata METADATA_STATE_CHANGED })
              ctx) :=
            wf_updConn cid
              (fun c => { c with state := st, metadata := metadata_set_flag c.metadata METADATA_STATE_CHANGED })
              (fun c => rfl) ctx hwf
          have hgU : alook cid (updConn cid
              (fun c => { c with state := st, metadata := metadata_set_flag c.metadata METADATA_STATE_CHANGED })
              ctx).conns
              = some { c with state := st, metadata := metadata_set_flag c.metadata METADATA_STATE_CHANGED } := by
            show alook cid (aupd cid
              (fun c => { c with state := st, metadata := metadata_set_flag c.metadata METADATA_STATE_CHANGED })
              ctx.conns) = _
            rw [alook_aupd_self, hcc]
            rfl
          have hwfR : WF (group_remove_connection gid cid (updConn cid
              (fun c => { c with state := st, metadata := metadata_set_flag c.metadata METADATA_STATE_CHANGED })
              ctx)) :=
            wf_group_remove _ hwfU gid cid _ hgU hg
          have hgR : alook cid (group_remove_connection gid cid (updConn cid
              (fun c => { c with state := st, metadata := metadata_set_flag c.metadata METADATA_STATE_CHANGED })
              ctx)).conns
              = some { c with state := st, metadata := metadata_set_flag c.metadata METADATA_STATE_CHANGED, group := none } := by
            show alook cid (aupd cid (fun c => { c with group := none })
              (aupd cid
                (fun c => { c with state := st, metadata := metadata_set_flag c.metadata METADATA_STATE_CHANGED })
                ctx.conns)) = _
            rw [alook_aupd_self, alook_aupd_self, hcc]
            rfl
          have hqR : cid ∉ (group_remove_connection gid cid (updConn cid
              (fun c => { c with state := st, metadata := metadata_set_flag c.metadata METADATA_STATE_CHANGED })
              ctx)).newq := wf_owned_not_newq ctx hwf cid c gid hcc hg
          have hnpR : ∀ p ∈ (group_remove_connection gid cid (updConn cid
              (fun c => { c with state := st, metadata := metadata_set_flag c.metadata METADATA_STATE_CHANGED })
              ctx)).groups, p.2.parent ≠ some cid := by
            intro p hp hpp
            have hp2 : p ∈ aupd gid (fun g => { g with members := g.members.erase cid })
                ctx.groups := hp
            obtain ⟨q, hq, _, hsnd⟩ := mem_aupd _ _ _ _ hp2
            refine wf_owned_not_parent ctx hwf cid c gid hcc hg q hq ?_
            rcases hsnd with ⟨_, h⟩ | ⟨_, h⟩
            · rw [h] at hpp
              exact hpp
            · rw [h] at hpp
              exact hpp
          exact wf_updConn cid
            (fun c => { c with metadata := metadata_set_flag c.metadata METADATA_UPDATED })
            (fun c => rfl) _
            (wf_push_newq _ hwfR cid _ hgR rfl hqR hnpR)
        · -- grouping not keyed on state: in-place state update
          exact wf_updConn cid
            (fun c => { c with metadata := metadata_set_flag c.metadata METADATA_UPDATED })
            (fun c => rfl) _
            (wf_updConn cid
              (fun c => { c with state := st, metadata := metadata_set_flag c.metadata METADATA_STATE_CHANGED })
              (fun c => rfl) ctx hwf)
  · -- brand-new record
    dsimp only []
    split
    · -- a user filter matched
      rename_i f gid hflm
      have hmemf : (f, gid) ∈ ctx.filters := List.mem_of_find?_eq_some hflm
      have hgidref : gid ∈ groupRefs ctx := by
        simp only [groupRefs, List.mem_append]
        exact Or.inr (List.mem_map_of_mem Prod.snd hmemf)
      obtain ⟨g, hgs⟩ := Option.isSome_iff_exists.mp (h12 gid hgidref)
      by_cases hact1 : f.action = FilterAction.FILTERACT_IGNORE
      · rw [if_pos hact1]
        split
        · -- routed into the matching ignore group
          exact wf_updConn ctx.nextConn
            (fun c => { c with metadata := metadata_set_flag c.metadata METADATA_UPDATED })
            (fun c => rfl) _
            (wf_group_add _ (wf_new_conn ctx hwf _ rfl) gid ctx.nextConn _ g
              (alook_cons_self _ _ _) rfl hfreshq hfreshp hgs)
        · rename_i hig
          simp [metadata_is_ignored, metadata_set_flag, METADATA_IGNORED,
            METADATA_NEW] at hig
      · by_cases hact2 : f.action = FilterAction.FILTERACT_WARN
        · rw [if_neg hact1, if_pos hact2]
          split
          · rename_i hig
            simp [metadata_is_ignored, metadata_set_flag, METADATA_IGNORED,
              METADATA_NEW, METADATA_WARN] at hig
            exact absurd (by decide) hig
          · split
            · -- fresh listening group
              exact wf_updConn ctx.nextConn
                (fun c => { c with metadata := metadata_set_flag c.metadata METADATA_UPDATED })
                (fun c => rfl) _
                (wf_insert_listen_group _ (wf_new_conn ctx hwf _ rfl) ctx.nextConn
                  _ _ now (alook_cons_self _ _ _) rfl hfreshq hfreshp)
            · -- pending queue
              exact wf_updConn ctx.nextConn
                (fun c => { c with metadata := metadata_set_flag c.metadata METADATA_UPDATED })
                (fun c => rfl) _
                (wf_push_newq _ (wf_new_conn ctx hwf _ rfl) ctx.nextConn _
                  (alook_cons_self _ _ _) rfl hfreshq hfreshp)
        · rw [if_neg hact1, if_neg hact2]
          split
          · rename_i hig
            simp [metadata_is_ignored, metadata_set_flag, METADATA_IGNORED,
              METADATA_NEW, METADATA_WARN] at hig
            exact absurd (by decide) hig
          · split
            · -- fresh listening group
              exact wf_updConn ctx.nextConn
                (fun c => { c with metadata := metadata_set_flag c.metadata METADATA_UPDATED })
                (fun c => rfl) _
                (wf_insert_listen_group _ (wf_new_conn ctx hwf _ rfl) ctx.nextConn
                  _ _ now (alook_cons_self _ _ _) rfl hfreshq hfreshp)
            · -- pending queue
              exact wf_updConn ctx.nextConn
                (fun c => { c with metadata := metadata_set_flag c.metadata METADATA_UPDATED })
                (fun c => rfl) _
                (wf_push_newq _ (wf_new_conn ctx hwf _ rfl) ctx.nextConn _
                  (alook_cons_self _ _ _) rfl hfreshq hfreshp)
    · -- no filter matched
      split
      · -- fresh listening group
        exact wf_updConn ctx.nextConn
          (fun c => { c with metadata := metadata_set_flag c.metadata METADATA_UPDATED })
          (fun c => rfl) _
          (wf_insert_listen_group _ (wf_new_conn ctx hwf _ rfl) ctx.nextConn
            _ _ now (alook_cons_self _ _ _) rfl hfreshq hfreshp)
      · -- pending queue
        exact wf_updConn ctx.nextConn
          (fun c => { c with metadata := metadata_set_flag c.metadata METADATA_UPDATED })
          (fun c => rfl) _
          (wf_push_newq _ (wf_new_conn ctx hwf _ rfl) ctx.nextConn _
            (alook_cons_self _ _ _) rfl hfreshq hfreshp)

/-! ## Rotation preserves the invariant -/

theorem group_match_live (ctx : StatContext) (gid : Nat) (c : TcpConn)
    (h : group_match ctx gid c = true) : ∃ g, alook gid ctx.groups = some g := by
  unfold group_match at h
  rcases hv : alook gid ctx.groups with _ | g
  · rw [hv] at h
    exact Bool.noConfusion h
  · exact ⟨g, rfl⟩

theorem glist_find_live (ctx : StatContext) (gids : List Nat) (c : TcpConn)
    (gid : Nat) (h : glist_find_match ctx gids c = some gid) :
    gid ∈ gids ∧ ∃ g, alook gid ctx.groups = some g := by
  have h2 : gids.find? (fun g => group_match ctx g c) = some gid := h
  have hmem : gid ∈ gids := List.mem_of_find?_eq_some h2
  have hmatch := List.find?_some h2
  exact ⟨hmem, group_match_live ctx gid c hmatch⟩

theorem alook_updConn_ne (cid x : Nat) (f : TcpConn → TcpConn) (ctx : StatContext)
    (hne : x ≠ cid) : alook x (updConn cid f ctx).conns = alook x ctx.conns :=
  alook_aupd_ne cid x f ctx.conns hne

theorem rotate_one_newq (now : Int) (ctx : StatContext) (cid : Nat) :
    (rotate_one now ctx cid).newq = ctx.newq := by
  unfold rotate_one
  dsimp only []
  split
  · rfl
  · split
    · rfl
    · split
      · rfl
      · rfl

theorem rotate_one_listen (now : Int) (ctx : StatContext) (cid : Nat) :
    (rotate_one now ctx cid).listen_groups = ctx.listen_groups := by
  unfold rotate_one
  dsimp only []
  split
  · rfl
  · split
    · rfl
    · split
      · rfl
      · rfl

theorem rotate_one_alook_ne (now : Int) (ctx : StatContext) (cid x : Nat)
    (hne : x ≠ cid) :
    alook x (rotate_one now ctx cid).conns = alook x ctx.conns := by
  unfold rotate_one
  dsimp only []
  split
  · rfl
  · split
    · rename_i c halook gid hfind
      exact (alook_aupd_ne cid x
          (fun c => { c with metadata := { c.metadata with dir := ConnectionDir.DIR_INBOUND } })
          (aupd cid (fun c => { c with group := some gid }) ctx.conns) hne).trans
        (alook_aupd_ne cid x (fun c => { c with group := some gid }) ctx.conns hne)
    · split
      · rename_i c halook hnofind gid hfind
        exact (alook_aupd_ne cid x
            (fun c => { c with group := some gid })
            (aupd cid (fun c => { c with metadata := { c.metadata with dir := ConnectionDir.DIR_OUTBOUND } }) ctx.conns) hne).trans
          (alook_aupd_ne cid x
            (fun c => { c with metadata := { c.metadata with dir := ConnectionDir.DIR_OUTBOUND } }) ctx.conns hne)
      · exact (alook_aupd_ne cid x
            (fun c => { c with group := some ctx.nextGroup })
            (aupd cid (fun c => { c with metadata := { c.metadata with dir := ConnectionDir.DIR_OUTBOUND } }) ctx.conns) hne).trans
          (alook_aupd_ne cid x
            (fun c => { c with metadata := { c.metadata with dir := ConnectionDir.DIR_OUTBOUND } }) ctx.conns hne)

theorem parents_aupd_members (groups : List (Nat × ConnGroup)) (gid : Nat)
    (f : ConnGroup → ConnGroup) (hf : ∀ g, (f g).parent = g.parent) (x : Nat)
    (h : ∀ p ∈ groups, p.2.parent ≠ some x) :
    ∀ p ∈ aupd gid f groups, p.2.parent ≠ some x := by
  intro p hp
  obtain ⟨q, hq, _, hsnd⟩ := mem_aupd _ _ _ _ hp
  rcases hsnd with ⟨_, he⟩ | ⟨_, he⟩
  · rw [he]
    exact h q hq
  · rw [he, hf]
    exact h q hq

theorem rotate_one_parents (now : Int) (ctx : StatContext) (cid x : Nat)
    (h : ∀ p ∈ ctx.groups, p.2.parent ≠ some x) :
    ∀ p ∈ (rotate_one now ctx cid).groups, p.2.parent ≠ some x := by
  unfold rotate_one
  dsimp only []
  split
  · exact h
  · split
    · rename_i c halook gid hfind
      exact parents_aupd_members ctx.groups gid
        (fun g => { g with members := cid :: g.members }) (fun g => rfl) x h
    · split
      · rename_i c halook hnofind gid hfind
        exact parents_aupd_members ctx.groups gid
          (fun g => { g with members := cid :: g.members }) (fun g => rfl) x h
      · refine parents_aupd_members _ ctx.nextGroup
          (fun g => { g with members := cid :: g.members }) (fun g => rfl) x ?_
        intro p hp
        rcases List.mem_cons.mp hp with he | hm
        · rw [he]
          intro hcon
          exact Option.noConfusion hcon
        · exact h p hm

theorem wf_rotate_one (now : Int) (ctx : StatContext) (cid : Nat) (hwf : WF ctx)
    (hpre : ∀ c, alook cid ctx.conns = some c →
      c.group = none ∧ cid ∉ ctx.newq ∧ ∀ p ∈ ctx.groups, p.2.parent ≠ some cid) :
    WF (rotate_one now ctx cid) := by
  unfold rotate_one
  dsimp only []
  split
  · exact hwf
  · rename_i c halook
    obtain ⟨hgn, hq, hnp⟩ := hpre c halook
    split
    · rename_i gid hfind
      obtain ⟨hmem, g, hg⟩ := glist_find_live ctx ctx.listen_groups c gid hfind
      exact wf_updConn cid
        (fun c => { c with metadata := { c.metadata with dir := ConnectionDir.DIR_INBOUND } })
        (fun c => rfl) _
        (wf_group_add ctx hwf gid cid c g halook hgn hq hnp hg)
    · rename_i hnofind
      have hwf1 : WF (updConn cid
          (fun c => { c with metadata := { c.metadata with dir := ConnectionDir.DIR_OUTBOUND } })
          ctx) :=
        wf_updConn cid
          (fun c => { c with metadata := { c.metadata with dir := ConnectionDir.DIR_OUTBOUND } })
          (fun c => rfl) ctx hwf
      have halook1 : alook cid (updConn cid
          (fun c => { c with metadata := { c.metadata with dir := ConnectionDir.DIR_OUTBOUND } })
          ctx).conns
          = some { c with metadata := { c.metadata with dir := ConnectionDir.DIR_OUTBOUND } } := by
        show alook cid (aupd cid
          (fun c => { c with metadata := { c.metadata with dir := ConnectionDir.DIR_OUTBOUND } })
          ctx.conns) = _
        rw [alook_aupd_self, halook]
        rfl
      split
      · rename_i gid hfind2
        obtain ⟨hmem2, g2, hg2⟩ := glist_find_live _ _ _ gid hfind2
        exact wf_group_add _ hwf1 gid cid _ g2 halook1 hgn hq hnp hg2
      · -- no outbound group matched: synthesize one
        have hwfS := wf_new_group_store _ hwf1
          (some (filter_from_connection
            { c with metadata := { c.metadata with dir := ConnectionDir.DIR_OUTBOUND } }
            ctx.common_policy FilterAction.FILTERACT_GROUP now))
          none (fun cid' h => Option.noConfusion h)
        have hnpS : ∀ p ∈ (ctx.nextGroup,
            (⟨some (filter_from_connection
              { c with metadata := { c.metadata with dir := ConnectionDir.DIR_OUTBOUND } }
              ctx.common_policy FilterAction.FILTERACT_GROUP now), [], none⟩ : ConnGroup))
            :: ctx.groups, p.2.parent ≠ some cid := by
          intro p hp
          rcases List.mem_cons.mp hp with he | hm
          · rw [he]
            intro hcon
            exact Option.noConfusion hcon
          · exact hnp p hm
        have hwfGA := wf_group_add _ hwfS ctx.nextGroup cid _ _ halook1 hgn hq hnpS
          (alook_cons_self _ _ _)
        have hrefs : ctx.nextGroup ∉ groupRefs ctx := by
          intro hmem
          exact absurd (refs_lt_nextGroup ctx hwf _ hmem) (lt_irrefl _)
        have hsomeGA : (alook ctx.nextGroup
            (aupd ctx.nextGroup (fun g => { g with members := cid :: g.members })
              ((ctx.nextGroup,
                (⟨some (filter_from_connection
                  { c with metadata := { c.metadata with dir := ConnectionDir.DIR_OUTBOUND } }
                  ctx.common_policy FilterAction.FILTERACT_GROUP now), [], none⟩ : ConnGroup))
                :: (updConn cid
                  (fun c => { c with metadata := { c.metadata with dir := ConnectionDir.DIR_OUTBOUND } })
                  ctx).groups))).isSome = true := by
          rw [alook_aupd_self, alook_cons_self]
          rfl
        have hparGA : (∀ gp, alook ctx.nextGroup
            (aupd ctx.nextGroup (fun g => { g with members := cid :: g.members })
              ((ctx.nextGroup,
                (⟨some (filter_from_connection
                  { c with metadata := { c.metadata with dir := ConnectionDir.DIR_OUTBOUND } }
                  ctx.common_policy FilterAction.FILTERACT_GROUP now), [], none⟩ : ConnGroup))
                :: (updConn cid
                  (fun c => { c with metadata := { c.metadata with dir := ConnectionDir.DIR_OUTBOUND } })
                  ctx).groups)) = some gp → gp.parent = none) := by
          intro gp hgp
          rw [alook_aupd_self, alook_cons_self] at hgp
          cases Option.some.inj hgp
          rfl
        refine wf_out_prepend _ hwfGA ctx.nextGroup hsomeGA hrefs ?_
        unfold group_get_parent
        rcases hv : alook ctx.nextGroup (group_add_connection ctx.nextGroup cid _).groups
          with _ | gp
        · rfl
        · exact hparGA gp hv

theorem wf_clear_newq (ctx : StatContext) (hwf : WF ctx) :
    WF { ctx with newq := [] } := by
  obtain ⟨h1, h2, h3, h4, h5, h6, h7, h8, h9, h10, h11, h12, h13⟩ := hwf
  refine ⟨h1, h2, h3, h4, h5, List.nodup_nil, h7, h8, ?_, ?_, h11, h12, ?_⟩
  · intro x hx
    exact absurd hx (List.not_mem_nil x)
  · intro p hp
    rcases hpp : p.2.parent with _ | pcid
    · exact parentOk_none _ _ _ _ _ hpp
    · obtain ⟨pc, hpc, hpcg, _, hpu⟩ := parentOk_spec _ _ _ _ _ _ (h10 p hp) hpp
      exact parentOk_intro _ _ _ _ _ pcid pc hpp hpc hpcg (List.not_mem_nil pcid) hpu
  · intro gid hgid
    exact h13 gid hgid

theorem wf_newq_not_parent (ctx : StatContext) (hwf : WF ctx) (cid : Nat)
    (hcid : cid ∈ ctx.newq) : ∀ p ∈ ctx.groups, p.2.parent ≠ some cid := by
  have h10 := hwf.2.2.2.2.2.2.2.2.2.1
  intro p hp hpp
  obtain ⟨pc, hpc, hpcg, hpcq, _⟩ := parentOk_spec _ _ _ _ _ _ (h10 p hp) hpp
  exact hpcq hcid

theorem wf_rotate_list (now : Int) (q : List Nat) (ctx : StatContext)
    (hwf : WF ctx) (hnd : q.Nodup)
    (hpre : ∀ cid ∈ q, ∀ c, alook cid ctx.conns = some c →
      c.group = none ∧ cid ∉ ctx.newq ∧ ∀ p ∈ ctx.groups, p.2.parent ≠ some cid) :
    WF (rotate_list now q ctx) := by
  induction q generalizing ctx with
  | nil => exact hwf
  | cons cid rest ih =>
    have hwf1 := wf_rotate_one now ctx cid hwf (hpre cid (List.mem_cons_self cid rest))
    refine ih _ hwf1 hnd.of_cons ?_
    intro x hx c hc
    have hxne : x ≠ cid := fun he => (List.nodup_cons.mp hnd).1 (he ▸ hx)
    rw [rotate_one_alook_ne now ctx cid x hxne] at hc
    obtain ⟨hgn, hq, hnp⟩ := hpre x (List.mem_cons_of_mem _ hx) c hc
    refine ⟨hgn, ?_, ?_⟩
    · rw [rotate_one_newq]
      exact hq
    · exact rotate_one_parents now ctx cid x hnp

theorem wf_rotate_new_queue (now : Int) (ctx : StatContext) (hwf : WF ctx) :
    WF (rotate_new_queue now ctx) := by
  have h9 := hwf.2.2.2.2.2.2.2.2.1
  have h6 := hwf.2.2.2.2.2.1
  refine wf_rotate_list now ctx.newq _ (wf_clear_newq ctx hwf) h6 ?_
  intro cid hcid c hc
  obtain ⟨c', hc', hg'⟩ := newqOk_spec _ _ (h9 cid hcid)
  have hc2 : alook cid ctx.conns = some c := hc
  rw [hc'] at hc2
  cases Option.some.inj hc2
  refine ⟨hg', List.not_mem_nil cid, ?_⟩
  intro p hp
  exact wf_newq_not_parent ctx hwf cid hcid p hp

theorem rotate_list_newq (now : Int) (q : List Nat) (ctx : StatContext) :
    (rotate_list now q ctx).newq = ctx.newq := by
  induction q generalizing ctx with
  | nil => rfl
  | cons cid rest ih =>
    show (rotate_list now rest (rotate_one now ctx cid)).newq = ctx.newq
    rw [ih, rotate_one_newq]

theorem rotate_new_queue_newq (now : Int) (ctx : StatContext) :
    (rotate_new_queue now ctx).newq = [] := by
  show (rotate_list now ctx.newq { ctx with newq := [] }).newq = []
  rw [rotate_list_newq]

/-! ## Purging preserves the invariant -/

theorem aerase_not_mem {α : Type} (k : Nat) (l : List (Nat × α))
    (h : k ∉ l.map Prod.fst) : aerase k l = l := by
  induction l with
  | nil => rfl
  | cons p rest ih =>
    rw [aerase_cons]
    have hpk : p.1 ≠ k := fun he => h (by simp [he])
    rw [if_neg hpk, ih (fun hm => h (List.mem_cons_of_mem _ hm))]

theorem aupd_not_mem {α : Type} (k : Nat) (f : α → α) (l : List (Nat × α))
    (h : k ∉ l.map Prod.fst) : aupd k f l = l := by
  induction l with
  | nil => rfl
  | cons p rest ih =>
    rw [aupd_cons]
    have hpk : p.1 ≠ k := fun he => h (by simp [he])
    rw [if_neg hpk, ih (fun hm => h (List.mem_cons_of_mem _ hm))]

theorem aupd_congr_value {α : Type} (k : Nat) (f1 f2 : α → α) (l : List (Nat × α))
    (hnd : (l.map Prod.fst).Nodup) (c : α) (hc : alook k l = some c)
    (hf : f1 c = f2 c) : aupd k f1 l = aupd k f2 l := by
  induction l with
  | nil => rfl
  | cons p rest ih =>
    rw [aupd_cons, aupd_cons]
    by_cases hpk : p.1 = k
    · have hc2 : alook k (p :: rest) = some p.2 := by
        rw [← hpk, alook_cons_self]
      rw [hc] at hc2
      cases Option.some.inj hc2
      rw [if_pos hpk, if_pos hpk, hf]
      have hknotin : k ∉ rest.map Prod.fst := by
        rw [← hpk]
        exact (List.nodup_cons.mp hnd).1
      rw [aupd_not_mem k f1 rest hknotin, aupd_not_mem k f2 rest hknotin]
    · rw [if_neg hpk, if_neg hpk]
      have hc2 : alook k rest = some c := by
        rw [← alook_cons_ne p.1 k p.2 rest hpk]
        exact hc
      rw [ih (List.nodup_cons.mp hnd).2 hc2]

theorem do_lingering_group (now : Int) (c : TcpConn) :
    ((do_lingering now c).2).group = c.group := by
  unfold do_lingering
  split
  · rfl
  · rfl

/-- Overwriting one record with a value that keeps its back-pointer
preserves the invariant. -/
theorem wf_updConn_value (ctx : StatContext) (hwf : WF ctx) (cid : Nat)
    (c v : TcpConn) (hc : alook cid ctx.conns = some c) (hgv : v.group = c.group) :
    WF (updConn cid (fun _ => v) ctx) := by
  have he : aupd cid (fun _ => v) ctx.conns
      = aupd cid (fun c0 => { v with group := c0.group }) ctx.conns := by
    refine aupd_congr_value cid _ _ ctx.conns hwf.1 c hc ?_
    show v = { v with group := c.group }
    rw [← hgv]
  show WF { ctx with conns := aupd cid (fun _ => v) ctx.conns }
  rw [he]
  exact wf_updConn cid (fun c0 => { v with group := c0.group }) (fun c0 => rfl) ctx hwf

theorem wf_out_not_elsewhere (ctx : StatContext) (hwf : WF ctx) (gid : Nat)
    (hmem : gid ∈ ctx.out_groups) :
    gid ∉ ctx.listen_groups ∧ gid ∉ ctx.filters.map Prod.snd := by
  have h11 : ((ctx.listen_groups ++ ctx.out_groups) ++ ctx.filters.map Prod.snd).Nodup :=
    hwf.2.2.2.2.2.2.2.2.2.2.1
  have hd1 : List.Disjoint (ctx.listen_groups ++ ctx.out_groups) (ctx.filters.map Prod.snd) :=
    List.disjoint_of_nodup_append h11
  have hd2 : List.Disjoint ctx.listen_groups ctx.out_groups :=
    List.disjoint_of_nodup_append (List.Nodup.of_append_left h11)
  constructor
  · intro hl
    exact hd2 hl hmem
  · intro hf
    exact hd1 (List.mem_append.mpr (Or.inr hmem)) hf

theorem wf_listen_not_elsewhere (ctx : StatContext) (hwf : WF ctx) (gid : Nat)
    (hmem : gid ∈ ctx.listen_groups) :
    gid ∉ ctx.out_groups ∧ gid ∉ ctx.filters.map Prod.snd := by
  have h11 : ((ctx.listen_groups ++ ctx.out_groups) ++ ctx.filters.map Prod.snd).Nodup :=
    hwf.2.2.2.2.2.2.2.2.2.2.1
  have hd1 : List.Disjoint (ctx.listen_groups ++ ctx.out_groups) (ctx.filters.map Prod.snd) :=
    List.disjoint_of_nodup_append h11
  have hd2 : List.Disjoint ctx.listen_groups ctx.out_groups :=
    List.disjoint_of_nodup_append (List.Nodup.of_append_left h11)
  constructor
  · intro ho
    exact hd2 hmem ho
  · intro hf
    exact hd1 (List.mem_append.mpr (Or.inl hmem)) hf

/-- Deleting an empty, parentless group that is referenced only from
the outbound list preserves the invariant. -/
theorem wf_delete_group_out (ctx : StatContext) (hwf : WF ctx) (gid : Nat)
    (hmem : gid ∈ ctx.out_groups)
    (hempty : group_get_size ctx gid = 0) (hpar : group_get_parent ctx gid = none) :
    WF { ctx with out_groups := ctx.out_groups.erase gid,
                  groups := aerase gid ctx.groups } := by
  obtain ⟨hnl, hnf⟩ := wf_out_not_elsewhere ctx hwf gid hmem
  obtain ⟨h1, h2, h3, h4, h5, h6, h7, h8, h9, h10, h11, h12, h13⟩ := hwf
  have hgsome := h12 gid (by
    simp only [groupRefs, List.mem_append]
    exact Or.inl (Or.inr hmem))
  rcases hg : alook gid ctx.groups with _ | g
  · rw [hg] at hgsome
    simp at hgsome
  · have hms : g.members = [] := by
      unfold group_get_size at hempty
      rw [hg] at hempty
      exact List.length_eq_zero.mp hempty
    have hndout : ctx.out_groups.Nodup :=
      (List.Nodup.of_append_left h11).of_append_right
    refine ⟨h1, ?_, h3, ?_, ?_, h6, ?_, ?_, h9, ?_, ?_, ?_, ?_⟩
    · exact h2.sublist (aerase_map_fst_sublist gid ctx.groups)
    · intro p hp
      exact h4 p (mem_aerase _ _ _ hp).1
    · intro p hp
      exact h5 p (mem_aerase _ _ _ hp).1
    · intro p hp x hx
      exact h7 p (mem_aerase _ _ _ hp).1 x hx
    · intro p hp
      rcases hcg : p.2.group with _ | gid2
      · exact connOwnerOk_none _ _ _ hcg
      · obtain ⟨g2, hg2, hm2⟩ := connOwnerOk_spec _ _ _ _ (h8 p hp) hcg
        have hne : gid2 ≠ gid := by
          intro he
          subst he
          rw [hg] at hg2
          cases Option.some.inj hg2
          rw [hms] at hm2
          exact absurd hm2 (List.not_mem_nil _)
        refine connOwnerOk_intro _ _ _ gid2 g2 hcg ?_ hm2
        show alook gid2 (aerase gid ctx.groups) = some g2
        rw [alook_aerase_ne _ _ _ hne]
        exact hg2
    · intro p hp
      rcases hpp : p.2.parent with _ | pcid
      · exact parentOk_none _ _ _ _ _ hpp
      · obtain ⟨pc, hpc, hpcg, hpcq, hpu⟩ :=
          parentOk_spec _ _ _ _ _ _ (h10 p (mem_aerase _ _ _ hp).1) hpp
        refine parentOk_intro _ _ _ _ _ pcid pc hpp hpc hpcg hpcq ?_
        intro q hq
        exact hpu q (mem_aerase _ _ _ hq).1
    · show (ctx.listen_groups ++ ctx.out_groups.erase gid ++ ctx.filters.map Prod.snd).Nodup
      refine List.Nodup.sublist ?_ h11
      exact List.Sublist.append (List.Sublist.append (List.Sublist.refl _)
        (List.erase_sublist gid ctx.out_groups)) (List.Sublist.refl _)
    · intro gid2 hgid2
      have hgid2m : gid2 ∈ ctx.listen_groups ++ ctx.out_groups.erase gid
          ++ ctx.filters.map Prod.snd := hgid2
      have hgid2ne : gid2 ≠ gid := by
        intro he
        subst he
        rcases List.mem_append.mp hgid2m with hlo | hf
        · rcases List.mem_append.mp hlo with hl | ho
          · exact hnl hl
          · exact (hndout.mem_erase_iff.mp ho).1 rfl
        · exact hnf hf
      show (alook gid2 (aerase gid ctx.groups)).isSome = true
      rw [alook_aerase_ne _ _ _ hgid2ne]
      refine h12 gid2 ?_
      simp only [groupRefs, List.mem_append]
      rcases List.mem_append.mp hgid2m with hlo | hf
      · rcases List.mem_append.mp hlo with hl | ho
        · exact Or.inl (Or.inl hl)
        · exact Or.inl (Or.inr (hndout.mem_erase_iff.mp ho).2)
      · exact Or.inr hf
    · intro gid2 hgid2
      have hg2 : gid2 ∈ ctx.out_groups.erase gid := hgid2
      have hgid2ne : gid2 ≠ gid := (hndout.mem_erase_iff.mp hg2).1
      have hold := h13 gid2 (hndout.mem_erase_iff.mp hg2).2
      unfold group_get_parent at hold
      show (match alook gid2 (aerase gid ctx.groups) with
        | some g => g.parent | none => none) = none
      rw [alook_aerase_ne _ _ _ hgid2ne]
      exact hold

/-- Deleting an empty, parentless group that is referenced only from
the listening list preserves the invariant. -/
theorem wf_delete_group_listen (ctx : StatContext) (hwf : WF ctx) (gid : Nat)
    (hmem : gid ∈ ctx.listen_groups)
    (hempty : group_get_size ctx gid = 0) (hpar : group_get_parent ctx gid = none) :
    WF { ctx with listen_groups := ctx.listen_groups.erase gid,
                  groups := aerase gid ctx.groups } := by
  obtain ⟨hno, hnf⟩ := wf_listen_not_elsewhere ctx hwf gid hmem
  obtain ⟨h1, h2, h3, h4, h5, h6, h7, h8, h9, h10, h11, h12, h13⟩ := hwf
  have hgsome := h12 gid (by
    simp only [groupRefs, List.mem_append]
    exact Or.inl (Or.inl hmem))
  rcases hg : alook gid ctx.groups with _ | g
  · rw [hg] at hgsome
    simp at hgsome
  · have hms : g.members = [] := by
      unfold group_get_size at hempty
      rw [hg] at hempty
      exact List.length_eq_zero.mp hempty
    have hndlis : ctx.listen_groups.Nodup :=
      (List.Nodup.of_append_left h11).of_append_left
    refine ⟨h1, ?_, h3, ?_, ?_, h6, ?_, ?_, h9, ?_, ?_, ?_, ?_⟩
    · exact h2.sublist (aerase_map_fst_sublist gid ctx.groups)
    · intro p hp
      exact h4 p (mem_aerase _ _ _ hp).1
    · intro p hp
      exact h5 p (mem_aerase _ _ _ hp).1
    · intro p hp x hx
      exact h7 p (mem_aerase _ _ _ hp).1 x hx
    · intro p hp
      rcases hcg : p.2.group with _ | gid2
      · exact connOwnerOk_none _ _ _ hcg
      · obtain ⟨g2, hg2, hm2⟩ := connOwnerOk_spec _ _ _ _ (h8 p hp) hcg
        have hne : gid2 ≠ gid := by
          intro he
          subst he
          rw [hg] at hg2
          cases Option.some.inj hg2
          rw [hms] at hm2
          exact absurd hm2 (List.not_mem_nil _)
        refine connOwnerOk_intro _ _ _ gid2 g2 hcg ?_ hm2
        show alook gid2 (aerase gid ctx.groups) = some g2
        rw [alook_aerase_ne _ _ _ hne]
        exact hg2
    · intro p hp
      rcases hpp : p.2.parent with _ | pcid
      · exact parentOk_none _ _ _ _ _ hpp
      · obtain ⟨pc, hpc, hpcg, hpcq, hpu⟩ :=
          parentOk_spec _ _ _ _ _ _ (h10 p (mem_aerase _ _ _ hp).1) hpp
        refine parentOk_intro _ _ _ _ _ pcid pc hpp hpc hpcg hpcq ?_
        intro q hq
        exact hpu q (mem_aerase _ _ _ hq).1
    · show (ctx.listen_groups.erase gid ++ ctx.out_groups ++ ctx.filters.map Prod.snd).Nodup
      refine List.Nodup.sublist ?_ h11
      exact List.Sublist.append (List.Sublist.append
        (List.erase_sublist gid ctx.listen_groups) (List.Sublist.refl _))
        (List.Sublist.refl _)
    · intro gid2 hgid2
      have hgid2m : gid2 ∈ ctx.listen_groups.erase gid ++ ctx.out_groups
          ++ ctx.filters.map Prod.snd := hgid2
      have hgid2ne : gid2 ≠ gid := by
        intro he
        subst he
        rcases List.mem_append.mp hgid2m with hlo | hf
        · rcases List.mem_append.mp hlo with hl | ho
          · exact (hndlis.mem_erase_iff.mp hl).1 rfl
          · exact hno ho
        · exact hnf hf
      show (alook gid2 (aerase gid ctx.groups)).isSome = true
      rw [alook_aerase_ne _ _ _ hgid2ne]
      refine h12 gid2 ?_
      simp only [groupRefs, List.mem_append]
      rcases List.mem_append.mp hgid2m with hlo | hf
      · rcases List.mem_append.mp hlo with hl | ho
        · exact Or.inl (Or.inl (hndlis.mem_erase_iff.mp hl).2)
        · exact Or.inl (Or.inr ho)
      · exact Or.inr hf
    · intro gid2 hgid2
      have hg2 : gid2 ∈ ctx.out_groups := hgid2
      have hgid2ne : gid2 ≠ gid := by
        intro he
        subst he
        exact hno hg2
      have hold := h13 gid2 hg2
      unfold group_get_parent at hold
      show (match alook gid2 (aerase gid ctx.groups) with
        | some g => g.parent | none => none) = none
      rw [alook_aerase_ne _ _ _ hgid2ne]
      exact hold

theorem wf_delete_out_if_empty (gid : Nat) (ctx : StatContext) (hwf : WF ctx)
    (hmem : gid ∈ ctx.out_groups) : WF (delete_out_if_empty gid ctx) := by
  unfold delete_out_if_empty
  split
  · rename_i hcond
    exact wf_delete_group_out ctx hwf gid hmem hcond.1 hcond.2
  · exact hwf

theorem wf_delete_listen_if_empty (gid : Nat) (ctx : StatContext) (hwf : WF ctx)
    (hmem : gid ∈ ctx.listen_groups) : WF (delete_listen_if_empty gid ctx) := by
  unfold delete_listen_if_empty
  split
  · rename_i hcond
    exact wf_delete_group_listen ctx hwf gid hmem hcond.1 hcond.2
  · exact hwf

theorem purge_members_frame (gid : Nat) (dl : Bool) (now : Int) (ms : List Nat)
    (ctx : StatContext) :
    (purge_members gid dl now ms ctx).1.out_groups = ctx.out_groups ∧
    (purge_members gid dl now ms ctx).1.listen_groups = ctx.listen_groups ∧
    (purge_members gid dl now ms ctx).1.filters = ctx.filters ∧
    (purge_members gid dl now ms ctx).1.newq = ctx.newq := by
  induction ms generalizing ctx with
  | nil => exact ⟨rfl, rfl, rfl, rfl⟩
  | cons cid rest ih =>
    unfold purge_members
    dsimp only []
    split
    · exact ih ctx
    · rename_i c halook
      split
      · split
        · rcases hres : purge_members gid dl now rest
            (updConn cid (fun _ => (do_lingering now c).2) ctx) with ⟨ctx2, n⟩
          have hi := ih (updConn cid (fun _ => (do_lingering now c).2) ctx)
          rw [hres] at hi
          exact hi
        · rcases hres : purge_members gid dl now rest
            { group_remove_connection gid cid ctx with
              conns := aerase cid (group_remove_connection gid cid ctx).conns }
            with ⟨ctx2, n⟩
          have hi := ih { group_remove_connection gid cid ctx with
              conns := aerase cid (group_remove_connection gid cid ctx).conns }
          rw [hres] at hi
          exact hi
      · exact ih ctx

theorem wf_purge_members (gid : Nat) (dl : Bool) (now : Int) (ms : List Nat)
    (ctx : StatContext) (hwf : WF ctx) (hnd : ms.Nodup)
    (hpre : ∀ cid ∈ ms, ∀ c, alook cid ctx.conns = some c → c.group = some gid) :
    WF (purge_members gid dl now ms ctx).1 := by
  induction ms generalizing ctx with
  | nil => exact hwf
  | cons cid rest ih =>
    unfold purge_members
    dsimp only []
    split
    · exact ih ctx hwf hnd.of_cons (fun x hx => hpre x (List.mem_cons_of_mem _ hx))
    · rename_i c halook
      split
      · split
        · -- untouched, lingering in place
          have hwf1 : WF (updConn cid (fun _ => (do_lingering now c).2) ctx) :=
            wf_updConn_value ctx hwf cid c _ halook (do_lingering_group now c)
          have hpre1 : ∀ x ∈ rest, ∀ c2,
              alook x (updConn cid (fun _ => (do_lingering now c).2) ctx).conns = some c2 →
              c2.group = some gid := by
            intro x hx c2 hc2
            have hxne : x ≠ cid := fun he => (List.nodup_cons.mp hnd).1 (he ▸ hx)
            have hc3 : alook x (aupd cid (fun _ => (do_lingering now c).2) ctx.conns)
                = some c2 := hc2
            rw [alook_aupd_ne _ _ _ _ hxne] at hc3
            exact hpre x (List.mem_cons_of_mem _ hx) c2 hc3
          rcases hres : purge_members gid dl now rest
            (updConn cid (fun _ => (do_lingering now c).2) ctx) with ⟨ctx2, n⟩
          have hi := ih (updConn cid (fun _ => (do_lingering now c).2) ctx) hwf1
            hnd.of_cons hpre1
          rw [hres] at hi
          exact hi
        · -- untouched, unlink and deallocate
          have hcg : c.group = some gid := hpre cid (List.mem_cons_self _ _) c halook
          have hwfR : WF (group_remove_connection gid cid ctx) :=
            wf_group_remove ctx hwf gid cid c halook hcg
          have halookR : alook cid (group_remove_connection gid cid ctx).conns
              = some { c with group := none } := by
            show alook cid (aupd cid (fun c => { c with group := none }) ctx.conns) = _
            rw [alook_aupd_self, halook]
            rfl
          have hqR : cid ∉ (group_remove_connection gid cid ctx).newq :=
            wf_owned_not_newq ctx hwf cid c gid halook hcg
          have hnpR : ∀ p ∈ (group_remove_connection gid cid ctx).groups,
              p.2.parent ≠ some cid := by
            intro p hp hpp
            have hp2 : p ∈ aupd gid (fun g => { g with members := g.members.erase cid })
                ctx.groups := hp
            obtain ⟨q, hq, _, hsnd⟩ := mem_aupd _ _ _ _ hp2
            refine wf_owned_not_parent ctx hwf cid c gid halook hcg q hq ?_
            rcases hsnd with ⟨_, h⟩ | ⟨_, h⟩
            · rw [h] at hpp
              exact hpp
            · rw [h] at hpp
              exact hpp
          have hwfE : WF { group_remove_connection gid cid ctx with
              conns := aerase cid (group_remove_connection gid cid ctx).conns } :=
            wf_erase_conn _ hwfR cid _ halookR rfl hqR hnpR
          have hpre2 : ∀ x ∈ rest, ∀ c2,
              alook x { group_remove_connection gid cid ctx with
                conns := aerase cid (group_remove_connection gid cid ctx).conns }.conns
                = some c2 → c2.group = some gid := by
            intro x hx c2 hc2
            have hxne : x ≠ cid := fun he => (List.nodup_cons.mp hnd).1 (he ▸ hx)
            have hc3 : alook x (aerase cid (aupd cid (fun c => { c with group := none })
                ctx.conns)) = some c2 := hc2
            rw [alook_aerase_ne _ _ _ hxne, alook_aupd_ne _ _ _ _ hxne] at hc3
            exact hpre x (List.mem_cons_of_mem _ hx) c2 hc3
          rcases hres : purge_members gid dl now rest
            { group_remove_connection gid cid ctx with
              conns := aerase cid (group_remove_connection gid cid ctx).conns }
            with ⟨ctx2, n⟩
          have hi := ih { group_remove_connection gid cid ctx with
              conns := aerase cid (group_remove_connection gid cid ctx).conns }
            hwfE hnd.of_cons hpre2
          rw [hres] at hi
          exact hi
      · -- touched: left alone
        exact ih ctx hwf hnd.of_cons (fun x hx => hpre x (List.mem_cons_of_mem _ hx))

theorem wf_purge_closed_from_group (gid : Nat) (dl : Bool) (now : Int)
    (ctx : StatContext) (hwf : WF ctx) :
    WF (purge_closed_from_group gid dl now ctx).1 := by
  unfold purge_closed_from_group
  rcases hg : alook gid ctx.groups with _ | g
  · exact wf_purge_members gid dl now [] ctx hwf List.nodup_nil
      (fun x hx => absurd hx (List.not_mem_nil x))
  · have h5 := hwf.2.2.2.2.1
    have h7 := hwf.2.2.2.2.2.2.1
    have hgmem : (gid, g) ∈ ctx.groups := alook_eq_some_mem _ _ _ hg
    refine wf_purge_members gid dl now g.members ctx hwf (h5 (gid, g) hgmem) ?_
    intro x hx c hc
    obtain ⟨c2, hc2, hg2⟩ := memberOk_spec _ _ _ (h7 (gid, g) hgmem x hx)
    rw [hc] at hc2
    cases Option.some.inj hc2
    exact hg2

theorem purge_closed_from_group_frame (gid : Nat) (dl : Bool) (now : Int)
    (ctx : StatContext) :
    (purge_closed_from_group gid dl now ctx).1.out_groups = ctx.out_groups ∧
    (purge_closed_from_group gid dl now ctx).1.listen_groups = ctx.listen_groups ∧
    (purge_closed_from_group gid dl now ctx).1.filters = ctx.filters ∧
    (purge_closed_from_group gid dl now ctx).1.newq = ctx.newq := by
  unfold purge_closed_from_group
  exact purge_members_frame gid dl now _ ctx

/-- Removing an untouched listening parent (deallocating the record
and clearing the group's parent pointer in one step) preserves the
invariant. -/
theorem wf_drop_parent (ctx : StatContext) (hwf : WF ctx) (gid pcid : Nat)
    (g : ConnGroup) (hg : alook gid ctx.groups = some g)
    (hgp : g.parent = some pcid) :
    WF (updGroup gid (fun g => { g with parent := none })
      { ctx with conns := aerase pcid ctx.conns }) := by
  have hgmem : (gid, g) ∈ ctx.groups := alook_eq_some_mem _ _ _ hg
  obtain ⟨pc, hpc, hpcg, hpcq, hpu⟩ :=
    parentOk_spec _ _ _ _ _ _ (hwf.2.2.2.2.2.2.2.2.2.1 (gid, g) hgmem) hgp
  have hnm : ∀ p ∈ ctx.groups, pcid ∉ p.2.members :=
    wf_not_member_of_group_none ctx hwf pcid pc hpc hpcg
  obtain ⟨h1, h2, h3, h4, h5, h6, h7, h8, h9, h10, h11, h12, h13⟩ := hwf
  refine ⟨?_, ?_, ?_, ?_, ?_, h6, ?_, ?_, ?_, ?_, h11, ?_, ?_⟩
  · show ((aerase pcid ctx.conns).map Prod.fst).Nodup
    exact h1.sublist (aerase_map_fst_sublist pcid ctx.conns)
  · show ((aupd gid (fun g => { g with parent := none }) ctx.groups).map Prod.fst).Nodup
    rw [aupd_map_fst]
    exact h2
  · intro p hp
    exact h3 p (mem_aerase _ _ _ hp).1
  · intro p hp
    have hp2 : p ∈ aupd gid (fun g => { g with parent := none }) ctx.groups := hp
    obtain ⟨q, hq, hfst, _⟩ := mem_aupd _ _ _ _ hp2
    exact hfst ▸ h4 q hq
  · intro p hp
    have hp2 : p ∈ aupd gid (fun g => { g with parent := none }) ctx.groups := hp
    obtain ⟨q, hq, _, hsnd⟩ := mem_aupd _ _ _ _ hp2
    rcases hsnd with ⟨_, h⟩ | ⟨_, h⟩ <;> rw [h] <;> exact h5 q hq
  · intro p hp x hx
    have hp2 : p ∈ aupd gid (fun g => { g with parent := none }) ctx.groups := hp
    obtain ⟨q, hq, hfst, hsnd⟩ := mem_aupd _ _ _ _ hp2
    have hxq : x ∈ q.2.members := by
      rcases hsnd with ⟨_, h⟩ | ⟨_, h⟩ <;> rw [h] at hx <;> exact hx
    obtain ⟨c2, hc2, hg2⟩ := memberOk_spec _ _ _ (h7 q hq x hxq)
    have hxne : x ≠ pcid := by
      intro he
      subst he
      exact hnm q hq hxq
    refine memberOk_intro _ _ _ c2 ?_ (hfst ▸ hg2)
    show alook x (aerase pcid ctx.conns) = some c2
    rw [alook_aerase_ne _ _ _ hxne]
    exact hc2
  · intro p hp
    have hpmem : p ∈ ctx.conns := (mem_aerase _ _ _ hp).1
    rcases hcg : p.2.group with _ | gid2
    · exact connOwnerOk_none _ _ _ hcg
    · obtain ⟨g2, hg2, hm2⟩ := connOwnerOk_spec _ _ _ _ (h8 p hpmem) hcg
      by_cases hge : gid2 = gid
      · subst hge
        refine connOwnerOk_intro _ _ _ gid2 { g2 with parent := none } hcg ?_ hm2
        show alook gid2 (aupd gid2 (fun g => { g with parent := none }) ctx.groups)
          = some { g2 with parent := none }
        rw [alook_aupd_self, hg2]
        rfl
      · refine connOwnerOk_intro _ _ _ gid2 g2 hcg ?_ hm2
        show alook gid2 (aupd gid (fun g => { g with parent := none }) ctx.groups)
          = some g2
        rw [alook_aupd_ne _ _ _ _ hge]
        exact hg2
  · intro x hx
    obtain ⟨c2, hc2, hg2⟩ := newqOk_spec _ _ (h9 x hx)
    have hxne : x ≠ pcid := fun he => hpcq (he ▸ hx)
    refine newqOk_intro _ _ c2 ?_ hg2
    show alook x (aerase pcid ctx.conns) = some c2
    rw [alook_aerase_ne _ _ _ hxne]
    exact hc2
  · intro p hp
    have hp2 : p ∈ aupd gid (fun g => { g with parent := none }) ctx.groups := hp
    obtain ⟨q, hq, hfst, hsnd⟩ := mem_aupd _ _ _ _ hp2
    rcases hsnd with ⟨hqne, h⟩ | ⟨hqkey, h⟩
    · -- untouched group: its key differs from gid
      rcases hpp : p.2.parent with _ | pcid2
      · exact parentOk_none _ _ _ _ _ hpp
      · have hqpp : q.2.parent = some pcid2 := by
          rw [← h]
          exact hpp
        obtain ⟨pc2, hpc2, hpc2g, hpc2q, hpu2⟩ :=
          parentOk_spec _ _ _ _ _ _ (h10 q hq) hqpp
        have hne2 : pcid2 ≠ pcid := by
          intro he
          subst he
          rcases hpu q hq with he2 | he2
          · exact hqne he2
          · exact he2 hqpp
        refine parentOk_intro _ _ _ _ _ pcid2 pc2 hpp ?_ hpc2g hpc2q ?_
        · show alook pcid2 (aerase pcid ctx.conns) = some pc2
          rw [alook_aerase_ne _ _ _ hne2]
          exact hpc2
        · intro r hr
          have hr2 : r ∈ aupd gid (fun g => { g with parent := none }) ctx.groups := hr
          obtain ⟨r0, hr0, hrfst, hrsnd⟩ := mem_aupd _ _ _ _ hr2
          rcases hpu2 r0 hr0 with he2 | he2
          · exact Or.inl (by rw [hrfst, hfst]; exact he2)
          · rcases hrsnd with ⟨_, h2⟩ | ⟨_, h2⟩
            · exact Or.inr (by rw [h2]; exact he2)
            · refine Or.inr ?_
              rw [h2]
              intro hcon
              exact Option.noConfusion hcon
    · -- the group whose parent is dropped
      rw [h]
      exact parentOk_none _ _ _ _ _ rfl
  · intro gid2 hgid2
    have hs := h12 gid2 hgid2
    show (alook gid2 (aupd gid (fun g => { g with parent := none }) ctx.groups)).isSome
      = true
    rw [alook_aupd]
    by_cases hge : gid2 = gid
    · rw [if_pos hge]
      rcases hv : alook gid2 ctx.groups with _ | g2
      · rw [hv] at hs
        simp at hs
      · rfl
    · rw [if_neg hge]
      exact hs
  · intro gid2 hgid2
    have hold := h13 gid2 hgid2
    unfold group_get_parent at hold
    show (match alook gid2 (aupd gid (fun g => { g with parent := none }) ctx.groups)
      with | some g => g.parent | none => none) = none
    rw [alook_aupd]
    by_cases hge : gid2 = gid
    · rw [if_pos hge]
      rcases hv : alook gid2 ctx.groups with _ | g2
      · rfl
      · rfl
    · rw [if_neg hge]
      exact hold

theorem wf_out_nodup (ctx : StatContext) (hwf : WF ctx) : ctx.out_groups.Nodup := by
  have h11 : ((ctx.listen_groups ++ ctx.out_groups) ++ ctx.filters.map Prod.snd).Nodup :=
    hwf.2.2.2.2.2.2.2.2.2.2.1
  exact (h11.of_append_left).of_append_right

theorem wf_listen_nodup (ctx : StatContext) (hwf : WF ctx) :
    ctx.listen_groups.Nodup := by
  have h11 : ((ctx.listen_groups ++ ctx.out_groups) ++ ctx.filters.map Prod.snd).Nodup :=
    hwf.2.2.2.2.2.2.2.2.2.2.1
  exact (h11.of_append_left).of_append_left

theorem wf_purge_out_list (dl : Bool) (now : Int) (gids : List Nat)
    (ctx : StatContext) (cnt : Int) (hwf : WF ctx) (hnd : gids.Nodup)
    (hsub : ∀ x ∈ gids, x ∈ ctx.out_groups) :
    WF (purge_out_list dl now gids ctx cnt).1 := by
  induction gids generalizing ctx cnt with
  | nil => exact hwf
  | cons gid rest ih =>
    unfold purge_out_list
    dsimp only []
    split
    · exact hwf
    · rcases hres : purge_closed_from_group gid dl now ctx with ⟨ctx1, k⟩
      have hwf1 : WF ctx1 := by
        have hv := wf_purge_closed_from_group gid dl now ctx hwf
        rw [hres] at hv
        exact hv
      have hfr := purge_closed_from_group_frame gid dl now ctx
      rw [hres] at hfr
      have hout1 : ctx1.out_groups = ctx.out_groups := hfr.1
      have hmem1 : gid ∈ ctx1.out_groups := by
        rw [hout1]
        exact hsub gid (List.mem_cons_self _ _)
      have hwf2 := wf_delete_out_if_empty gid ctx1 hwf1 hmem1
      refine ih (delete_out_if_empty gid ctx1) (cnt - k) hwf2 hnd.of_cons ?_
      intro x hx
      have hxne : x ≠ gid := fun he => (List.nodup_cons.mp hnd).1 (he ▸ hx)
      have hxo : x ∈ ctx1.out_groups := by
        rw [hout1]
        exact hsub x (List.mem_cons_of_mem _ hx)
      have hnd1 : ctx1.out_groups.Nodup := wf_out_nodup ctx1 hwf1
      unfold delete_out_if_empty
      split
      · show x ∈ ctx1.out_groups.erase gid
        exact (hnd1.mem_erase_iff).mpr ⟨hxne, hxo⟩
      · exact hxo

theorem wf_purge_listen_step (dl : Bool) (now : Int) (gid : Nat) (rest : List Nat)
    (ctxP : StatContext) (cnt2 : Int) (L : List Nat)
    (hwfP : WF ctxP) (hlisP : ctxP.listen_groups = L)
    (hnd : (gid :: rest).Nodup)
    (hsub : ∀ x ∈ gid :: rest, x ∈ L)
    (ih : ∀ (c2 : StatContext) (cnt : Int), WF c2 → rest.Nodup →
      (∀ x ∈ rest, x ∈ c2.listen_groups) → WF (purge_listen_list dl now rest c2 cnt).1) :
    WF (purge_listen_list dl now rest
      (delete_listen_if_empty gid (purge_closed_from_group gid dl now ctxP).1)
      (cnt2 - (purge_closed_from_group gid dl now ctxP).2)).1 := by
  rcases hres : purge_closed_from_group gid dl now ctxP with ⟨ctx2, k⟩
  have hwf2 : WF ctx2 := by
    have hv := wf_purge_closed_from_group gid dl now ctxP hwfP
    rw [hres] at hv
    exact hv
  have hfr := purge_closed_from_group_frame gid dl now ctxP
  rw [hres] at hfr
  have hlis2 : ctx2.listen_groups = L := by
    rw [hfr.2.1, hlisP]
  have hmem2 : gid ∈ ctx2.listen_groups := by
    rw [hlis2]
    exact hsub gid (List.mem_cons_self _ _)
  have hwf3 := wf_delete_listen_if_empty gid ctx2 hwf2 hmem2
  refine ih (delete_listen_if_empty gid ctx2) (cnt2 - k) hwf3 hnd.of_cons ?_
  intro x hx
  have hxne : x ≠ gid := fun he => (List.nodup_cons.mp hnd).1 (he ▸ hx)
  have hxl : x ∈ ctx2.listen_groups := by
    rw [hlis2]
    exact hsub x (List.mem_cons_of_mem _ hx)
  have hnd2 : ctx2.listen_groups.Nodup := wf_listen_nodup ctx2 hwf2
  unfold delete_listen_if_empty
  split
  · show x ∈ ctx2.listen_groups.erase gid
    exact (hnd2.mem_erase_iff).mpr ⟨hxne, hxl⟩
  · exact hxl

theorem wf_purge_listen_list (dl : Bool) (now : Int) (gids : List Nat)
    (ctx : StatContext) (cnt : Int) (hwf : WF ctx) (hnd : gids.Nodup)
    (hsub : ∀ x ∈ gids, x ∈ ctx.listen_groups) :
    WF (purge_listen_list dl now gids ctx cnt).1 := by
  induction gids generalizing ctx cnt with
  | nil => exact hwf
  | cons gid rest ih =>
    unfold purge_listen_list
    dsimp only []
    split
    · exact hwf
    · split
      · -- the group has a live parent record
        rename_i pcid hgp
        split
        · rename_i pc hpc
          split
          · -- untouched parent: removed on the spot
            have hg : ∃ g, alook gid ctx.groups = some g ∧ g.parent = some pcid := by
              unfold group_get_parent at hgp
              rcases hgg : alook gid ctx.groups with _ | g
              · rw [hgg] at hgp
                exact Option.noConfusion hgp
              · rw [hgg] at hgp
                exact ⟨g, rfl, hgp⟩
            obtain ⟨g, hgg, hgpar⟩ := hg
            exact wf_purge_listen_step dl now gid rest _ _ ctx.listen_groups
              (wf_drop_parent ctx hwf gid pcid g hgg hgpar) rfl hnd hsub ih
          · exact wf_purge_listen_step dl now gid rest ctx cnt ctx.listen_groups
              hwf rfl hnd hsub ih
        · exact wf_purge_listen_step dl now gid rest ctx cnt ctx.listen_groups
            hwf rfl hnd hsub ih
      · exact wf_purge_listen_step dl now gid rest ctx cnt ctx.listen_groups
          hwf rfl hnd hsub ih

theorem wf_foldl_purge (now : Int) (l : List (Filter × Nat)) (acc : StatContext × Int)
    (hwf : WF acc.1) :
    WF (l.foldl (fun acc p =>
      ((purge_closed_from_group p.2 acc.1.linger now acc.1).1,
        acc.2 - ((purge_closed_from_group p.2 acc.1.linger now acc.1).2 : Int))) acc).1 := by
  induction l generalizing acc with
  | nil => exact hwf
  | cons p rest ih =>
    rw [List.foldl_cons]
    refine ih _ ?_
    exact wf_purge_closed_from_group p.2 acc.1.linger now acc.1 hwf

theorem wf_purge_closed_connections (ctx : StatContext) (closed_cnt now : Int)
    (hwf : WF ctx) : WF (purge_closed_connections ctx closed_cnt now).1 := by
  unfold purge_closed_connections
  dsimp only []
  exact wf_purge_listen_list _ now _ _ _
    (wf_purge_out_list _ now _ _ _
      (wf_foldl_purge now ctx.filters (ctx, closed_cnt) hwf)
      (wf_out_nodup _ (wf_foldl_purge now ctx.filters (ctx, closed_cnt) hwf))
      (fun x hx => hx))
    (wf_listen_nodup _
      (wf_purge_out_list _ now _ _ _
        (wf_foldl_purge now ctx.filters (ctx, closed_cnt) hwf)
        (wf_out_nodup _ (wf_foldl_purge now ctx.filters (ctx, closed_cnt) hwf))
        (fun x hx => hx)))
    (fun x hx => hx)

/-! ## The invariant across rounds -/

theorem wf_runCmd (ctx : StatContext) (hwf : WF ctx) (cmd : Cmd) :
    WF (runCmd ctx cmd) := by
  cases cmd with
  | ins laddr raddr st ifn now => exact wf_insert laddr raddr st ifn now ctx hwf
  | rot now => exact wf_rotate_new_queue now ctx hwf
  | prg cnt now => exact wf_purge_closed_connections ctx cnt now hwf

theorem wf_run (ctx : StatContext) (hwf : WF ctx) (cmds : List Cmd) :
    WF (run ctx cmds) := by
  induction cmds generalizing ctx with
  | nil => exact hwf
  | cons cmd rest ih => exact ih (runCmd ctx cmd) (wf_runCmd ctx hwf cmd)

theorem alook_filter_groups (l : List (Filter × Nat)) (gid : Nat)
    (h : gid ∈ l.map Prod.snd) :
    (alook gid (l.map (fun p => (p.2, (⟨none, [], none⟩ : ConnGroup))))).isSome
      = true := by
  induction l with
  | nil => exact absurd h (List.not_mem_nil gid)
  | cons p rest ih =>
    rw [List.map_cons] at h
    rw [List.map_cons]
    rcases List.mem_cons.mp h with he | hm
    · subst he
      rw [alook_cons_self]
      rfl
    · by_cases he2 : gid = p.2
      · subst he2
        rw [alook_cons_self]
        rfl
      · rw [alook_cons_ne _ _ _ _ (Ne.symm he2)]
        exact ih hm

/-- The starting context (empty tables, parsed filter chain) satisfies
the invariant when the filters are attached to distinct fresh group
identifiers. -/
theorem wf_initCtx (filters : List (Filter × Nat)) (policy : Nat) (linger : Bool)
    (ng : Nat) (hnd : (filters.map Prod.snd).Nodup)
    (hlt : ∀ gid ∈ filters.map Prod.snd, gid < ng) :
    WF (initCtx filters policy linger ng) := by
  refine ⟨?_, ?_, ?_, ?_, ?_, ?_, ?_, ?_, ?_, ?_, ?_, ?_, ?_⟩
  · exact List.nodup_nil
  · show ((filters.map (fun p => (p.2, (⟨none, [], none⟩ : ConnGroup)))).map
      Prod.fst).Nodup
    rw [List.map_map]
    exact hnd
  · intro p hp
    exact absurd hp (List.not_mem_nil p)
  · intro p hp
    obtain ⟨q, hq, hqe⟩ := List.mem_map.mp hp
    have hmem : q.2 ∈ filters.map Prod.snd := List.mem_map_of_mem Prod.snd hq
    have hql := hlt q.2 hmem
    show p.1 < ng
    rw [← hqe]
    exact hql
  · intro p hp
    obtain ⟨q, hq, hqe⟩ := List.mem_map.mp hp
    show p.2.members.Nodup
    rw [← hqe]
    exact List.nodup_nil
  · exact List.nodup_nil
  · intro p hp x hx
    obtain ⟨q, hq, hqe⟩ := List.mem_map.mp hp
    rw [← hqe] at hx
    exact absurd hx (List.not_mem_nil x)
  · intro p hp
    exact absurd hp (List.not_mem_nil p)
  · intro x hx
    exact absurd hx (List.not_mem_nil x)
  · intro p hp
    obtain ⟨q, hq, hqe⟩ := List.mem_map.mp hp
    refine parentOk_none _ _ _ _ _ ?_
    rw [← hqe]
  · show (([] : List Nat) ++ [] ++ filters.map Prod.snd).Nodup
    simp only [List.nil_append]
    exact hnd
  · intro gid hgid
    have hgid2 : gid ∈ filters.map Prod.snd := by
      have hm : gid ∈ ([] : List Nat) ++ [] ++ filters.map Prod.snd := hgid
      simpa using hm
    exact alook_filter_groups filters gid hgid2
  · intro gid hgid
    exact absurd hgid (List.not_mem_nil gid)

/-! ## Hash-table helper lemmas -/

theorem ss_match_self (s : Sockaddr) : ss_match s s = MATCH_BOTH := by
  rcases s with ⟨a, p⟩ | ⟨a, p⟩ <;> simp [ss_match, addrBytesEq, ss_get_port]

theorem key_cmp_self (c : TcpConn) : key_cmp c.laddr c.raddr c = true := by
  simp [key_cmp, ss_match_self]

theorem list_getD_set_self {α : Type} (l : List α) (i : Nat) (v d : α)
    (h : i < l.length) : (l.set i v).getD i d = v := by
  rw [List.getD_eq_getElem?_getD, List.getElem?_set_eq_of_lt v h]
  rfl

theorem list_set_getD_self {α : Type} (l : List α) (i : Nat) (d : α)
    (h : i < l.length) : l.set i (l.getD i d) = l := by
  rw [List.getD_eq_getElem?_getD, List.getElem?_eq_getElem h]
  show l.set i l[i] = l
  apply List.ext_getElem?
  intro j
  by_cases hij : i = j
  · subst hij
    rw [List.getElem?_set_eq_of_lt _ h, List.getElem?_eq_getElem h]
  · rw [List.getElem?_set_ne hij]

theorem resolve_bucket_sa_congr (t t' : Chashtable)
    (h : t.nrof_buckets = t'.nrof_buckets) (laddr raddr : Sockaddr) :
    resolve_bucket_sa t laddr raddr = resolve_bucket_sa t' laddr raddr := by
  simp [resolve_bucket_sa, chash_fn4, chash_fn6, h]

theorem resolve_bucket_eq_sa (tab : Chashtable) (c : TcpConn)
    (hfam : c.family = c.laddr.family) :
    resolve_bucket tab c = resolve_bucket_sa tab c.laddr c.raddr := by
  simp [resolve_bucket, resolve_bucket_sa, hfam]

theorem resolve_bucket_sa_lt (tab : Chashtable) (laddr raddr : Sockaddr)
    (h : 0 < tab.nrof_buckets) :
    resolve_bucket_sa tab laddr raddr < tab.nrof_buckets := by
  have h4 : ∀ a b : Sockaddr, chash_fn4 tab a b < tab.nrof_buckets := by
    intro a b
    have := Nat.and_le_right (n := ntohl (sin_addr b) + ntohs (ss_get_port a) +
      ntohs (ss_get_port b)) (m := tab.nrof_buckets - 1)
    simp only [chash_fn4]
    omega
  have h6 : ∀ a b : Sockaddr, chash_fn6 tab a b < tab.nrof_buckets := by
    intro a b
    have := Nat.and_le_right (n := (ntohl (sin6_addr_byte b 0) ^^^ htonl (sin6_addr_byte b 3)) +
      ntohs (ss_get_port b) + ntohs (ss_get_port a)) (m := tab.nrof_buckets - 1)
    simp only [chash_fn6]
    omega
  unfold resolve_bucket_sa
  split
  · exact h4 _ _
  · exact h6 _ _

theorem bucket_remove_no_match (laddr raddr : Sockaddr) (b : List TcpConn)
    (h : ∀ c ∈ b, ¬ key_cmp laddr raddr c) :
    bucket_remove laddr raddr b = (none, b) := by
  induction b with
  | nil => rfl
  | cons c rest ih =>
    have hc : ¬ key_cmp laddr raddr c := h c (List.mem_cons_self ..)
    simp only [bucket_remove, hc, if_neg, Bool.false_eq_true, not_false_eq_true,
      ih fun x hx => h x (List.mem_cons_of_mem _ hx)]

theorem bucket_remove_unique (laddr raddr : Sockaddr) (b : List TcpConn)
    (h : b.countP (key_cmp laddr raddr) ≤ 1) :
    (bucket_remove laddr raddr b).2.find? (key_cmp laddr raddr) = none := by
  induction b with
  | nil => rfl
  | cons c rest ih =>
    by_cases hc : key_cmp laddr raddr c
    · simp only [bucket_remove, hc, if_pos]
      rw [List.find?_eq_none]
      intro x hx
      rw [List.countP_cons_of_pos _ _ hc] at h
      have : rest.countP (key_cmp laddr raddr) = 0 := by omega
      rw [List.countP_eq_zero] at this
      exact this x hx
    · rw [List.countP_cons_of_neg _ _ hc] at h
      simp only [bucket_remove, hc, if_neg, Bool.false_eq_true, not_false_eq_true]
      rcases hb : bucket_remove laddr raddr rest with ⟨r, rest'⟩
      have := ih h
      rw [hb] at this
      simp only at this ⊢
      rw [List.find?_cons_of_neg _ hc]
      exact this

/-! ## C2: put / get / remove round trips -/

/-- C2: in any well-sized table (of either or mixed address families,
with arbitrary colliding content), `chash_get` directly after
`chash_put` of a record returns exactly that record (the bucket scan
disambiguates collisions by the exact 4-tuple comparison `key_cmp`),
and after `chash_remove` of a key that the resolved bucket holds at
most once — the situation the tracker maintains — a subsequent
`chash_get` of that key returns `none`. -/
theorem c2_chash_put_get_remove (tab : Chashtable) (c : TcpConn)
    (laddr raddr : Sockaddr)
    (hlen : tab.buckets.length = tab.nrof_buckets)
    (hpos : 0 < tab.nrof_buckets)
    (hfam : c.family = c.laddr.family)
    (huniq : (tab.buckets.getD (resolve_bucket_sa tab laddr raddr) []).countP
      (key_cmp laddr raddr) ≤ 1) :
    chash_get (chash_put tab c) c.laddr c.raddr = some c ∧
    chash_get (chash_remove tab laddr raddr).2 laddr raddr = none := by
  constructor
  · have hidx : resolve_bucket tab c = resolve_bucket_sa tab c.laddr c.raddr :=
      resolve_bucket_eq_sa tab c hfam
    have hlt : resolve_bucket_sa tab c.laddr c.raddr < tab.buckets.length := by
      rw [hlen]; exact resolve_bucket_sa_lt tab _ _ hpos
    show (List.getD _ _ []).find? _ = some c
    have hsa : resolve_bucket_sa (chash_put tab c) c.laddr c.raddr =
        resolve_bucket_sa tab c.laddr c.raddr := rfl
    rw [hsa]
    show ((tab.buckets.set (resolve_bucket tab c) _).getD
      (resolve_bucket_sa tab c.laddr c.raddr) []).find? _ = some c
    rw [hidx, list_getD_set_self _ _ _ _ hlt, List.find?_cons_of_pos _ (key_cmp_self c)]
  · rcases hb : bucket_remove laddr raddr (tab.buckets.getD
      (resolve_bucket_sa tab laddr raddr) []) with ⟨r, bucket'⟩
    have hlt : resolve_bucket_sa tab laddr raddr < tab.buckets.length := by
      rw [hlen]; exact resolve_bucket_sa_lt tab _ _ hpos
    have hfind : bucket'.find? (key_cmp laddr raddr) = none := by
      have := bucket_remove_unique laddr raddr _ huniq
      rw [hb] at this
      exact this
    have hres : List.find? (key_cmp laddr raddr)
        ((tab.buckets.set (resolve_bucket_sa tab laddr raddr) bucket').getD
          (resolve_bucket_sa tab laddr raddr) []) = none := by
      rw [list_getD_set_self _ _ _ _ hlt]
      exact hfind
    rcases r with _ | c' <;>
      simp only [chash_remove, hb, chash_get] <;>
      exact hres

/-- C2 witness: the theorem applied in a mixed v4/v6 table. -/
theorem c2_chash_put_get_remove_witness :
    (exMixedTable.buckets.length = exMixedTable.nrof_buckets ∧
     0 < exMixedTable.nrof_buckets ∧
     exConnTimeWait80.family = exConnTimeWait80.laddr.family ∧
     (exMixedTable.buckets.getD
        (resolve_bucket_sa exMixedTable exConnV6.laddr exConnV6.raddr) []).countP
        (key_cmp exConnV6.laddr exConnV6.raddr) ≤ 1) ∧
    (chash_get (chash_put exMixedTable exConnTimeWait80)
        exConnTimeWait80.laddr exConnTimeWait80.raddr = some exConnTimeWait80 ∧
     chash_get (chash_remove exMixedTable exConnV6.laddr exConnV6.raddr).2
        exConnV6.laddr exConnV6.raddr = none) :=
  ⟨⟨by decide, by decide, by decide, by decide⟩,
   c2_chash_put_get_remove exMixedTable exConnTimeWait80 exConnV6.laddr exConnV6.raddr
     (by decide) (by decide) (by decide) (by decide)⟩

/-! ## C9: removing an absent key -/

/-- C9: removing a key that no record reachable by bucket traversal
carries returns the not-found indicator and leaves the table exactly
as it was (same size, same buckets). -/
theorem c9_remove_absent (tab : Chashtable) (laddr raddr : Sockaddr)
    (hlen : tab.buckets.length = tab.nrof_buckets)
    (hpos : 0 < tab.nrof_buckets)
    (habs : ∀ b ∈ tab.buckets, ∀ c ∈ b, ¬ key_cmp laddr raddr c) :
    chash_remove tab laddr raddr = (none, tab) := by
  have hlt : resolve_bucket_sa tab laddr raddr < tab.buckets.length := by
    rw [hlen]; exact resolve_bucket_sa_lt tab _ _ hpos
  have hbmem : ∀ c ∈ tab.buckets.getD (resolve_bucket_sa tab laddr raddr) [],
      ¬ key_cmp laddr raddr c := by
    intro c hc
    refine habs _ ?_ c hc
    have : tab.buckets.getD (resolve_bucket_sa tab laddr raddr) [] =
        tab.buckets[resolve_bucket_sa tab laddr raddr] := by
      simp [List.getD, List.getElem?_eq_getElem hlt]
    rw [this]
    exact List.getElem_mem ..
  have hrm := bucket_remove_no_match laddr raddr _ hbmem
  simp only [chash_remove, hrm]
  have h2 := list_set_getD_self tab.buckets (resolve_bucket_sa tab laddr raddr) [] hlt
  rw [h2]

/-- C9 witness: the theorem applied to the mixed table and a key it
does not hold. -/
theorem c9_remove_absent_witness :
    (exMixedTable.buckets.length = exMixedTable.nrof_buckets ∧
     0 < exMixedTable.nrof_buckets ∧
     ∀ b ∈ exMixedTable.buckets, ∀ c ∈ b,
       ¬ key_cmp (Sockaddr.v4 1 2) (Sockaddr.v4 3 4) c) ∧
    chash_remove exMixedTable (Sockaddr.v4 1 2) (Sockaddr.v4 3 4) = (none, exMixedTable) :=
  ⟨⟨by decide, by decide, by decide⟩,
   c9_remove_absent exMixedTable (Sockaddr.v4 1 2) (Sockaddr.v4 3 4)
     (by decide) (by decide) (by decide)⟩

/-! ## C10: round-flag clearing -/

/-- C10: `metadata_clear_flags` (the per-record operation applied by
`clear_metadata_flags`/`group_clear_metadata_flags` at round close)
clears the NEW, STATE_CHANGED and UPDATED/TOUCHED bits, leaves the
RESOLVED flag and every other high-nibble flag bit unchanged, and is
idempotent. -/
theorem c10_clear_flags_frame (m : ConnMetadata) :
    (metadata_clear_flags m).flags &&& METADATA_NEW = 0 ∧
    (metadata_clear_flags m).flags &&& METADATA_STATE_CHANGED = 0 ∧
    (metadata_clear_flags m).flags &&& METADATA_UPDATED = 0 ∧
    (metadata_clear_flags m).flags &&& METADATA_TOUCHED_MASK = 0 ∧
    (metadata_clear_flags m).flags &&& METADATA_RESOLVED = m.flags &&& METADATA_RESOLVED ∧
    (metadata_clear_flags m).flags &&& METADATA_IGNORED = m.flags &&& METADATA_IGNORED ∧
    (metadata_clear_flags m).flags &&& METADATA_WARN = m.flags &&& METADATA_WARN ∧
    (metadata_clear_flags m).flags &&& 0x80 = m.flags &&& 0x80 ∧
    metadata_clear_flags (metadata_clear_flags m) = metadata_clear_flags m := by
  refine ⟨?_, ?_, ?_, ?_, ?_, ?_, ?_, ?_, ?_⟩ <;>
    simp only [metadata_clear_flags, METADATA_NEW, METADATA_STATE_CHANGED,
      METADATA_UPDATED, METADATA_TOUCHED_MASK, METADATA_RESOLVED,
      METADATA_IGNORED, METADATA_WARN, Nat.and_assoc]
  · rw [show ((0xF0 : Nat) &&& 0x02) = 0 from by decide, Nat.and_zero]
  · rw [show ((0xF0 : Nat) &&& 0x01) = 0 from by decide, Nat.and_zero]
  · rw [show ((0xF0 : Nat) &&& 0x04) = 0 from by decide, Nat.and_zero]
  · rw [show ((0xF0 : Nat) &&& 0x07) = 0 from by decide, Nat.and_zero]
  · rw [show ((0xF0 : Nat) &&& 0x10) = 0x10 from by decide]
  · rw [show ((0xF0 : Nat) &&& 0x20) = 0x20 from by decide]
  · rw [show ((0xF0 : Nat) &&& 0x40) = 0x40 from by decide]
  · rw [show ((0xF0 : Nat) &&& 0x80) = 0x80 from by decide]
  · rw [show ((0xF0 : Nat) &&& 0xF0) = 0xF0 from by decide]

/-! ## C3: AND-combination of selector categories -/

/-- C3: the STATE selector category is not AND-combined as documented:
on this concrete input the filter's policy includes STATE, the
record's state differs from the filter's state selector, yet
`filter_match` reports a match (the LOCAL/PORT category matched and
the STATE branch of the source falls through without returning 0). -/
theorem c3_state_selector_not_anded :
    filter_match exFiltLocal80Est exConnTimeWait80 = true ∧
    exFiltLocal80Est.policy &&& POLICY_STATE ≠ 0 ∧
    exFiltLocal80Est.state ≠ exConnTimeWait80.state := by decide

/-! ## C4: filter-chain traversal policies -/

/-- C4: under FIRST_MATCH `filtlist_match` returns the first matching
filter in list order and performs no further evaluations past it;
under LAST_MATCH it evaluates every filter on the list and returns
the last one that matched; `filtlist_action_for` returns the matched
filter's action and FILTERACT_NONE when nothing matches. -/
theorem c4_filtlist_policies (pol : FiltlistPolicy) (l : List Filter) (c : TcpConn) :
    filtlist_match ⟨.FIRST_MATCH, l⟩ c = l.find? (fun f => filter_match f c) ∧
    (filtlist_match_count .FIRST_MATCH c l).2 =
      (match l.find? (fun f => filter_match f c) with
        | some _ => (l.takeWhile (fun f => ¬ filter_match f c)).length + 1
        | none => l.length) ∧
    filtlist_match ⟨.LAST_MATCH, l⟩ c = (l.filter (fun f => filter_match f c)).getLast? ∧
    (filtlist_match_count .LAST_MATCH c l).2 = l.length ∧
    filtlist_action_for ⟨pol, l⟩ c =
      ((filtlist_match ⟨pol, l⟩ c).map Filter.action).getD .FILTERACT_NONE := by
  refine ⟨?_, ?_, ?_, ?_, ?_⟩
  · induction l with
    | nil => rfl
    | cons f rest ih =>
      simp only [filtlist_match, filtlist_match_count, List.find?] at *
      by_cases h : filter_match f c <;> simp [h, ih]
  · induction l with
    | nil => rfl
    | cons f rest ih =>
      simp only [filtlist_match_count, List.find?, List.takeWhile] at *
      by_cases h : filter_match f c
      · simp [h]
      · simp only [h] at *
        rcases hf : rest.find? (fun f => filter_match f c) with _ | f'
        · simp [hf] at ih
          simp [hf, ih]
        · simp [hf] at ih
          simp [hf, ih]
  · induction l with
    | nil => rfl
    | cons f rest ih =>
      simp only [filtlist_match, filtlist_match_count, List.filter] at *
      by_cases h : filter_match f c
      · simp only [h, if_true, reduceCtorEq, reduceIte]
        rcases hr : (filtlist_match_count FiltlistPolicy.LAST_MATCH c rest) with ⟨r, n⟩
        simp only [hr] at ih
        rcases hf : rest.filter (fun f => filter_match f c) with _ | ⟨f', rest'⟩
        · simp only [hf] at ih
          simp only [List.getLast?] at ih ⊢
          simp [ih]
        · simp only [hf] at ih
          simp only [List.getLast?_cons_cons, List.getLast?] at ih ⊢
          simp_all
      · simp [h] at *
        rcases hr : (filtlist_match_count FiltlistPolicy.LAST_MATCH c rest) with ⟨r, n⟩
        simp only [hr] at ih
        simp [ih]
  · induction l with
    | nil => rfl
    | cons f rest ih =>
      simp only [filtlist_match_count] at *
      by_cases h : filter_match f c <;> simp [h, ih]
  · simp only [filtlist_action_for]
    rcases filtlist_match ⟨pol, l⟩ c with _ | f <;> simp

/-! ## C5: the time-window (cloud) selector -/

/-- C5 counterexample: the claim asserts the cloud category matches
exactly when the absolute difference between the record's creation
time and the filter's stamp is below 2 seconds; on this input the
difference is -100 (well outside a 2-second window) yet the filter
matches, because the source's test `added - cloud_stamp <
CLOUD_TIME_LIMIT` is one-sided signed arithmetic. -/
theorem c5_cloud_window_counterexample :
    ¬ (filter_match exFiltCloud100 exConnTimeWait80 = true ↔
        |exConnTimeWait80.metadata.added - exFiltCloud100.cloud_stamp| < CLOUD_TIME_LIMIT) := by
  decide

/-- C5 amended: for a filter whose policy is the cloud selector, the
match succeeds exactly when the record's creation timestamp is below
the filter's stamp plus 2 seconds (signed one-sided comparison
`added - cloud_stamp < CLOUD_TIME_LIMIT`); records stamped at or
after that bound do not match. -/
theorem c5_cloud_window (f : Filter) (c : TcpConn) (hpol : f.policy = POLICY_CLOUD) :
    filter_match f c = true ↔
      c.metadata.added - f.cloud_stamp < CLOUD_TIME_LIMIT := by
  have h1 : (128 : Nat) &&& 64 = 0 := by decide
  have h2 : (128 : Nat) &&& 256 = 0 := by decide
  have h3 : (128 : Nat) &&& 2 = 0 := by decide
  have h4 : (128 : Nat) &&& 1 = 0 := by decide
  have h5 : (128 : Nat) &&& 16 = 0 := by decide
  have h6 : (128 : Nat) &&& 128 = 128 := by decide
  simp [filter_match, hpol, POLICY_CLOUD, POLICY_AF, POLICY_IF, POLICY_LOCAL,
    POLICY_REMOTE, POLICY_STATE, h1, h2, h3, h4, h5, h6]

/-- C5 witness: the amended theorem applied to a concrete cloud
filter and record. -/
theorem c5_cloud_window_witness :
    exFiltCloud100.policy = POLICY_CLOUD ∧
    (filter_match exFiltCloud100 exConnTimeWait80 = true ↔
      exConnTimeWait80.metadata.added - exFiltCloud100.cloud_stamp < CLOUD_TIME_LIMIT) :=
  ⟨by decide, c5_cloud_window exFiltCloud100 exConnTimeWait80 (by decide)⟩

/-! ## C1: exclusive group ownership after a rotate/purge cycle -/

/-- **C1.** For every sequence of insert, rotate and purge rounds run
from the starting context, after a rotate/purge cycle completes every
tracked connection record belongs to at most one group: a record whose
back-pointer names a group appears on that group's membership queue,
on no other group's queue and not on the pending queue, and a record
with no back-pointer is on no group's membership queue. -/
theorem c1_exclusive_ownership (filters : List (Filter × Nat)) (policy : Nat)
    (linger : Bool) (ng : Nat) (cmds : List Cmd) (rotNow prgCnt prgNow : Int)
    (hnd : (filters.map Prod.snd).Nodup)
    (hlt : ∀ gid ∈ filters.map Prod.snd, gid < ng) :
    ∀ cid c, alook cid (run (initCtx filters policy linger ng)
        (cmds ++ [Cmd.rot rotNow, Cmd.prg prgCnt prgNow])).conns = some c →
      (∀ gid, c.group = some gid →
        (∃ g, alook gid (run (initCtx filters policy linger ng)
            (cmds ++ [Cmd.rot rotNow, Cmd.prg prgCnt prgNow])).groups = some g ∧
          cid ∈ g.members) ∧
        (∀ p ∈ (run (initCtx filters policy linger ng)
            (cmds ++ [Cmd.rot rotNow, Cmd.prg prgCnt prgNow])).groups,
          p.1 ≠ gid → cid ∉ p.2.members) ∧
        cid ∉ (run (initCtx filters policy linger ng)
          (cmds ++ [Cmd.rot rotNow, Cmd.prg prgCnt prgNow])).newq) ∧
      (c.group = none → ∀ p ∈ (run (initCtx filters policy linger ng)
          (cmds ++ [Cmd.rot rotNow, Cmd.prg prgCnt prgNow])).groups,
        cid ∉ p.2.members) := by
  intro cid c hc
  have hwfF : WF (run (initCtx filters policy linger ng)
      (cmds ++ [Cmd.rot rotNow, Cmd.prg prgCnt prgNow])) :=
    wf_run _ (wf_initCtx filters policy linger ng hnd hlt) _
  refine ⟨?_, ?_⟩
  · intro gid hg
    refine ⟨?_, ?_, ?_⟩
    · have hmem := alook_eq_some_mem _ _ _ hc
      obtain ⟨g, hgl, hgm⟩ :=
        connOwnerOk_spec _ _ _ _ (hwfF.2.2.2.2.2.2.2.1 (cid, c) hmem) hg
      exact ⟨g, hgl, hgm⟩
    · exact wf_member_only_of_group _ hwfF cid c gid hc hg
    · exact wf_owned_not_newq _ hwfF cid c gid hc hg
  · intro hgn
    exact wf_not_member_of_group_none _ hwfF cid c hc hgn

theorem c1_exclusive_ownership_witness :
    (((([] : List (Filter × Nat)).map Prod.snd).Nodup) ∧
      (∀ gid ∈ ([] : List (Filter × Nat)).map Prod.snd, gid < 0)) ∧
    (∀ cid c, alook cid (run (initCtx [] 0 false 0)
        ([Cmd.ins (Sockaddr.v4 1 80) (Sockaddr.v4 2 90) TcpState.TCP_ESTABLISHED
            none 5]
          ++ [Cmd.rot 6, Cmd.prg 10 7])).conns = some c →
      (∀ gid, c.group = some gid →
        (∃ g, alook gid (run (initCtx [] 0 false 0)
            ([Cmd.ins (Sockaddr.v4 1 80) (Sockaddr.v4 2 90) TcpState.TCP_ESTABLISHED
                none 5]
              ++ [Cmd.rot 6, Cmd.prg 10 7])).groups = some g ∧
          cid ∈ g.members) ∧
        (∀ p ∈ (run (initCtx [] 0 false 0)
            ([Cmd.ins (Sockaddr.v4 1 80) (Sockaddr.v4 2 90) TcpState.TCP_ESTABLISHED
                none 5]
              ++ [Cmd.rot 6, Cmd.prg 10 7])).groups,
          p.1 ≠ gid → cid ∉ p.2.members) ∧
        cid ∉ (run (initCtx [] 0 false 0)
          ([Cmd.ins (Sockaddr.v4 1 80) (Sockaddr.v4 2 90) TcpState.TCP_ESTABLISHED
              none 5]
            ++ [Cmd.rot 6, Cmd.prg 10 7])).newq) ∧
      (c.group = none → ∀ p ∈ (run (initCtx [] 0 false 0)
          ([Cmd.ins (Sockaddr.v4 1 80) (Sockaddr.v4 2 90) TcpState.TCP_ESTABLISHED
              none 5]
            ++ [Cmd.rot 6, Cmd.prg 10 7])).groups,
        cid ∉ p.2.members)) :=
  ⟨⟨by decide, by decide⟩,
    c1_exclusive_ownership [] 0 false 0
      [Cmd.ins (Sockaddr.v4 1 80) (Sockaddr.v4 2 90) TcpState.TCP_ESTABLISHED none 5]
      6 10 7 (by decide) (by decide)⟩

/-! ## C6: classification of pending records by rotate -/

theorem glist_find_match_groups_congr (a b : StatContext) (h : a.groups = b.groups)
    (gids : List Nat) (c : TcpConn) :
    glist_find_match a gids c = glist_find_match b gids c := by
  unfold glist_find_match
  congr 1
  funext gid
  unfold group_match
  rw [h]

/-- **C6.** Rotation empties the pending queue, and each processed
record is classified as the source describes: a record matched by a
listening group is tagged INBOUND and queued on it (a listening group
is never on the outbound list); otherwise the record is tagged
OUTBOUND and queued on the first matching outbound group, or, when
none matches, on a brand-new group whose filter is synthesized from
the record's fields under the tracker's current grouping policy and
which is prepended to the outbound group list. -/
theorem c6_rotate_classification (now : Int) (ctx : StatContext) (hwf : WF ctx) :
    (rotate_new_queue now ctx).newq = [] ∧
    ∀ cid c, alook cid ctx.conns = some c →
      match glist_find_match ctx ctx.listen_groups c with
      | some gid =>
          gid ∈ ctx.listen_groups ∧ gid ∉ ctx.out_groups ∧
          alook cid (rotate_one now ctx cid).conns
            = some { c with
                metadata := { c.metadata with dir := ConnectionDir.DIR_INBOUND },
                group := some gid } ∧
          (∃ g, alook gid (rotate_one now ctx cid).groups = some g ∧
            cid ∈ g.members) ∧
          (rotate_one now ctx cid).out_groups = ctx.out_groups
      | none =>
          match glist_find_match ctx ctx.out_groups
            { c with metadata := { c.metadata with dir := ConnectionDir.DIR_OUTBOUND } }
          with
          | some gid =>
              gid ∈ ctx.out_groups ∧
              alook cid (rotate_one now ctx cid).conns
                = some { c with
                    metadata := { c.metadata with dir := ConnectionDir.DIR_OUTBOUND },
                    group := some gid } ∧
              (∃ g, alook gid (rotate_one now ctx cid).groups = some g ∧
                cid ∈ g.members)
          | none =>
              alook cid (rotate_one now ctx cid).conns
                = some { c with
                    metadata := { c.metadata with dir := ConnectionDir.DIR_OUTBOUND },
                    group := some ctx.nextGroup } ∧
              alook ctx.nextGroup (rotate_one now ctx cid).groups
                = some { grp_filter := some (filter_from_connection { c with metadata := { c.metadata with dir := ConnectionDir.DIR_OUTBOUND } } ctx.common_policy FilterAction.FILTERACT_GROUP now), members := [cid], parent := none } ∧
              (rotate_one now ctx cid).out_groups = ctx.nextGroup :: ctx.out_groups ∧
              (rotate_one now ctx cid).listen_groups = ctx.listen_groups := by
  refine ⟨rotate_new_queue_newq now ctx, ?_⟩
  intro cid c halook
  rcases hfl : glist_find_match ctx ctx.listen_groups c with _ | gid
  · -- not a connection to one of our listening sockets
    rcases hfo : glist_find_match ctx ctx.out_groups
        { c with metadata := { c.metadata with dir := ConnectionDir.DIR_OUTBOUND } }
      with _ | gid
    · -- brand-new outbound group
      unfold rotate_one
      rw [halook]
      dsimp only []
      rw [hfl]
      rw [glist_find_match_groups_congr (updConn cid
        (fun c => { c with metadata := { c.metadata with dir := ConnectionDir.DIR_OUTBOUND } })
        ctx) ctx rfl]
      rw [show (updConn cid
        (fun c => { c with metadata := { c.metadata with dir := ConnectionDir.DIR_OUTBOUND } })
        ctx).out_groups = ctx.out_groups from rfl]
      rw [hfo]
      refine ⟨?_, ?_, rfl, rfl⟩
      · show alook cid (aupd cid
          (fun c => { c with group := some ctx.nextGroup })
          (aupd cid
            (fun c => { c with metadata := { c.metadata with dir := ConnectionDir.DIR_OUTBOUND } })
            ctx.conns)) = _
        rw [alook_aupd_self, alook_aupd_self, halook]
        rfl
      · show alook ctx.nextGroup (aupd ctx.nextGroup
          (fun g => { g with members := cid :: g.members })
          ((ctx.nextGroup, _) :: (updConn cid
            (fun c => { c with metadata := { c.metadata with dir := ConnectionDir.DIR_OUTBOUND } })
            ctx).groups)) = _
        rw [alook_aupd_self, alook_cons_self]
        rfl
    · -- first matching outbound group
      obtain ⟨hmem, g, hg⟩ := glist_find_live ctx ctx.out_groups _ gid hfo
      unfold rotate_one
      rw [halook]
      dsimp only []
      rw [hfl]
      rw [glist_find_match_groups_congr (updConn cid
        (fun c => { c with metadata := { c.metadata with dir := ConnectionDir.DIR_OUTBOUND } })
        ctx) ctx rfl]
      rw [show (updConn cid
        (fun c => { c with metadata := { c.metadata with dir := ConnectionDir.DIR_OUTBOUND } })
        ctx).out_groups = ctx.out_groups from rfl]
      rw [hfo]
      refine ⟨hmem, ?_, ?_⟩
      · show alook cid (aupd cid
          (fun c => { c with group := some gid })
          (aupd cid
            (fun c => { c with metadata := { c.metadata with dir := ConnectionDir.DIR_OUTBOUND } })
            ctx.conns)) = _
        rw [alook_aupd_self, alook_aupd_self, halook]
        rfl
      · refine ⟨{ g with members := cid :: g.members }, ?_, List.mem_cons_self _ _⟩
        show alook gid (aupd gid (fun g => { g with members := cid :: g.members })
          (updConn cid
            (fun c => { c with metadata := { c.metadata with dir := ConnectionDir.DIR_OUTBOUND } })
            ctx).groups) = _
        rw [alook_aupd_self]
        have hg2 : alook gid (updConn cid
            (fun c => { c with metadata := { c.metadata with dir := ConnectionDir.DIR_OUTBOUND } })
            ctx).groups = some g := hg
        rw [hg2]
        rfl
  · -- inbound: captured by a listening group
    obtain ⟨hmem, g, hg⟩ := glist_find_live ctx ctx.listen_groups c gid hfl
    unfold rotate_one
    rw [halook]
    dsimp only []
    rw [hfl]
    refine ⟨hmem, (wf_listen_not_elsewhere ctx hwf gid hmem).1, ?_, ?_, rfl⟩
    · show alook cid (aupd cid
        (fun c => { c with metadata := { c.metadata with dir := ConnectionDir.DIR_INBOUND } })
        (aupd cid (fun c => { c with group := some gid }) ctx.conns)) = _
      rw [alook_aupd_self, alook_aupd_self, halook]
      rfl
    · refine ⟨{ g with members := cid :: g.members }, ?_, List.mem_cons_self _ _⟩
      show alook gid (aupd gid (fun g => { g with members := cid :: g.members })
        ctx.groups) = _
      rw [alook_aupd_self, hg]
      rfl

/-- C6 witness: the classification theorem applied to the empty
starting context at a concrete time. -/
theorem c6_rotate_classification_witness :
    WF (initCtx [] 0 false 0) ∧
    ((rotate_new_queue 5 (initCtx [] 0 false 0)).newq = [] ∧
    ∀ cid c, alook cid (initCtx [] 0 false 0).conns = some c →
      match glist_find_match (initCtx [] 0 false 0)
        (initCtx [] 0 false 0).listen_groups c with
      | some gid =>
          gid ∈ (initCtx [] 0 false 0).listen_groups ∧
          gid ∉ (initCtx [] 0 false 0).out_groups ∧
          alook cid (rotate_one 5 (initCtx [] 0 false 0) cid).conns
            = some { c with
                metadata := { c.metadata with dir := ConnectionDir.DIR_INBOUND },
                group := some gid } ∧
          (∃ g, alook gid (rotate_one 5 (initCtx [] 0 false 0) cid).groups = some g ∧
            cid ∈ g.members) ∧
          (rotate_one 5 (initCtx [] 0 false 0) cid).out_groups
            = (initCtx [] 0 false 0).out_groups
      | none =>
          match glist_find_match (initCtx [] 0 false 0)
            (initCtx [] 0 false 0).out_groups
            { c with metadata := { c.metadata with dir := ConnectionDir.DIR_OUTBOUND } }
          with
          | some gid =>
              gid ∈ (initCtx [] 0 false 0).out_groups ∧
              alook cid (rotate_one 5 (initCtx [] 0 false 0) cid).conns
                = some { c with
                    metadata := { c.metadata with dir := ConnectionDir.DIR_OUTBOUND },
                    group := some gid } ∧
              (∃ g, alook gid (rotate_one 5 (initCtx [] 0 false 0) cid).groups
                = some g ∧ cid ∈ g.members)
          | none =>
              alook cid (rotate_one 5 (initCtx [] 0 false 0) cid).conns
                = some { c with
                    metadata := { c.metadata with dir := ConnectionDir.DIR_OUTBOUND },
                    group := some (initCtx [] 0 false 0).nextGroup } ∧
              alook (initCtx [] 0 false 0).nextGroup
                  (rotate_one 5 (initCtx [] 0 false 0) cid).groups
                = some { grp_filter := some (filter_from_connection { c with metadata := { c.metadata with dir := ConnectionDir.DIR_OUTBOUND } } (initCtx [] 0 false 0).common_policy FilterAction.FILTERACT_GROUP 5), members := [cid], parent := none } ∧
              (rotate_one 5 (initCtx [] 0 false 0) cid).out_groups
                = (initCtx [] 0 false 0).nextGroup
                  :: (initCtx [] 0 false 0).out_groups ∧
              (rotate_one 5 (initCtx [] 0 false 0) cid).listen_groups
                = (initCtx [] 0 false 0).listen_groups) :=
  ⟨by unfold WF; decide, c6_rotate_classification 5 (initCtx [] 0 false 0)
    (by unfold WF; decide)⟩

/-! ## C7: switching the grouping policy -/

theorem egn_fold_facts (ms : List Nat) (cx : StatContext) :
    (ms.foldl (fun cx cid =>
        let cx := updConn cid (fun c => { c with group := none }) cx
        { cx with newq := cid :: cx.newq }) cx).groups = cx.groups ∧
    (ms.foldl (fun cx cid =>
        let cx := updConn cid (fun c => { c with group := none }) cx
        { cx with newq := cid :: cx.newq }) cx).out_groups = cx.out_groups ∧
    (ms.foldl (fun cx cid =>
        let cx := updConn cid (fun c => { c with group := none }) cx
        { cx with newq := cid :: cx.newq }) cx).listen_groups = cx.listen_groups ∧
    (ms.foldl (fun cx cid =>
        let cx := updConn cid (fun c => { c with group := none }) cx
        { cx with newq := cid :: cx.newq }) cx).filters = cx.filters ∧
    (ms.foldl (fun cx cid =>
        let cx := updConn cid (fun c => { c with group := none }) cx
        { cx with newq := cid :: cx.newq }) cx).common_policy = cx.common_policy ∧
    (∀ x ∈ cx.newq, x ∈ (ms.foldl (fun cx cid =>
        let cx := updConn cid (fun c => { c with group := none }) cx
        { cx with newq := cid :: cx.newq }) cx).newq) ∧
    (∀ x ∈ ms, x ∈ (ms.foldl (fun cx cid =>
        let cx := updConn cid (fun c => { c with group := none }) cx
        { cx with newq := cid :: cx.newq }) cx).newq) ∧
    (∀ x, (alook x (ms.foldl (fun cx cid =>
        let cx := updConn cid (fun c => { c with group := none }) cx
        { cx with newq := cid :: cx.newq }) cx).conns).isSome
      = (alook x cx.conns).isSome) ∧
    (∀ x ∈ ms, ∀ c, alook x (ms.foldl (fun cx cid =>
        let cx := updConn cid (fun c => { c with group := none }) cx
        { cx with newq := cid :: cx.newq }) cx).conns = some c → c.group = none) ∧
    (∀ x, x ∉ ms → alook x (ms.foldl (fun cx cid =>
        let cx := updConn cid (fun c => { c with group := none }) cx
        { cx with newq := cid :: cx.newq }) cx).conns = alook x cx.conns) := by
  induction ms generalizing cx with
  | nil =>
    refine ⟨rfl, rfl, rfl, rfl, rfl, fun x hx => hx, ?_, fun x => rfl, ?_, fun x hx => rfl⟩
    · intro x hx
      exact absurd hx (List.not_mem_nil x)
    · intro x hx
      exact absurd hx (List.not_mem_nil x)
  | cons cid rest ih =>
    rw [List.foldl_cons]
    obtain ⟨i1, i2, i3, i4, i5, i6, i7, i8, i9, i10⟩ :=
      ih { updConn cid (fun c => { c with group := none }) cx with
        newq := cid :: (updConn cid (fun c => { c with group := none }) cx).newq }
    refine ⟨i1, i2, i3, i4, i5, ?_, ?_, ?_, ?_, ?_⟩
    · intro x hx
      exact i6 x (List.mem_cons_of_mem _ hx)
    · intro x hx
      rcases List.mem_cons.mp hx with he | hm
      · subst he
        exact i6 x (List.mem_cons_self _ _)
      · exact i7 x hm
    · intro x
      rw [i8 x]
      show (alook x (aupd cid (fun c => { c with group := none }) cx.conns)).isSome
        = (alook x cx.conns).isSome
      rw [alook_aupd]
      split
      · rcases alook x cx.conns with _ | c <;> rfl
      · rfl
    · intro x hx c hc
      by_cases hm : x ∈ rest
      · exact i9 x hm c hc
      · rw [i10 x hm] at hc
        rcases List.mem_cons.mp hx with he | hm2
        · subst he
          have hc2 : alook x (aupd x (fun c => { c with group := none }) cx.conns)
              = some c := hc
          rw [alook_aupd_self] at hc2
          rcases hv : alook x cx.conns with _ | c0
          · rw [hv] at hc2
            exact Option.noConfusion hc2
          · rw [hv] at hc2
            cases Option.some.inj hc2
            rfl
        · exact absurd hm2 hm
    · intro x hx
      have hxc : x ≠ cid := fun he => hx (he ▸ List.mem_cons_self cid rest)
      have hxr : x ∉ rest := fun hm => hx (List.mem_cons_of_mem _ hm)
      rw [i10 x hxr]
      show alook x (aupd cid (fun c => { c with group := none }) cx.conns)
        = alook x cx.conns
      rw [alook_aupd_ne _ _ _ _ hxc]

theorem egn_facts (gid : Nat) (cx : StatContext) (g : ConnGroup)
    (hg : alook gid cx.groups = some g) :
    (empty_group_to_newq gid cx).groups
      = aupd gid (fun g => { g with members := [] }) cx.groups ∧
    (empty_group_to_newq gid cx).out_groups = cx.out_groups ∧
    (empty_group_to_newq gid cx).listen_groups = cx.listen_groups ∧
    (empty_group_to_newq gid cx).filters = cx.filters ∧
    (empty_group_to_newq gid cx).common_policy = cx.common_policy ∧
    (∀ x ∈ cx.newq, x ∈ (empty_group_to_newq gid cx).newq) ∧
    (∀ x ∈ g.members, x ∈ (empty_group_to_newq gid cx).newq) ∧
    (∀ x, (alook x (empty_group_to_newq gid cx).conns).isSome
      = (alook x cx.conns).isSome) ∧
    (∀ x ∈ g.members, ∀ c, alook x (empty_group_to_newq gid cx).conns = some c →
      c.group = none) ∧
    (∀ x, x ∉ g.members → alook x (empty_group_to_newq gid cx).conns
      = alook x cx.conns) := by
  unfold empty_group_to_newq
  rw [hg]
  dsimp only []
  obtain ⟨i1, i2, i3, i4, i5, i6, i7, i8, i9, i10⟩ := egn_fold_facts g.members cx
  exact ⟨congrArg (aupd gid (fun g : ConnGroup => { g with members := [] })) i1,
    i2, i3, i4, i5, i6, i7, i8, i9, i10⟩

theorem egn_facts_dead (gid : Nat) (cx : StatContext)
    (hg : alook gid cx.groups = none) : empty_group_to_newq gid cx = cx := by
  unfold empty_group_to_newq
  rw [hg]

theorem drain_fold_untouched (gids : List Nat) (cx : StatContext) :
    (∀ x ∈ cx.newq,
      x ∈ (gids.foldl (fun cx gid => empty_group_to_newq gid cx) cx).newq) ∧
    (∀ x, (∀ gid ∈ gids, ∀ g, alook gid cx.groups = some g → x ∉ g.members) →
      alook x (gids.foldl (fun cx gid => empty_group_to_newq gid cx) cx).conns
        = alook x cx.conns) := by
  induction gids generalizing cx with
  | nil => exact ⟨fun x hx => hx, fun x hx => rfl⟩
  | cons gid rest ih =>
    rw [List.foldl_cons]
    rcases hgg : alook gid cx.groups with _ | g
    · rw [egn_facts_dead gid cx hgg]
      obtain ⟨j1, j2⟩ := ih cx
      refine ⟨j1, ?_⟩
      intro x hx
      exact j2 x (fun gid2 hm2 => hx gid2 (List.mem_cons_of_mem _ hm2))
    · obtain ⟨i1, i2, i3, i4, i5, i6, i7, i8, i9, i10⟩ := egn_facts gid cx g hgg
      obtain ⟨j1, j2⟩ := ih (empty_group_to_newq gid cx)
      refine ⟨?_, ?_⟩
      · intro x hx
        exact j1 x (i6 x hx)
      · intro x hx
        have hx0 : x ∉ g.members := hx gid (List.mem_cons_self _ _) g hgg
        rw [j2 x ?_, i10 x hx0]
        intro gid2 hm2 g2 hg2
        rw [i1] at hg2
        by_cases hge : gid2 = gid
        · subst hge
          rw [alook_aupd_self, hgg] at hg2
          cases Option.some.inj hg2
          exact List.not_mem_nil x
        · rw [alook_aupd_ne _ _ _ _ hge] at hg2
          exact hx gid2 (List.mem_cons_of_mem _ hm2) g2 hg2

theorem drain_fold_isSome (gids : List Nat) (cx : StatContext) :
    ∀ x, (alook x (gids.foldl (fun cx gid => empty_group_to_newq gid cx) cx).conns).isSome
      = (alook x cx.conns).isSome := by
  induction gids generalizing cx with
  | nil => exact fun x => rfl
  | cons gid rest ih =>
    rw [List.foldl_cons]
    intro x
    rcases hgg : alook gid cx.groups with _ | g
    · rw [egn_facts_dead gid cx hgg]
      exact ih cx x
    · obtain ⟨i1, i2, i3, i4, i5, i6, i7, i8, i9, i10⟩ := egn_facts gid cx g hgg
      rw [ih (empty_group_to_newq gid cx) x, i8 x]

theorem drain_fold_members (gids : List Nat) (cx : StatContext)
    (hnd : gids.Nodup)
    (hdisj : ∀ gid ∈ gids, ∀ g, alook gid cx.groups = some g →
      ∀ gid2 ∈ gids, gid2 ≠ gid → ∀ g2, alook gid2 cx.groups = some g2 →
        ∀ x ∈ g.members, x ∉ g2.members) :
    ∀ gid ∈ gids, ∀ g, alook gid cx.groups = some g → ∀ x ∈ g.members,
      x ∈ (gids.foldl (fun cx gid => empty_group_to_newq gid cx) cx).newq ∧
      (∀ c, alook x (gids.foldl (fun cx gid => empty_group_to_newq gid cx) cx).conns
        = some c → c.group = none) := by
  induction gids generalizing cx with
  | nil => exact fun gid hm => absurd hm (List.not_mem_nil gid)
  | cons gidh rest ih =>
    intro gid hgm g hg x hx
    rw [List.foldl_cons]
    rcases List.mem_cons.mp hgm with he | hm
    · -- the target group is the one drained first
      subst he
      obtain ⟨i1, i2, i3, i4, i5, i6, i7, i8, i9, i10⟩ := egn_facts gid cx g hg
      obtain ⟨j1, j2⟩ := drain_fold_untouched rest (empty_group_to_newq gid cx)
      have hrest : ∀ gid2 ∈ rest, ∀ g2,
          alook gid2 (empty_group_to_newq gid cx).groups = some g2 →
          x ∉ g2.members := by
        intro gid2 hm2 g2 hg2
        have hne : gid2 ≠ gid := fun he2 =>
          (List.nodup_cons.mp hnd).1 (he2 ▸ hm2)
        rw [i1, alook_aupd_ne _ _ _ _ hne] at hg2
        exact hdisj gid (List.mem_cons_self _ _) g hg gid2
          (List.mem_cons_of_mem _ hm2) hne g2 hg2 x hx
      refine ⟨j1 x (i7 x hx), ?_⟩
      intro c hc
      rw [j2 x hrest] at hc
      exact i9 x hx c hc
    · -- the target group is drained later
      rcases hgg : alook gidh cx.groups with _ | gh
      · rw [egn_facts_dead gidh cx hgg]
        refine ih cx hnd.of_cons ?_ gid hm g hg x hx
        intro gid1 hm1 g1 hg1 gid2 hm2 hne g2 hg2
        exact hdisj gid1 (List.mem_cons_of_mem _ hm1) g1 hg1 gid2
          (List.mem_cons_of_mem _ hm2) hne g2 hg2
      · obtain ⟨i1, i2, i3, i4, i5, i6, i7, i8, i9, i10⟩ := egn_facts gidh cx gh hgg
        have htrans : ∀ gid2 ∈ rest, ∀ g2, alook gid2 cx.groups = some g2 →
            alook gid2 (empty_group_to_newq gidh cx).groups = some g2 := by
          intro gid2 hm2 g2 hg2
          have hne : gid2 ≠ gidh := fun he2 =>
            (List.nodup_cons.mp hnd).1 (he2 ▸ hm2)
          rw [i1, alook_aupd_ne _ _ _ _ hne]
          exact hg2
        refine ih (empty_group_to_newq gidh cx) hnd.of_cons ?_ gid hm g
          (htrans gid hm g hg) x hx
        intro gid1 hm1 g1 hg1 gid2 hm2 hne g2 hg2
        have hne1 : gid1 ≠ gidh := fun he2 =>
          (List.nodup_cons.mp hnd).1 (he2 ▸ hm1)
        have hne2 : gid2 ≠ gidh := fun he2 =>
          (List.nodup_cons.mp hnd).1 (he2 ▸ hm2)
        rw [i1, alook_aupd_ne _ _ _ _ hne1] at hg1
        rw [i1, alook_aupd_ne _ _ _ _ hne2] at hg2
        exact hdisj gid1 (List.mem_cons_of_mem _ hm1) g1 hg1 gid2
          (List.mem_cons_of_mem _ hm2) hne g2 hg2

theorem rotate_one_policy (now : Int) (ctx : StatContext) (cid : Nat) :
    (rotate_one now ctx cid).common_policy = ctx.common_policy := by
  unfold rotate_one
  dsimp only []
  split
  · rfl
  · split
    · rfl
    · split
      · rfl
      · rfl

theorem rotate_list_policy (now : Int) (q : List Nat) (ctx : StatContext) :
    (rotate_list now q ctx).common_policy = ctx.common_policy := by
  induction q generalizing ctx with
  | nil => rfl
  | cons cid rest ih =>
    show (rotate_list now rest (rotate_one now ctx cid)).common_policy
      = ctx.common_policy
    rw [ih, rotate_one_policy]

theorem rotate_new_queue_policy (now : Int) (ctx : StatContext) :
    (rotate_new_queue now ctx).common_policy = ctx.common_policy := by
  show (rotate_list now ctx.newq { ctx with newq := [] }).common_policy
    = ctx.common_policy
  rw [rotate_list_policy]

theorem egn_fold_conns_keys (ms : List Nat) (cx : StatContext) :
    (ms.foldl (fun cx cid =>
        let cx := updConn cid (fun c => { c with group := none }) cx
        { cx with newq := cid :: cx.newq }) cx).conns.map Prod.fst
      = cx.conns.map Prod.fst := by
  induction ms generalizing cx with
  | nil => rfl
  | cons cid rest ih =>
    rw [List.foldl_cons]
    rw [ih { updConn cid (fun c => { c with group := none }) cx with
      newq := cid :: (updConn cid (fun c => { c with group := none }) cx).newq }]
    show (aupd cid (fun c => { c with group := none }) cx.conns).map Prod.fst
      = cx.conns.map Prod.fst
    rw [aupd_map_fst]

theorem egn_fold_newq_eq (ms : List Nat) (cx : StatContext) :
    (ms.foldl (fun cx cid =>
        let cx := updConn cid (fun c => { c with group := none }) cx
        { cx with newq := cid :: cx.newq }) cx).newq
      = ms.reverse ++ cx.newq := by
  induction ms generalizing cx with
  | nil => rfl
  | cons cid rest ih =>
    rw [List.foldl_cons]
    rw [ih { updConn cid (fun c => { c with group := none }) cx with
      newq := cid :: (updConn cid (fun c => { c with group := none }) cx).newq }]
    show rest.reverse ++ cid :: cx.newq = (cid :: rest).reverse ++ cx.newq
    rw [List.reverse_cons, List.append_assoc]
    rfl

theorem egn_fold_counters (ms : List Nat) (cx : StatContext) :
    (ms.foldl (fun cx cid =>
        let cx := updConn cid (fun c => { c with group := none }) cx
        { cx with newq := cid :: cx.newq }) cx).nextConn = cx.nextConn ∧
    (ms.foldl (fun cx cid =>
        let cx := updConn cid (fun c => { c with group := none }) cx
        { cx with newq := cid :: cx.newq }) cx).nextGroup = cx.nextGroup ∧
    (ms.foldl (fun cx cid =>
        let cx := updConn cid (fun c => { c with group := none }) cx
        { cx with newq := cid :: cx.newq }) cx).linger = cx.linger := by
  induction ms generalizing cx with
  | nil => exact ⟨rfl, rfl, rfl⟩
  | cons cid rest ih =>
    rw [List.foldl_cons]
    exact ih { updConn cid (fun c => { c with group := none }) cx with
      newq := cid :: (updConn cid (fun c => { c with group := none }) cx).newq }

theorem egn_conns_keys (gid : Nat) (cx : StatContext) (g : ConnGroup)
    (hg : alook gid cx.groups = some g) :
    (empty_group_to_newq gid cx).conns.map Prod.fst = cx.conns.map Prod.fst := by
  unfold empty_group_to_newq
  rw [hg]
  dsimp only []
  exact egn_fold_conns_keys g.members cx

theorem egn_newq_eq (gid : Nat) (cx : StatContext) (g : ConnGroup)
    (hg : alook gid cx.groups = some g) :
    (empty_group_to_newq gid cx).newq = g.members.reverse ++ cx.newq := by
  unfold empty_group_to_newq
  rw [hg]
  dsimp only []
  exact egn_fold_newq_eq g.members cx

theorem egn_counters (gid : Nat) (cx : StatContext) :
    (empty_group_to_newq gid cx).nextConn = cx.nextConn ∧
    (empty_group_to_newq gid cx).nextGroup = cx.nextGroup ∧
    (empty_group_to_newq gid cx).linger = cx.linger := by
  rcases hg : alook gid cx.groups with _ | g
  · rw [egn_facts_dead gid cx hg]
    exact ⟨rfl, rfl, rfl⟩
  · unfold empty_group_to_newq
    rw [hg]
    dsimp only []
    exact egn_fold_counters g.members cx

/-- Pulling all members of one group onto the pending queue keeps the
tracker invariant: the drained records are unowned and queued, the
group keeps everything but its membership queue. -/
theorem wf_empty_group_to_newq (gid : Nat) (cx : StatContext) (hwf : WF cx) :
    WF (empty_group_to_newq gid cx) := by
  rcases hg : alook gid cx.groups with _ | g
  · rw [egn_facts_dead gid cx hg]
    exact hwf
  · obtain ⟨i1, i2, i3, i4, i5, i6, i7, i8, i9, i10⟩ := egn_facts gid cx g hg
    have hkeys := egn_conns_keys gid cx g hg
    have hnewq := egn_newq_eq gid cx g hg
    have hcnt := egn_counters gid cx
    have hmemg : (gid, g) ∈ cx.groups := alook_eq_some_mem _ _ _ hg
    obtain ⟨h1, h2, h3, h4, h5, h6, h7, h8, h9, h10, h11, h12, h13⟩ := hwf
    have hown : ∀ x ∈ g.members, ∃ c, alook x cx.conns = some c ∧ c.group = some gid :=
      fun x hx => memberOk_spec _ _ _ (h7 (gid, g) hmemg x hx)
    have hnotq : ∀ x ∈ g.members, x ∉ cx.newq := by
      intro x hx hq
      obtain ⟨c, hc, hcg⟩ := hown x hx
      obtain ⟨c2, hc2, hg2⟩ := newqOk_spec _ _ (h9 x hq)
      rw [hc] at hc2
      cases Option.some.inj hc2
      rw [hcg] at hg2
      exact Option.noConfusion hg2
    have hndE : ((empty_group_to_newq gid cx).conns.map Prod.fst).Nodup := by
      rw [hkeys]; exact h1
    refine ⟨hndE, ?_, ?_, ?_, ?_, ?_, ?_, ?_, ?_, ?_, ?_, ?_, ?_⟩
    · rw [i1, aupd_map_fst]
      exact h2
    · intro p hp
      rw [hcnt.1]
      have hpm : p.1 ∈ cx.conns.map Prod.fst := by
        rw [← hkeys]
        exact List.mem_map_of_mem Prod.fst hp
      obtain ⟨q, hq, hq1⟩ := List.mem_map.mp hpm
      rw [← hq1]
      exact h3 q hq
    · intro p hp
      rw [hcnt.2.1]
      rw [i1] at hp
      obtain ⟨q, hq, hpq, _⟩ := mem_aupd _ _ _ _ hp
      rw [hpq]
      exact h4 q hq
    · intro p hp
      rw [i1] at hp
      obtain ⟨q, hq, hpq, hcase⟩ := mem_aupd _ _ _ _ hp
      rcases hcase with ⟨_, hv⟩ | ⟨_, hv⟩
      · rw [hv]
        exact h5 q hq
      · rw [hv]
        exact List.nodup_nil
    · rw [hnewq]
      refine List.Nodup.append (List.nodup_reverse.mpr (h5 (gid, g) hmemg)) h6 ?_
      intro x hxr hxq
      exact hnotq x (List.mem_reverse.mp hxr) hxq
    · intro p hp cid hcid
      rw [i1] at hp
      obtain ⟨q, hq, hpq, hcase⟩ := mem_aupd _ _ _ _ hp
      rcases hcase with ⟨hqne, hv⟩ | ⟨_, hv⟩
      · rw [hv] at hcid
        obtain ⟨c, hc, hcg⟩ := memberOk_spec _ _ _ (h7 q hq cid hcid)
        have hnm : cid ∉ g.members := by
          intro hin
          obtain ⟨c2, hc2, hcg2⟩ := hown cid hin
          rw [hc] at hc2
          cases Option.some.inj hc2
          rw [hcg] at hcg2
          exact hqne (Option.some.inj hcg2)
        rw [hpq]
        exact memberOk_intro _ _ _ c ((i10 cid hnm).trans hc) hcg
      · rw [hv] at hcid
        exact absurd hcid (List.not_mem_nil cid)
    · intro p hp
      have halk : alook p.1 (empty_group_to_newq gid cx).conns = some p.2 :=
        mem_alook _ _ _ hndE hp
      by_cases hpm : p.1 ∈ g.members
      · have hgn : p.2.group = none := i9 p.1 hpm p.2 halk
        simp [connOwnerOk, hgn]
      · have halk0 : alook p.1 cx.conns = some p.2 := (i10 p.1 hpm).symm.trans halk
        have hpc : (p.1, p.2) ∈ cx.conns := alook_eq_some_mem _ _ _ halk0
        have hold := h8 (p.1, p.2) hpc
        rcases hgp : p.2.group with _ | gid2
        · simp [connOwnerOk, hgp]
        · obtain ⟨g2, hg2, hm2⟩ := connOwnerOk_spec _ _ _ _ hold hgp
          have hne : gid2 ≠ gid := by
            intro he
            subst he
            rw [hg] at hg2
            cases Option.some.inj hg2
            exact hpm hm2
          refine connOwnerOk_intro _ _ _ gid2 g2 hgp ?_ hm2
          rw [i1, alook_aupd_ne _ _ _ _ hne]
          exact hg2
    · intro cid hcq
      rw [hnewq] at hcq
      have hlive : ∀ hm : cid ∈ g.members, newqOk (empty_group_to_newq gid cx).conns cid = true := by
        intro hm
        obtain ⟨c0, hc0, _⟩ := hown cid hm
        have hs : (alook cid (empty_group_to_newq gid cx).conns).isSome = true := by
          rw [i8 cid, hc0]
          rfl
        obtain ⟨c, hc⟩ := Option.isSome_iff_exists.mp hs
        exact newqOk_intro _ _ c hc (i9 cid hm c hc)
      rcases List.mem_append.mp hcq with hr | hq
      · exact hlive (List.mem_reverse.mp hr)
      · by_cases hm : cid ∈ g.members
        · exact hlive hm
        · obtain ⟨c0, hc0, hg0⟩ := newqOk_spec _ _ (h9 cid hq)
          exact newqOk_intro _ _ c0 ((i10 cid hm).trans hc0) hg0
    · intro p hp
      rw [i1] at hp
      obtain ⟨q, hq, hpq, hcase⟩ := mem_aupd _ _ _ _ hp
      have huniq : ∀ pcid, (∀ q2 ∈ cx.groups, q2.1 = q.1 ∨ q2.2.parent ≠ some pcid) →
          ∀ q2 ∈ (empty_group_to_newq gid cx).groups,
            q2.1 = q.1 ∨ q2.2.parent ≠ some pcid := by
        intro pcid hpu q2 hq2
        rw [i1] at hq2
        obtain ⟨q3, hq3, hq21, hc3⟩ := mem_aupd _ _ _ _ hq2
        rcases hpu q3 hq3 with he | hne
        · exact Or.inl (hq21.trans he)
        · refine Or.inr ?_
          rcases hc3 with ⟨_, hv3⟩ | ⟨_, hv3⟩
          · rw [hv3]
            exact hne
          · rw [hv3]
            exact hne
      have hpnot : ∀ pcid pc, alook pcid cx.conns = some pc → pc.group = none →
          pcid ∉ g.members := by
        intro pcid pc hpc hpcg hin
        obtain ⟨c2, hc2, hcg2⟩ := hown pcid hin
        rw [hpc] at hc2
        cases Option.some.inj hc2
        rw [hpcg] at hcg2
        exact Option.noConfusion hcg2
      rcases hcase with ⟨_, hv⟩ | ⟨_, hv⟩
      · rw [hv, hpq]
        rcases hpar : q.2.parent with _ | pcid
        · simp [parentOk, hpar]
        · obtain ⟨pc, hpc, hpcg, hpcq, hpu⟩ := parentOk_spec _ _ _ _ _ _ (h10 q hq) hpar
          have hpm : pcid ∉ g.members := hpnot pcid pc hpc hpcg
          refine parentOk_intro _ _ _ q.1 q.2 pcid pc hpar
            ((i10 pcid hpm).trans hpc) hpcg ?_ (huniq pcid hpu)
          rw [hnewq]
          intro hin
          rcases List.mem_append.mp hin with hr | hq2
          · exact hpm (List.mem_reverse.mp hr)
          · exact hpcq hq2
      · rw [hv, hpq]
        rcases hpar : q.2.parent with _ | pcid
        · simp [parentOk, hpar]
        · obtain ⟨pc, hpc, hpcg, hpcq, hpu⟩ := parentOk_spec _ _ _ _ _ _ (h10 q hq) hpar
          have hpm : pcid ∉ g.members := hpnot pcid pc hpc hpcg
          refine parentOk_intro _ _ _ q.1
            { grp_filter := q.2.grp_filter, members := [], parent := some pcid } pcid pc rfl
            ((i10 pcid hpm).trans hpc) hpcg ?_ (huniq pcid hpu)
          rw [hnewq]
          intro hin
          rcases List.mem_append.mp hin with hr | hq2
          · exact hpm (List.mem_reverse.mp hr)
          · exact hpcq hq2
    · show ((empty_group_to_newq gid cx).listen_groups ++
          (empty_group_to_newq gid cx).out_groups ++
          (empty_group_to_newq gid cx).filters.map Prod.snd).Nodup
      rw [i2, i3, i4]
      exact h11
    · intro gid2 hg2
      have hrefs : groupRefs (empty_group_to_newq gid cx) = groupRefs cx := by
        unfold groupRefs
        rw [i2, i3, i4]
      rw [hrefs] at hg2
      rw [i1, alook_aupd]
      by_cases he : gid2 = gid
      · rw [if_pos he, he, hg]
        rfl
      · rw [if_neg he]
        exact h12 gid2 hg2
    · intro gid2 hg2
      rw [i2] at hg2
      unfold group_get_parent
      rw [i1, alook_aupd]
      by_cases he : gid2 = gid
      · subst he
        have hold := h13 gid2 hg2
        unfold group_get_parent at hold
        rw [hg] at hold
        rw [if_pos rfl, hg]
        show g.parent = none
        exact hold
      · rw [if_neg he]
        have hold := h13 gid2 hg2
        unfold group_get_parent at hold
        exact hold

theorem wf_drain_fold (gids : List Nat) (cx : StatContext) (hwf : WF cx) :
    WF (gids.foldl (fun cx gid => empty_group_to_newq gid cx) cx) := by
  induction gids generalizing cx with
  | nil => exact hwf
  | cons gidh rest ih =>
    rw [List.foldl_cons]
    exact ih (empty_group_to_newq gidh cx) (wf_empty_group_to_newq gidh cx hwf)

theorem drain_fold_frames (gids : List Nat) (cx : StatContext) :
    (gids.foldl (fun cx gid => empty_group_to_newq gid cx) cx).out_groups = cx.out_groups ∧
    (gids.foldl (fun cx gid => empty_group_to_newq gid cx) cx).listen_groups
      = cx.listen_groups ∧
    (gids.foldl (fun cx gid => empty_group_to_newq gid cx) cx).filters = cx.filters ∧
    (gids.foldl (fun cx gid => empty_group_to_newq gid cx) cx).common_policy
      = cx.common_policy ∧
    (gids.foldl (fun cx gid => empty_group_to_newq gid cx) cx).nextConn = cx.nextConn ∧
    (gids.foldl (fun cx gid => empty_group_to_newq gid cx) cx).nextGroup = cx.nextGroup ∧
    (gids.foldl (fun cx gid => empty_group_to_newq gid cx) cx).linger = cx.linger ∧
    (gids.foldl (fun cx gid => empty_group_to_newq gid cx) cx).groups.map Prod.fst
      = cx.groups.map Prod.fst ∧
    (gids.foldl (fun cx gid => empty_group_to_newq gid cx) cx).conns.map Prod.fst
      = cx.conns.map Prod.fst := by
  induction gids generalizing cx with
  | nil => exact ⟨rfl, rfl, rfl, rfl, rfl, rfl, rfl, rfl, rfl⟩
  | cons gidh rest ih =>
    rw [List.foldl_cons]
    rcases hgh : alook gidh cx.groups with _ | gh
    · rw [egn_facts_dead gidh cx hgh]
      exact ih cx
    · obtain ⟨j1, j2, j3, j4, j5, j6, j7, j8, j9⟩ := ih (empty_group_to_newq gidh cx)
      have hcnt := egn_counters gidh cx
      obtain ⟨i1, i2, i3, i4, i5, _, _, _, _, _⟩ := egn_facts gidh cx gh hgh
      exact ⟨j1.trans i2, j2.trans i3, j3.trans i4, j4.trans i5,
        j5.trans hcnt.1, j6.trans hcnt.2.1, j7.trans hcnt.2.2,
        j8.trans (by rw [i1, aupd_map_fst]),
        j9.trans (egn_conns_keys gidh cx gh hgh)⟩

theorem drain_fold_keep_empty (gids : List Nat) (cx : StatContext) (gid : Nat)
    (hg : ∀ g, alook gid cx.groups = some g → g.members = []) :
    ∀ g2, alook gid (gids.foldl (fun cx gid => empty_group_to_newq gid cx) cx).groups
      = some g2 → g2.members = [] := by
  induction gids generalizing cx with
  | nil => exact hg
  | cons gidh rest ih =>
    rw [List.foldl_cons]
    rcases hgh : alook gidh cx.groups with _ | gh
    · rw [egn_facts_dead gidh cx hgh]
      exact ih cx hg
    · obtain ⟨i1, _, _, _, _, _, _, _, _, _⟩ := egn_facts gidh cx gh hgh
      refine ih (empty_group_to_newq gidh cx) ?_
      intro g2 hg2
      rw [i1, alook_aupd] at hg2
      by_cases he : gid = gidh
      · rw [if_pos he, he, hgh] at hg2
        cases Option.some.inj hg2
        rfl
      · rw [if_neg he] at hg2
        exact hg g2 hg2

theorem drain_fold_emptied (gids : List Nat) (cx : StatContext) :
    ∀ gid ∈ gids, ∀ g2,
      alook gid (gids.foldl (fun cx gid => empty_group_to_newq gid cx) cx).groups
        = some g2 → g2.members = [] := by
  induction gids generalizing cx with
  | nil => exact fun gid hm => absurd hm (List.not_mem_nil gid)
  | cons gidh rest ih =>
    intro gid hgm g2 hg2
    rw [List.foldl_cons] at hg2
    rcases List.mem_cons.mp hgm with he | hm
    · subst he
      rcases hgh : alook gid cx.groups with _ | gh
      · refine drain_fold_keep_empty rest (empty_group_to_newq gid cx) gid ?_ g2 hg2
        intro g3 hg3
        rw [egn_facts_dead gid cx hgh, hgh] at hg3
        exact Option.noConfusion hg3
      · obtain ⟨i1, _, _, _, _, _, _, _, _, _⟩ := egn_facts gid cx gh hgh
        refine drain_fold_keep_empty rest (empty_group_to_newq gid cx) gid ?_ g2 hg2
        intro g3 hg3
        rw [i1, alook_aupd_self, hgh] at hg3
        cases Option.some.inj hg3
        rfl
    · rcases hgh : alook gidh cx.groups with _ | gh
      · rw [egn_facts_dead gidh cx hgh] at hg2
        exact ih cx gid hm g2 hg2
      · exact ih (empty_group_to_newq gidh cx) gid hm g2 hg2

/-- **C7.** Counterexample to the claim as stated: in `exC7ctx0` the
record `0` is outbound and owned by outbound group `0` under the PORT
grouping policy; after `switch_grouping` to the STATE policy the
re-rotation classifies it INBOUND into the persistent listening group
`1`, whose auto-filter was built from the listener under
LOCAL|PORT|AF — not under the new policy.  So a previously outbound
record need not end up in a group whose filter was built under the
new policy. -/
theorem c7_switch_capture_counterexample :
    exC7ctx0.common_policy = POLICY_PORT ∧
    (alook 0 exC7ctx0.conns).map (fun c => (c.group, c.metadata.dir))
      = some (some 0, ConnectionDir.DIR_OUTBOUND) ∧
    (0 : Nat) ∈ exC7ctx0.out_groups ∧
    exC7ctx1.common_policy = POLICY_STATE ∧
    (alook 0 exC7ctx1.conns).map (fun c => (c.group, c.metadata.dir))
      = some (some 1, ConnectionDir.DIR_INBOUND) ∧
    (1 : Nat) ∈ exC7ctx1.listen_groups ∧
    (alook 1 exC7ctx1.groups).map (fun g => g.members) = some [0] ∧
    (alook 1 exC7ctx1.groups).map (fun g => g.grp_filter.map (fun f => f.policy))
      = some (some (POLICY_LOCAL ||| POLICY_PORT ||| POLICY_AF)) ∧
    POLICY_LOCAL ||| POLICY_PORT ||| POLICY_AF ≠ POLICY_STATE := by
  decide

theorem filter_from_connection_policy (c : TcpConn) (flags : Nat)
    (act : FilterAction) (now : Int) :
    (filter_from_connection c flags act now).policy = flags := by
  unfold filter_from_connection
  dsimp only []
  split <;> split <;> split <;> split <;> split <;> split <;> rfl

theorem alook_group_add_self (gid cid : Nat) (ctx : StatContext) (c0 : TcpConn)
    (hc0 : alook cid ctx.conns = some c0) :
    alook cid (group_add_connection gid cid ctx).conns
      = some { c0 with group := some gid } := by
  show alook cid (aupd cid (fun c => { c with group := some gid })
      (updGroup gid (fun g => { g with members := cid :: g.members }) ctx).conns)
    = some { c0 with group := some gid }
  rw [alook_aupd_self]
  have hc1 : alook cid (updGroup gid (fun g => { g with members := cid :: g.members })
      ctx).conns = some c0 := hc0
  rw [hc1]
  rfl

theorem rotate_one_assigns (now : Int) (ctx : StatContext) (cid : Nat) (c0 : TcpConn)
    (hc0 : alook cid ctx.conns = some c0) :
    ∃ c, alook cid (rotate_one now ctx cid).conns = some c ∧ c.group.isSome = true := by
  unfold rotate_one
  rw [hc0]
  dsimp only []
  split
  · rename_i gid hgl
    have h2 := alook_aupd_self cid
      (fun c => { c with metadata := { c.metadata with dir := ConnectionDir.DIR_INBOUND } })
      (group_add_connection gid cid ctx).conns
    rw [alook_group_add_self gid cid ctx c0 hc0] at h2
    exact ⟨_, h2, rfl⟩
  · rename_i hgl
    have hc1 := alook_aupd_self cid
      (fun c => { c with metadata := { c.metadata with dir := ConnectionDir.DIR_OUTBOUND } })
      ctx.conns
    rw [hc0] at hc1
    have hc2 : alook cid (updConn cid
        (fun c => { c with metadata := { c.metadata with dir := ConnectionDir.DIR_OUTBOUND } })
        ctx).conns
        = some { c0 with metadata := { c0.metadata with dir := ConnectionDir.DIR_OUTBOUND } } := hc1
    split
    · exact ⟨_, alook_group_add_self _ cid _ _ hc2, rfl⟩
    · exact ⟨_, alook_group_add_self _ cid _ _ hc2, rfl⟩

theorem rotate_list_alook_not_mem (now : Int) (q : List Nat) (ctx : StatContext)
    (x : Nat) (hx : x ∉ q) :
    alook x (rotate_list now q ctx).conns = alook x ctx.conns := by
  induction q generalizing ctx with
  | nil => rfl
  | cons cid rest ih =>
    show alook x (rotate_list now rest (rotate_one now ctx cid)).conns = alook x ctx.conns
    rw [ih (rotate_one now ctx cid) (fun h => hx (List.mem_cons_of_mem _ h)),
      rotate_one_alook_ne now ctx cid x (fun he => hx (he ▸ List.mem_cons_self _ _))]

theorem rotate_list_assigns (now : Int) (q : List Nat) (ctx : StatContext)
    (hnd : q.Nodup) :
    ∀ cid ∈ q, ∀ c0, alook cid ctx.conns = some c0 →
      ∃ c, alook cid (rotate_list now q ctx).conns = some c ∧ c.group.isSome = true := by
  induction q generalizing ctx with
  | nil => exact fun cid hm => absurd hm (List.not_mem_nil cid)
  | cons cidh rest ih =>
    intro cid hm c0 hc0
    have hnd' := List.nodup_cons.mp hnd
    rcases List.mem_cons.mp hm with he | hmr
    · subst he
      obtain ⟨c, hc, hcs⟩ := rotate_one_assigns now ctx cid c0 hc0
      refine ⟨c, ?_, hcs⟩
      show alook cid (rotate_list now rest (rotate_one now ctx cid)).conns = some c
      rw [rotate_list_alook_not_mem now rest (rotate_one now ctx cid) cid hnd'.1]
      exact hc
    · have hne : cid ≠ cidh := fun he => hnd'.1 (he ▸ hmr)
      have hc0' : alook cid (rotate_one now ctx cidh).conns = some c0 := by
        rw [rotate_one_alook_ne now ctx cidh cid hne]
        exact hc0
      show ∃ c, alook cid (rotate_list now rest (rotate_one now ctx cidh)).conns = some c
        ∧ c.group.isSome = true
      exact ih (rotate_one now ctx cidh) hnd'.2 cid hmr c0 hc0'

theorem rotate_one_out_filters (now : Int) (ctx : StatContext) (cid : Nat)
    (hP : ∀ gid ∈ ctx.out_groups, ∃ g, alook gid ctx.groups = some g ∧
      ∃ f, g.grp_filter = some f ∧ f.policy = ctx.common_policy) :
    ∀ gid ∈ (rotate_one now ctx cid).out_groups,
      ∃ g, alook gid (rotate_one now ctx cid).groups = some g ∧
      ∃ f, g.grp_filter = some f ∧ f.policy = (rotate_one now ctx cid).common_policy := by
  unfold rotate_one
  dsimp only []
  split
  · exact hP
  · rename_i c hc
    split
    · rename_i gid hgl
      show ∀ gid2 ∈ ctx.out_groups, ∃ g,
          alook gid2 (aupd gid (fun g => { g with members := cid :: g.members }) ctx.groups)
            = some g ∧ ∃ f, g.grp_filter = some f ∧ f.policy = ctx.common_policy
      intro gid2 hg2
      obtain ⟨g, hgl2, f, hf, hfp⟩ := hP gid2 hg2
      rw [alook_aupd]
      by_cases he : gid2 = gid
      · rw [if_pos he, hgl2]
        exact ⟨_, rfl, f, hf, hfp⟩
      · rw [if_neg he]
        exact ⟨g, hgl2, f, hf, hfp⟩
    · rename_i hgl
      split
      · rename_i gid hgo
        show ∀ gid2 ∈ ctx.out_groups, ∃ g,
            alook gid2 (aupd gid (fun g => { g with members := cid :: g.members }) ctx.groups)
              = some g ∧ ∃ f, g.grp_filter = some f ∧ f.policy = ctx.common_policy
        intro gid2 hg2
        obtain ⟨g, hgl2, f, hf, hfp⟩ := hP gid2 hg2
        rw [alook_aupd]
        by_cases he : gid2 = gid
        · rw [if_pos he, hgl2]
          exact ⟨_, rfl, f, hf, hfp⟩
        · rw [if_neg he]
          exact ⟨g, hgl2, f, hf, hfp⟩
      · rename_i hgo
        show ∀ gid2 ∈ ctx.nextGroup :: ctx.out_groups, ∃ g,
            alook gid2 (aupd ctx.nextGroup (fun g => { g with members := cid :: g.members })
              ((ctx.nextGroup, ({ grp_filter := some (filter_from_connection { c with metadata := { c.metadata with dir := ConnectionDir.DIR_OUTBOUND } } ctx.common_policy FilterAction.FILTERACT_GROUP now), members := [], parent := none } : ConnGroup)) :: ctx.groups))
              = some g ∧ ∃ f, g.grp_filter = some f ∧ f.policy = ctx.common_policy
        intro gid2 hg2
        rw [alook_aupd]
        by_cases he : gid2 = ctx.nextGroup
        · rw [if_pos he, he, alook_cons_self]
          refine ⟨_, rfl, _, rfl, ?_⟩
          exact filter_from_connection_policy _ _ _ _
        · rw [if_neg he, alook_cons_ne _ _ _ _ (fun h2 => he h2.symm)]
          rcases List.mem_cons.mp hg2 with he2 | hm2
          · exact absurd he2 he
          · obtain ⟨g, hgl2, f, hf, hfp⟩ := hP gid2 hm2
            exact ⟨g, hgl2, f, hf, hfp⟩

theorem rotate_list_out_filters (now : Int) (q : List Nat) (ctx : StatContext)
    (hP : ∀ gid ∈ ctx.out_groups, ∃ g, alook gid ctx.groups = some g ∧
      ∃ f, g.grp_filter = some f ∧ f.policy = ctx.common_policy) :
    ∀ gid ∈ (rotate_list now q ctx).out_groups,
      ∃ g, alook gid (rotate_list now q ctx).groups = some g ∧
      ∃ f, g.grp_filter = some f ∧ f.policy = (rotate_list now q ctx).common_policy := by
  induction q generalizing ctx with
  | nil => exact hP
  | cons cid rest ih =>
    show ∀ gid ∈ (rotate_list now rest (rotate_one now ctx cid)).out_groups,
      ∃ g, alook gid (rotate_list now rest (rotate_one now ctx cid)).groups = some g ∧
      ∃ f, g.grp_filter = some f ∧ f.policy
        = (rotate_list now rest (rotate_one now ctx cid)).common_policy
    exact ih (rotate_one now ctx cid) (rotate_one_out_filters now ctx cid hP)

theorem rotate_new_queue_out_filters (now : Int) (ctx : StatContext)
    (hP : ∀ gid ∈ ctx.out_groups, ∃ g, alook gid ctx.groups = some g ∧
      ∃ f, g.grp_filter = some f ∧ f.policy = ctx.common_policy) :
    ∀ gid ∈ (rotate_new_queue now ctx).out_groups,
      ∃ g, alook gid (rotate_new_queue now ctx).groups = some g ∧
      ∃ f, g.grp_filter = some f ∧ f.policy = (rotate_new_queue now ctx).common_policy := by
  show ∀ gid ∈ (rotate_list now ctx.newq { ctx with newq := [] }).out_groups,
    ∃ g, alook gid (rotate_list now ctx.newq { ctx with newq := [] }).groups = some g ∧
    ∃ f, g.grp_filter = some f ∧ f.policy
      = (rotate_list now ctx.newq { ctx with newq := [] }).common_policy
  exact rotate_list_out_filters now ctx.newq { ctx with newq := [] } hP

/-- The drained state is well formed: the discarded outbound groups
are empty and unreferenced, their former members are queued and
unowned. -/
theorem wf_switch_drain (ctx : StatContext) (hwf : WF ctx) (newPol : Nat) :
    WF (switch_drain ctx newPol) := by
  obtain ⟨hout, hlst, hflt, hpol, hnc, hng, hlin, hgk, hck⟩ :=
    drain_fold_frames ctx.out_groups ctx
  have hempt := drain_fold_emptied ctx.out_groups ctx
  obtain ⟨f1, f2, f3, f4, f5, f6, f7, f8, f9, f10, f11, f12, f13⟩ :=
    wf_drain_fold ctx.out_groups ctx hwf
  refine ⟨?_, ?_, ?_, ?_, ?_, ?_, ?_, ?_, ?_, ?_, ?_, ?_, ?_⟩
  · exact f1
  · show (((ctx.out_groups.foldl (fun cx gid => empty_group_to_newq gid cx) ctx).groups.filter
        (fun p => p.1 ∉ (ctx.out_groups.foldl (fun cx gid => empty_group_to_newq gid cx) ctx).out_groups)).map Prod.fst).Nodup
    exact List.Nodup.sublist ((List.filter_sublist _).map Prod.fst) f2
  · exact f3
  · show ∀ p ∈ (ctx.out_groups.foldl (fun cx gid => empty_group_to_newq gid cx) ctx).groups.filter
        (fun p => p.1 ∉ (ctx.out_groups.foldl (fun cx gid => empty_group_to_newq gid cx) ctx).out_groups), p.1 < (ctx.out_groups.foldl (fun cx gid => empty_group_to_newq gid cx) ctx).nextGroup
    intro p hp
    exact f4 p (List.mem_of_mem_filter hp)
  · show ∀ p ∈ (ctx.out_groups.foldl (fun cx gid => empty_group_to_newq gid cx) ctx).groups.filter
        (fun p => p.1 ∉ (ctx.out_groups.foldl (fun cx gid => empty_group_to_newq gid cx) ctx).out_groups), p.2.members.Nodup
    intro p hp
    exact f5 p (List.mem_of_mem_filter hp)
  · exact f6
  · show ∀ p ∈ (ctx.out_groups.foldl (fun cx gid => empty_group_to_newq gid cx) ctx).groups.filter
        (fun p => p.1 ∉ (ctx.out_groups.foldl (fun cx gid => empty_group_to_newq gid cx) ctx).out_groups),
        ∀ cid ∈ p.2.members, memberOk (ctx.out_groups.foldl (fun cx gid => empty_group_to_newq gid cx) ctx).conns p.1 cid = true
    intro p hp cid hcid
    exact f7 p (List.mem_of_mem_filter hp) cid hcid
  · show ∀ p ∈ (ctx.out_groups.foldl (fun cx gid => empty_group_to_newq gid cx) ctx).conns,
        connOwnerOk ((ctx.out_groups.foldl (fun cx gid => empty_group_to_newq gid cx) ctx).groups.filter
          (fun p => p.1 ∉ (ctx.out_groups.foldl (fun cx gid => empty_group_to_newq gid cx) ctx).out_groups)) p.1 p.2 = true
    intro p hp
    have hold := f8 p hp
    rcases hgp : p.2.group with _ | gid2
    · simp [connOwnerOk, hgp]
    · obtain ⟨g2, hg2, hm2⟩ := connOwnerOk_spec _ _ _ _ hold hgp
      have hnot : gid2 ∉ (ctx.out_groups.foldl (fun cx gid => empty_group_to_newq gid cx) ctx).out_groups := by
        intro hin
        rw [hout] at hin
        have hemp := hempt gid2 hin g2 hg2
        rw [hemp] at hm2
        exact absurd hm2 (List.not_mem_nil p.1)
      refine connOwnerOk_intro _ _ _ gid2 g2 hgp ?_ hm2
      rw [alook_filter_keys, if_neg hnot]
      exact hg2
  · exact f9
  · show ∀ p ∈ (ctx.out_groups.foldl (fun cx gid => empty_group_to_newq gid cx) ctx).groups.filter
        (fun p => p.1 ∉ (ctx.out_groups.foldl (fun cx gid => empty_group_to_newq gid cx) ctx).out_groups),
        parentOk (ctx.out_groups.foldl (fun cx gid => empty_group_to_newq gid cx) ctx).conns
          ((ctx.out_groups.foldl (fun cx gid => empty_group_to_newq gid cx) ctx).groups.filter
            (fun p => p.1 ∉ (ctx.out_groups.foldl (fun cx gid => empty_group_to_newq gid cx) ctx).out_groups))
          (ctx.out_groups.foldl (fun cx gid => empty_group_to_newq gid cx) ctx).newq p.1 p.2 = true
    intro p hp
    have hold := f10 p (List.mem_of_mem_filter hp)
    rcases hpar : p.2.parent with _ | pcid
    · simp [parentOk, hpar]
    · obtain ⟨pc, hpc, hpcg, hpcq, hpu⟩ := parentOk_spec _ _ _ _ _ _ hold hpar
      refine parentOk_intro _ _ _ p.1 p.2 pcid pc hpar hpc hpcg hpcq ?_
      intro q hq
      exact hpu q (List.mem_of_mem_filter hq)
  · show ((ctx.out_groups.foldl (fun cx gid => empty_group_to_newq gid cx) ctx).listen_groups ++ [] ++
        (ctx.out_groups.foldl (fun cx gid => empty_group_to_newq gid cx) ctx).filters.map Prod.snd).Nodup
    rw [hlst, hflt, List.append_nil]
    have h11 : ((ctx.listen_groups ++ ctx.out_groups) ++ ctx.filters.map Prod.snd).Nodup :=
      hwf.2.2.2.2.2.2.2.2.2.2.1
    refine List.Nodup.sublist ?_ h11
    exact List.Sublist.append (List.sublist_append_left _ _) (List.Sublist.refl _)
  · show ∀ gid ∈ (ctx.out_groups.foldl (fun cx gid => empty_group_to_newq gid cx) ctx).listen_groups ++ [] ++
        (ctx.out_groups.foldl (fun cx gid => empty_group_to_newq gid cx) ctx).filters.map Prod.snd,
        (alook gid ((ctx.out_groups.foldl (fun cx gid => empty_group_to_newq gid cx) ctx).groups.filter
          (fun p => p.1 ∉ (ctx.out_groups.foldl (fun cx gid => empty_group_to_newq gid cx) ctx).out_groups))).isSome = true
    intro gid hgm
    rw [List.append_nil] at hgm
    have hgmF : gid ∈ (ctx.out_groups.foldl (fun cx gid => empty_group_to_newq gid cx) ctx).listen_groups ++
        (ctx.out_groups.foldl (fun cx gid => empty_group_to_newq gid cx) ctx).out_groups ++
        (ctx.out_groups.foldl (fun cx gid => empty_group_to_newq gid cx) ctx).filters.map Prod.snd := by
      rcases List.mem_append.mp hgm with h | h
      · exact List.mem_append.mpr (Or.inl (List.mem_append.mpr (Or.inl h)))
      · exact List.mem_append.mpr (Or.inr h)
    have hsome := f12 gid hgmF
    have hnot : gid ∉ (ctx.out_groups.foldl (fun cx gid => empty_group_to_newq gid cx) ctx).out_groups := by
      intro hin
      have f11x : (((ctx.out_groups.foldl (fun cx gid => empty_group_to_newq gid cx) ctx).listen_groups ++
          (ctx.out_groups.foldl (fun cx gid => empty_group_to_newq gid cx) ctx).out_groups) ++
          (ctx.out_groups.foldl (fun cx gid => empty_group_to_newq gid cx) ctx).filters.map Prod.snd).Nodup := f11
      rcases List.mem_append.mp hgm with h | h
      · exact (List.disjoint_of_nodup_append f11x.of_append_left) h hin
      · exact (List.disjoint_of_nodup_append f11x)
          (List.mem_append.mpr (Or.inr hin)) h
    rw [alook_filter_keys, if_neg hnot]
    exact hsome
  · show ∀ gid ∈ ([] : List Nat), group_get_parent (switch_drain ctx newPol) gid = none
    intro gid hgm
    exact absurd hgm (List.not_mem_nil gid)

/-- **C7.** Amended characterisation of `switch_grouping` on a changed
policy: it is exactly the drain phase followed by a re-run of
`rotate_new_queue`; the new policy is installed; the rotation drains
the pending queue; the result is well formed; the outbound list is
rebuilt from scratch (every old outbound group is dropped from the
heap); every previously outbound record is pulled from its group and
pushed unowned onto the pending queue, and after the re-rotation it
belongs to exactly one group (it may be captured by a persistent
listening group, cf. the counterexample); and every group on the new
outbound list carries a filter built under the new policy. -/
theorem c7_switch_grouping (ctx : StatContext) (newPol : Nat) (now : Int)
    (hwf : WF ctx) (hne : ctx.common_policy ≠ newPol) :
    switch_grouping ctx newPol now = rotate_new_queue now (switch_drain ctx newPol) ∧
    (switch_grouping ctx newPol now).common_policy = newPol ∧
    (switch_grouping ctx newPol now).newq = [] ∧
    WF (switch_grouping ctx newPol now) ∧
    (switch_drain ctx newPol).out_groups = [] ∧
    (∀ gid ∈ ctx.out_groups, alook gid (switch_drain ctx newPol).groups = none) ∧
    (∀ gid ∈ ctx.out_groups, ∀ g, alook gid ctx.groups = some g → ∀ cid ∈ g.members,
      cid ∈ (switch_drain ctx newPol).newq ∧
      (∀ c, alook cid (switch_drain ctx newPol).conns = some c → c.group = none)) ∧
    (∀ gid ∈ ctx.out_groups, ∀ g, alook gid ctx.groups = some g → ∀ cid ∈ g.members,
      ∃ c, alook cid (switch_grouping ctx newPol now).conns = some c ∧
        ∃ gid2, c.group = some gid2 ∧
          (∃ g2, alook gid2 (switch_grouping ctx newPol now).groups = some g2 ∧
            cid ∈ g2.members) ∧
          ∀ q ∈ (switch_grouping ctx newPol now).groups, q.1 ≠ gid2 → cid ∉ q.2.members) ∧
    (∀ gid ∈ (switch_grouping ctx newPol now).out_groups,
      ∃ g, alook gid (switch_grouping ctx newPol now).groups = some g ∧
        ∃ f, g.grp_filter = some f ∧ f.policy = newPol) := by
  have heq : switch_grouping ctx newPol now
      = rotate_new_queue now (switch_drain ctx newPol) := by
    unfold switch_grouping switch_drain
    rw [if_neg hne]
  obtain ⟨hout, hlst, hflt, hpol, hnc, hng, hlin, hgk, hck⟩ :=
    drain_fold_frames ctx.out_groups ctx
  have hwfD := wf_switch_drain ctx hwf newPol
  have hwfR := wf_rotate_new_queue now (switch_drain ctx newPol) hwfD
  have hDpol : (switch_drain ctx newPol).common_policy = newPol := rfl
  have hDout : (switch_drain ctx newPol).out_groups = [] := rfl
  have hwf7 := hwf.2.2.2.2.2.2.1
  have hnd := wf_out_nodup ctx hwf
  have hdisj : ∀ gid ∈ ctx.out_groups, ∀ g, alook gid ctx.groups = some g →
      ∀ gid2 ∈ ctx.out_groups, gid2 ≠ gid → ∀ g2, alook gid2 ctx.groups = some g2 →
        ∀ x ∈ g.members, x ∉ g2.members := by
    intro gid hgm g hg gid2 hgm2 hne2 g2 hg2 x hx
    obtain ⟨c, hc, hcg⟩ := memberOk_spec _ _ _
      (hwf7 (gid, g) (alook_eq_some_mem _ _ _ hg) x hx)
    exact wf_member_only_of_group ctx hwf x c gid hc hcg (gid2, g2)
      (alook_eq_some_mem _ _ _ hg2) hne2
  have hmemfact := drain_fold_members ctx.out_groups ctx hnd hdisj
  have hdrain : ∀ gid ∈ ctx.out_groups, ∀ g, alook gid ctx.groups = some g →
      ∀ cid ∈ g.members,
      cid ∈ (switch_drain ctx newPol).newq ∧
      (∀ c, alook cid (switch_drain ctx newPol).conns = some c → c.group = none) := by
    intro gid hgm g hg cid hcid
    obtain ⟨hq, hgn⟩ := hmemfact gid hgm g hg cid hcid
    exact ⟨hq, hgn⟩
  refine ⟨heq, ?_, ?_, ?_, hDout, ?_, hdrain, ?_, ?_⟩
  · rw [heq, rotate_new_queue_policy]
    exact hDpol
  · rw [heq]
    exact rotate_new_queue_newq now _
  · rw [heq]
    exact hwfR
  · intro gid hgm
    show alook gid ((ctx.out_groups.foldl (fun cx gid => empty_group_to_newq gid cx) ctx).groups.filter
        (fun p => p.1 ∉ (ctx.out_groups.foldl (fun cx gid => empty_group_to_newq gid cx) ctx).out_groups)) = none
    rw [alook_filter_keys, if_pos (show gid ∈ (ctx.out_groups.foldl (fun cx gid => empty_group_to_newq gid cx) ctx).out_groups by rw [hout]; exact hgm)]
  · intro gid hgm g hg cid hcid
    obtain ⟨hq, hgn⟩ := hdrain gid hgm g hg cid hcid
    have hsD : (alook cid (switch_drain ctx newPol).conns).isSome = true := by
      show (alook cid (ctx.out_groups.foldl (fun cx gid => empty_group_to_newq gid cx) ctx).conns).isSome = true
      rw [drain_fold_isSome ctx.out_groups ctx cid]
      obtain ⟨c0, hc0, _⟩ := memberOk_spec _ _ _
        (hwf7 (gid, g) (alook_eq_some_mem _ _ _ hg) cid hcid)
      rw [hc0]
      rfl
    obtain ⟨cD, hcD⟩ := Option.isSome_iff_exists.mp hsD
    have hndq : (switch_drain ctx newPol).newq.Nodup := hwfD.2.2.2.2.2.1
    obtain ⟨c, hc, hcs⟩ := rotate_list_assigns now (switch_drain ctx newPol).newq
      { switch_drain ctx newPol with newq := [] } hndq cid hq cD hcD
    obtain ⟨gid2, hg2⟩ := Option.isSome_iff_exists.mp hcs
    rw [heq]
    have hcR : alook cid (rotate_new_queue now (switch_drain ctx newPol)).conns
        = some c := hc
    refine ⟨c, hcR, gid2, hg2, ?_, ?_⟩
    · have h8R := hwfR.2.2.2.2.2.2.2.1
      have hmemR := h8R (cid, c) (alook_eq_some_mem _ _ _ hcR)
      exact connOwnerOk_spec _ _ _ _ hmemR hg2
    · intro q hq2 hne2
      exact wf_member_only_of_group _ hwfR cid c gid2 hcR hg2 q hq2 hne2
  · have hPinit : ∀ gid ∈ (switch_drain ctx newPol).out_groups,
        ∃ g, alook gid (switch_drain ctx newPol).groups = some g ∧
        ∃ f, g.grp_filter = some f ∧
          f.policy = (switch_drain ctx newPol).common_policy := by
      intro gid hgm
      rw [hDout] at hgm
      exact absurd hgm (List.not_mem_nil gid)
    have hfilt := rotate_new_queue_out_filters now (switch_drain ctx newPol) hPinit
    rw [heq]
    intro gid hgm
    obtain ⟨g, hgl, f, hf, hfp⟩ := hfilt gid hgm
    refine ⟨g, hgl, f, hf, ?_⟩
    rw [hfp, rotate_new_queue_policy]
    exact hDpol

/-- Concrete application of the amended C7 theorem: the PORT-policy
tracker `exC7ctx0` is well formed, the policy actually changes, and
the switch installs the STATE policy. -/
theorem c7_switch_grouping_witness :
    WF exC7ctx0 ∧ exC7ctx0.common_policy ≠ POLICY_STATE ∧
    (switch_grouping exC7ctx0 POLICY_STATE 4).common_policy = POLICY_STATE := by
  have hwf : WF exC7ctx0 := by
    unfold WF
    decide
  have hne : exC7ctx0.common_policy ≠ POLICY_STATE := by decide
  exact ⟨hwf, hne, (c7_switch_grouping exC7ctx0 POLICY_STATE 4 hwf hne).2.1⟩

theorem purge_members_alook_not_mem (gid : Nat) (dl : Bool) (now : Int)
    (ms : List Nat) (ctx : StatContext) (x : Nat) (hx : x ∉ ms) :
    alook x (purge_members gid dl now ms ctx).1.conns = alook x ctx.conns := by
  induction ms generalizing ctx with
  | nil => rfl
  | cons cid rest ih =>
    have hxr : x ∉ rest := fun h => hx (List.mem_cons_of_mem _ h)
    have hxne : x ≠ cid := fun he => hx (he ▸ List.mem_cons_self _ _)
    unfold purge_members
    dsimp only []
    split
    · exact ih ctx hxr
    · rename_i c halook
      split
      · split
        · rcases hres : purge_members gid dl now rest
            (updConn cid (fun _ => (do_lingering now c).2) ctx) with ⟨ctx2, n⟩
          have hi := ih (updConn cid (fun _ => (do_lingering now c).2) ctx) hxr
          rw [hres] at hi
          have hstep : alook x (updConn cid (fun _ => (do_lingering now c).2) ctx).conns
              = alook x ctx.conns := by
            show alook x (aupd cid (fun _ => (do_lingering now c).2) ctx.conns)
              = alook x ctx.conns
            rw [alook_aupd_ne _ _ _ _ hxne]
          exact hi.trans hstep
        · rcases hres : purge_members gid dl now rest
            { group_remove_connection gid cid ctx with
              conns := aerase cid (group_remove_connection gid cid ctx).conns }
            with ⟨ctx2, n⟩
          have hi := ih { group_remove_connection gid cid ctx with
              conns := aerase cid (group_remove_connection gid cid ctx).conns } hxr
          rw [hres] at hi
          have hstep : alook x { group_remove_connection gid cid ctx with
              conns := aerase cid (group_remove_connection gid cid ctx).conns }.conns
              = alook x ctx.conns := by
            show alook x (aerase cid (aupd cid (fun c => { c with group := none })
              ctx.conns)) = alook x ctx.conns
            rw [alook_aerase_ne _ _ _ hxne, alook_aupd_ne _ _ _ _ hxne]
          exact hi.trans hstep
      · exact ih ctx hxr

theorem purge_members_alook_none (gid : Nat) (dl : Bool) (now : Int)
    (ms : List Nat) (ctx : StatContext) (x : Nat)
    (hx : alook x ctx.conns = none) :
    alook x (purge_members gid dl now ms ctx).1.conns = none := by
  induction ms generalizing ctx with
  | nil => exact hx
  | cons cid rest ih =>
    unfold purge_members
    dsimp only []
    split
    · exact ih ctx hx
    · rename_i c halook
      split
      · split
        · rcases hres : purge_members gid dl now rest
            (updConn cid (fun _ => (do_lingering now c).2) ctx) with ⟨ctx2, n⟩
          have hx2 : alook x (updConn cid (fun _ => (do_lingering now c).2) ctx).conns
              = none := by
            show alook x (aupd cid (fun _ => (do_lingering now c).2) ctx.conns) = none
            rw [alook_aupd]
            by_cases he : x = cid
            · rw [if_pos he, hx]
              rfl
            · rw [if_neg he]
              exact hx
          have hi := ih (updConn cid (fun _ => (do_lingering now c).2) ctx) hx2
          rw [hres] at hi
          exact hi
        · rcases hres : purge_members gid dl now rest
            { group_remove_connection gid cid ctx with
              conns := aerase cid (group_remove_connection gid cid ctx).conns }
            with ⟨ctx2, n⟩
          have hx2 : alook x { group_remove_connection gid cid ctx with
              conns := aerase cid (group_remove_connection gid cid ctx).conns }.conns
              = none := by
            show alook x (aerase cid (aupd cid (fun c => { c with group := none })
              ctx.conns)) = none
            by_cases he : x = cid
            · rw [he, alook_aerase_self]
            · rw [alook_aerase_ne _ _ _ he, alook_aupd_ne _ _ _ _ he]
              exact hx
          have hi := ih { group_remove_connection gid cid ctx with
              conns := aerase cid (group_remove_connection gid cid ctx).conns } hx2
          rw [hres] at hi
          exact hi
      · exact ih ctx hx

theorem delete_listen_conns (gid : Nat) (ctx : StatContext) :
    (delete_listen_if_empty gid ctx).conns = ctx.conns := by
  unfold delete_listen_if_empty
  split
  · rfl
  · rfl

/-- The fate of one member record under the member purge: a touched
record is untouched by the purge; an untouched record is removed when
lingering is off, moved to `TCP_DEAD` with deadline `now + 5` when it
is freshly closed and lingering is on, removed once the deadline has
passed, and left alone while the deadline has not passed. -/
theorem purge_members_fate (gid : Nat) (dl : Bool) (now : Int) (ms : List Nat)
    (ctx : StatContext) (cid : Nat) (c : TcpConn)
    (hnd : ms.Nodup) (hcid : cid ∈ ms) (hc : alook cid ctx.conns = some c) :
    (metadata_is_touched c.metadata = true →
      alook cid (purge_members gid dl now ms ctx).1.conns = some c) ∧
    (metadata_is_touched c.metadata = false → dl = false →
      alook cid (purge_members gid dl now ms ctx).1.conns = none) ∧
    (metadata_is_touched c.metadata = false → dl = true → c.state ≠ TcpState.TCP_DEAD →
      alook cid (purge_members gid dl now ms ctx).1.conns
        = some { c with state := TcpState.TCP_DEAD, metadata := { c.metadata with linger_secs := now + LINGER_MAX_TIME } }) ∧
    (metadata_is_touched c.metadata = false → dl = true → c.state = TcpState.TCP_DEAD →
      c.metadata.linger_secs < now →
      alook cid (purge_members gid dl now ms ctx).1.conns = none) ∧
    (metadata_is_touched c.metadata = false → dl = true → c.state = TcpState.TCP_DEAD →
      ¬ c.metadata.linger_secs < now →
      alook cid (purge_members gid dl now ms ctx).1.conns = some c) := by
  induction ms generalizing ctx with
  | nil => exact absurd hcid (List.not_mem_nil cid)
  | cons cidh rest ih =>
    have hnd' := List.nodup_cons.mp hnd
    rcases List.mem_cons.mp hcid with he | hmr
    · subst he
      clear ih
      unfold purge_members
      dsimp only []
      rw [hc]
      dsimp only []
      have hkeep := purge_members_alook_not_mem gid dl now rest
      rcases ht : metadata_is_touched c.metadata with _ | _
      · -- untouched
        rw [if_pos (show ¬false = true from fun h => Bool.noConfusion h)]
        rcases hdlv : dl with _ | _
        · -- lingering off: unlink and erase
          rw [if_neg (fun h => Bool.noConfusion h.1)]
          have hgone : alook cid (purge_members gid false now rest
              { group_remove_connection gid cid ctx with
                conns := aerase cid (group_remove_connection gid cid ctx).conns }).1.conns
              = none := by
            refine (purge_members_alook_not_mem gid false now rest _ cid hnd'.1).trans ?_
            show alook cid (aerase cid (aupd cid (fun c => { c with group := none })
              ctx.conns)) = none
            rw [alook_aerase_self]
          exact ⟨fun h1 => Bool.noConfusion h1,
            fun _ _ => hgone,
            fun _ h3 => Bool.noConfusion h3,
            fun _ h4 => Bool.noConfusion h4,
            fun _ h5 => Bool.noConfusion h5⟩
        · -- lingering on
          by_cases hst : c.state = TcpState.TCP_DEAD
          · have hdval : do_lingering now c = (decide (c.metadata.linger_secs < now), c) := by
              unfold do_lingering
              rw [if_neg (fun h => h hst)]
            rw [hdval]
            by_cases hlg : c.metadata.linger_secs < now
            · -- deadline passed: erase
              rw [if_neg (fun h => h.2 (decide_eq_true hlg))]
              have hgone : alook cid (purge_members gid true now rest
                  { group_remove_connection gid cid ctx with
                    conns := aerase cid (group_remove_connection gid cid ctx).conns }).1.conns
                  = none := by
                refine (purge_members_alook_not_mem gid true now rest _ cid hnd'.1).trans ?_
                show alook cid (aerase cid (aupd cid (fun c => { c with group := none })
                  ctx.conns)) = none
                rw [alook_aerase_self]
              exact ⟨fun h1 => Bool.noConfusion h1,
                fun _ h2 => Bool.noConfusion h2,
                fun _ _ h3 => absurd hst h3,
                fun _ _ _ _ => hgone,
                fun _ _ _ h5 => absurd hlg h5⟩
            · -- still lingering: record kept as is
              rw [if_pos ⟨rfl, fun h => absurd (of_decide_eq_true h) hlg⟩]
              have hsame : alook cid (purge_members gid true now rest
                  (updConn cid (fun _ => ((decide (c.metadata.linger_secs < now), c) : Bool × TcpConn).2) ctx)).1.conns
                  = some c := by
                refine (purge_members_alook_not_mem gid true now rest _ cid hnd'.1).trans ?_
                show alook cid (aupd cid
                  (fun _ => ((decide (c.metadata.linger_secs < now), c) : Bool × TcpConn).2)
                  ctx.conns) = some c
                rw [alook_aupd_self, hc]
                rfl
              exact ⟨fun h1 => Bool.noConfusion h1,
                fun _ h2 => Bool.noConfusion h2,
                fun _ _ h3 => absurd hst h3,
                fun _ _ _ h4 => absurd h4 hlg,
                fun _ _ _ _ => hsame⟩
          · have hdval : do_lingering now c
                = (false, { c with state := TcpState.TCP_DEAD, metadata := { c.metadata with linger_secs := now + LINGER_MAX_TIME } }) := by
              unfold do_lingering
              rw [if_pos hst]
            rw [hdval]
            rw [if_pos ⟨rfl, fun h => Bool.noConfusion h⟩]
            have hdead : alook cid (purge_members gid true now rest
                (updConn cid (fun _ => ((false, { c with state := TcpState.TCP_DEAD, metadata := { c.metadata with linger_secs := now + LINGER_MAX_TIME } }) : Bool × TcpConn).2) ctx)).1.conns
                = some { c with state := TcpState.TCP_DEAD, metadata := { c.metadata with linger_secs := now + LINGER_MAX_TIME } } := by
              refine (purge_members_alook_not_mem gid true now rest _ cid hnd'.1).trans ?_
              show alook cid (aupd cid
                (fun _ => ((false, { c with state := TcpState.TCP_DEAD, metadata := { c.metadata with linger_secs := now + LINGER_MAX_TIME } }) : Bool × TcpConn).2)
                ctx.conns)
                = some { c with state := TcpState.TCP_DEAD, metadata := { c.metadata with linger_secs := now + LINGER_MAX_TIME } }
              rw [alook_aupd_self, hc]
              rfl
            exact ⟨fun h1 => Bool.noConfusion h1,
              fun _ h2 => Bool.noConfusion h2,
              fun _ _ _ => hdead,
              fun _ _ h4 _ => absurd h4 hst,
              fun _ _ h5 _ => absurd h5 hst⟩
      · -- touched: the record is left alone
        rw [if_neg (show ¬¬true = true from fun hC => hC rfl)]
        have hsame : alook cid (purge_members gid dl now rest ctx).1.conns = some c :=
          (hkeep ctx cid hnd'.1).trans hc
        exact ⟨fun _ => hsame,
          fun hf => Bool.noConfusion hf,
          fun hf _ => Bool.noConfusion hf,
          fun hf _ _ => Bool.noConfusion hf,
          fun hf _ _ _ => Bool.noConfusion hf⟩
    · -- the target is further down the list
      have hne : cid ≠ cidh := fun he => hnd'.1 (he ▸ hmr)
      unfold purge_members
      dsimp only []
      split
      · exact ih ctx hnd'.2 hmr hc
      · rename_i c2 halook2
        split
        · split
          · have hcT : alook cid (updConn cidh (fun _ => (do_lingering now c2).2) ctx).conns
                = some c := by
              show alook cid (aupd cidh (fun _ => (do_lingering now c2).2) ctx.conns)
                = some c
              rw [alook_aupd_ne _ _ _ _ hne]
              exact hc
            exact ih (updConn cidh (fun _ => (do_lingering now c2).2) ctx)
              hnd'.2 hmr hcT
          · have hcT : alook cid { group_remove_connection gid cidh ctx with
                conns := aerase cidh (group_remove_connection gid cidh ctx).conns }.conns
                = some c := by
              show alook cid (aerase cidh (aupd cidh (fun c => { c with group := none })
                ctx.conns)) = some c
              rw [alook_aerase_ne _ _ _ hne, alook_aupd_ne _ _ _ _ hne]
              exact hc
            exact ih { group_remove_connection gid cidh ctx with
                conns := aerase cidh (group_remove_connection gid cidh ctx).conns }
              hnd'.2 hmr hcT
        · exact ih ctx hnd'.2 hmr hc

/-- **C8.** Counterexample to the claim as stated: in `exC8ctx1`
lingering is enabled and the listening parent record `0` is
untouched, yet a single purge removes it outright — it is not
transitioned to `TCP_DEAD` and kept for the 5-second grace period;
the listening-list loop removes an untouched parent immediately,
bypassing `do_lingering`. -/
theorem c8_parent_no_linger_counterexample :
    exC8ctx1.linger = true ∧
    (alook 0 exC8ctx1.conns).map (fun c => metadata_is_touched c.metadata)
      = some false ∧
    group_get_parent exC8ctx1 0 = some 0 ∧
    (0 : Nat) ∈ exC8ctx1.listen_groups ∧
    (alook 0 exC8ctx1.conns).isSome = true ∧
    alook 0 (purge_closed_connections exC8ctx1 10 20).1.conns = none := by
  decide

/-- **C8.** Amended lingering behaviour, for a member record of a
group: a touched record survives the purge unchanged; an untouched
one is unlinked and removed when lingering is disabled; with
lingering enabled it moves to the `TCP_DEAD` pseudo-state with
deadline `now + 5` when freshly closed, is removed by a purge after
the deadline has passed, and is kept unchanged while it has not.  A
listening parent is the exception the original claim misses: an
untouched parent is removed immediately by the listening-list loop
even when lingering is enabled (last conjunct). -/
theorem c8_lingering (gid : Nat) (dl : Bool) (now : Int) (ctx : StatContext)
    (g : ConnGroup) (hwf : WF ctx) (hg : alook gid ctx.groups = some g)
    (cid : Nat) (c : TcpConn) (hcid : cid ∈ g.members)
    (hc : alook cid ctx.conns = some c) :
    (metadata_is_touched c.metadata = true →
      alook cid (purge_closed_from_group gid dl now ctx).1.conns = some c) ∧
    (metadata_is_touched c.metadata = false → dl = false →
      alook cid (purge_closed_from_group gid dl now ctx).1.conns = none) ∧
    (metadata_is_touched c.metadata = false → dl = true → c.state ≠ TcpState.TCP_DEAD →
      alook cid (purge_closed_from_group gid dl now ctx).1.conns
        = some { c with state := TcpState.TCP_DEAD, metadata := { c.metadata with linger_secs := now + LINGER_MAX_TIME } }) ∧
    (metadata_is_touched c.metadata = false → dl = true → c.state = TcpState.TCP_DEAD →
      c.metadata.linger_secs < now →
      alook cid (purge_closed_from_group gid dl now ctx).1.conns = none) ∧
    (metadata_is_touched c.metadata = false → dl = true → c.state = TcpState.TCP_DEAD →
      ¬ c.metadata.linger_secs < now →
      alook cid (purge_closed_from_group gid dl now ctx).1.conns = some c) ∧
    (∀ cnt : Int, 0 < cnt → ∀ pcid pc, group_get_parent ctx gid = some pcid →
      alook pcid ctx.conns = some pc → metadata_is_touched pc.metadata = false →
      alook pcid (purge_listen_list dl now [gid] ctx cnt).1.conns = none) := by
  have hnd : g.members.Nodup :=
    hwf.2.2.2.2.1 (gid, g) (alook_eq_some_mem _ _ _ hg)
  have hfate := purge_members_fate gid dl now g.members ctx cid c hnd hcid hc
  have hpcfg : purge_closed_from_group gid dl now ctx
      = purge_members gid dl now g.members ctx := by
    unfold purge_closed_from_group
    rw [hg]
  refine ⟨?_, ?_, ?_, ?_, ?_, ?_⟩
  · rw [hpcfg]
    exact hfate.1
  · rw [hpcfg]
    exact hfate.2.1
  · rw [hpcfg]
    exact hfate.2.2.1
  · rw [hpcfg]
    exact hfate.2.2.2.1
  · rw [hpcfg]
    exact hfate.2.2.2.2
  · intro cnt hcnt pcid pc hpar hpc hpt
    unfold purge_listen_list
    dsimp only []
    rw [if_neg (not_le.mpr hcnt)]
    rw [hpar]
    dsimp only []
    rw [hpc]
    dsimp only []
    rw [if_pos (show ¬ metadata_is_touched pc.metadata = true from
      fun h => Bool.noConfusion (hpt.symm.trans h))]
    have hnone : alook pcid (purge_closed_from_group gid dl now
        (updGroup gid (fun g => { g with parent := none })
          { ctx with conns := aerase pcid ctx.conns })).1.conns = none := by
      unfold purge_closed_from_group
      refine purge_members_alook_none gid dl now _ _ pcid ?_
      show alook pcid (aerase pcid ctx.conns) = none
      exact alook_aerase_self pcid ctx.conns
    show alook pcid (delete_listen_if_empty gid (purge_closed_from_group gid dl now
        (updGroup gid (fun g => { g with parent := none })
          { ctx with conns := aerase pcid ctx.conns })).1).conns = none
    rw [delete_listen_conns]
    exact hnone

/-- Concrete application of the amended C8 theorem: in `exC8mctx`
(lingering on) the untouched established member record moves to
`TCP_DEAD` with deadline `7 + 5`. -/
theorem c8_lingering_witness :
    WF exC8mctx ∧
    alook 0 exC8mctx.groups
      = some { grp_filter := none, members := [0], parent := none } ∧
    (0 : Nat) ∈ ({ grp_filter := none, members := [0], parent := none } : ConnGroup).members ∧
    alook 0 exC8mctx.conns = some exC8conn ∧
    metadata_is_touched exC8conn.metadata = false ∧
    exC8conn.state ≠ TcpState.TCP_DEAD ∧
    alook 0 (purge_closed_from_group 0 true 7 exC8mctx).1.conns
      = some { exC8conn with state := TcpState.TCP_DEAD, metadata := { exC8conn.metadata with linger_secs := 7 + LINGER_MAX_TIME } } := by
  have hwf : WF exC8mctx := by
    unfold WF
    decide
  have hg : alook 0 exC8mctx.groups
      = some { grp_filter := none, members := [0], parent := none } := rfl
  have hcid : (0 : Nat) ∈ ({ grp_filter := none, members := [0], parent := none } : ConnGroup).members := by
    decide
  have hc : alook 0 exC8mctx.conns = some exC8conn := rfl
  have ht : metadata_is_touched exC8conn.metadata = false := by decide
  have hst : exC8conn.state ≠ TcpState.TCP_DEAD := by decide
  exact ⟨hwf, hg, hcid, hc, ht, hst,
    (c8_lingering 0 true 7 exC8mctx { grp_filter := none, members := [0], parent := none }
      hwf hg 0 exC8conn hcid hc).2.2.1 ht rfl hst⟩

end Tcpstat
